import Mathlib

/-!
GAMER particle time-step estimation: the routine `Par_GetTimeStep_VelAcc`.

Shallow embedding of `src/Particle/Par_GetTimeStep_VelAcc.cpp`.

Numbers.  A finite value of the C types `real` and `double` is a rational number, and the
two zeros of IEEE-754 are identified (zero divides like `+0`).  The results of a division
or a square root can be infinite or not-a-number, so every computed `double` lives in
`Dbl`, which adds `+inf`, `-inf` and `NaN` to the rationals with the IEEE rules for `*`,
`/`, `<` and `sqrt`.  The inputs of the routine (cell widths, particle velocities and
accelerations, stored extrema, run-time parameters) are finite values.

Rounding.  The first embedding of the routine computes every quotient and product
exactly; it serves the properties that do not depend on the rounding of these results
(the scan, the selection, the outcome of a call, the frame).  The section on rounded
arithmetic defines the IEEE-754 rounding to nearest and embeds the routine a second time
with every arithmetic result rounded; the copy-back `Grackle_Close` is embedded with
rounding from the start.
-/

namespace Gamer

/-- An idealised C `double`: a finite rational value, an infinity or NaN. -/
inductive Dbl where
  | fin (q : ℚ)
  | pinf
  | ninf
  | nan
  deriving DecidableEq

namespace Dbl

/-- IEEE `a < b`: false as soon as one side is NaN. -/
def lt : Dbl → Dbl → Bool
  | fin a, fin b => decide (a < b)
  | fin _, pinf => true
  | ninf, fin _ => true
  | ninf, pinf => true
  | _, _ => false

/-- IEEE `a == b`: false as soon as one side is NaN. -/
def eq : Dbl → Dbl → Bool
  | fin a, fin b => decide (a = b)
  | pinf, pinf => true
  | ninf, ninf => true
  | _, _ => false

/-- IEEE `a <= b`. -/
def le (a b : Dbl) : Bool := lt a b || eq a b

/-- An infinity of the sign of `s` times the sign `pos`; NaN for `s = 0`. -/
def infOfSign (pos : Bool) (s : ℚ) : Dbl :=
  if 0 < s then (if pos then pinf else ninf)
  else if s < 0 then (if pos then ninf else pinf)
  else nan

/-- IEEE `a * b`. -/
def mul : Dbl → Dbl → Dbl
  | nan, _ => nan
  | _, nan => nan
  | fin a, fin b => fin (a * b)
  | fin a, pinf => infOfSign true a
  | fin a, ninf => infOfSign false a
  | pinf, fin b => infOfSign true b
  | ninf, fin b => infOfSign false b
  | pinf, pinf => pinf
  | pinf, ninf => ninf
  | ninf, pinf => ninf
  | ninf, ninf => pinf

/-- IEEE `a / b`, a zero divisor counting as `+0`. -/
def div : Dbl → Dbl → Dbl
  | nan, _ => nan
  | _, nan => nan
  | fin a, fin b => if b = 0 then infOfSign true a else fin (a / b)
  | fin _, pinf => fin 0
  | fin _, ninf => fin 0
  | pinf, fin b => if 0 ≤ b then pinf else ninf
  | ninf, fin b => if 0 ≤ b then ninf else pinf
  | pinf, pinf => nan
  | pinf, ninf => nan
  | ninf, pinf => nan
  | ninf, ninf => nan

/-- The C library `sqrt`; `sq` is its value on the non-negative finite numbers. -/
def sqrt (sq : ℚ → ℚ) : Dbl → Dbl
  | fin a => if a < 0 then nan else fin (sq a)
  | pinf => pinf
  | ninf => nan
  | nan => nan

end Dbl

/-- Modelled from the spec: the macro `MAX` of GAMER's `Macro.h` (not under src/),
`( (a) > (b) ) ? (a) : (b)`, the "maximum" of section 4.1. -/
def MAX (a b : ℚ) : ℚ := if a > b then a else b

/-- Modelled from the spec: the macro `MIN` of GAMER's `Macro.h` (not under src/),
`( (a) < (b) ) ? (a) : (b)`, the `min(dt, ceiling)` of section 4.3. -/
def MIN (a b : Dbl) : Dbl := if Dbl.lt a b then a else b

/-- Modelled from the spec: the macro `FABS` of GAMER's `Macro.h` (not under src/),
the magnitude of a component. -/
def FABS (a : ℚ) : ℚ := |a|

/-- The constant `__FLT_MAX__`, the largest finite single-precision value
`(2^24 - 1) * 2^104`. -/
def FLT_MAX : ℚ := 340282346638528859811704183484516925440

/-- Two's-complement wrap of an integer to the 32-bit `int` range. -/
def wrap32 (x : Int) : Int := (x + 2147483648) % 4294967296 - 2147483648

/-- The `int` expression `1<<n`. -/
def shl1 (n : Nat) : Int := wrap32 (2 ^ n)

/-- Compile-time options and run-time parameters read by the routine. -/
structure Config where
  /-- number of refinement levels -/
  NLEVEL : Nat
  /-- compile-time option `STORE_PAR_ACC` -/
  STORE_PAR_ACC : Bool
  /-- compile-time option `INDIVIDUAL_TIMESTEP` -/
  INDIVIDUAL_TIMESTEP : Bool
  /-- run-time flag `OPT__ADAPTIVE_DT` -/
  OPT__ADAPTIVE_DT : Bool
  /-- velocity coefficient -/
  DT__PARVEL : ℚ
  /-- acceleration coefficient; the criterion is used only when positive -/
  DT__PARACC : ℚ
  /-- ceiling of the velocity step; negative means no ceiling -/
  DT__PARVEL_MAX : ℚ
  /-- value of the C library `sqrt` on non-negative finite numbers -/
  sqrtFin : ℚ → ℚ

/-- `const bool UseAcc = ( DT__PARACC > 0.0 )`. -/
def Config.UseAcc (cfg : Config) : Bool := decide (cfg.DT__PARACC > 0)

/-- A patch: `ParList` holds the `NPar` particle indices of the patch. -/
structure Patch where
  ParList : List Nat

/-- `patch->NPar`. -/
def Patch.NPar (pt : Patch) : Nat := pt.ParList.length

/-- The particle repository `amr->Par`. -/
structure ParticleData where
  VelX : Nat → ℚ
  VelY : Nat → ℚ
  VelZ : Nat → ℚ
  AccX : Nat → ℚ
  AccY : Nat → ℚ
  AccZ : Nat → ℚ
  NPar_Active : Nat

/-- `const real *Vel[3] = { VelX, VelY, VelZ }`. -/
def ParticleData.Vel (P : ParticleData) (d : Nat) : Nat → ℚ :=
  match d with
  | 0 => P.VelX
  | 1 => P.VelY
  | _ => P.VelZ

/-- `const real *Acc[3] = { AccX, AccY, AccZ }` (with `STORE_PAR_ACC`). -/
def ParticleData.Acc (P : ParticleData) (d : Nat) : Nat → ℚ :=
  match d with
  | 0 => P.AccX
  | 1 => P.AccY
  | _ => P.AccZ

/-- The part of the AMR structure `amr` the routine reads. -/
structure AMR where
  /-- cell width of each level -/
  dh : Nat → ℚ
  /-- `NPatchComma[lv][1]`: number of real patches of each level -/
  NPatchComma1 : Nat → Nat
  /-- `patch[0][lv][PID]` -/
  patch : Nat → Nat → Patch
  Par : ParticleData

/-- Messages written to stderr by `Aux_Message`. -/
inductive Msg where
  | velIncorrect
  | likelyZeroVelocity
  | setParVelMax
  deriving DecidableEq

/-- Fatal errors raised by `Aux_Error`. -/
inductive Err where
  | storeParAccOff
  | accIncorrect
  deriving DecidableEq

/-- Everything the routine can read or write: the AMR data, the global
`MinDtInfo_ParVelAcc`, the four output arrays of the caller and stderr. -/
structure St where
  amr : AMR
  /-- `MinDtInfo_ParVelAcc[0]` -/
  MaxVel : Nat → ℚ
  /-- `MinDtInfo_ParVelAcc[1]` -/
  MaxAcc : Nat → ℚ
  dt0 : Dbl
  dt1 : Dbl
  dTime0 : Dbl
  dTime1 : Dbl
  MinDtLv0 : Int
  MinDtLv1 : Int
  MinDtVar0 : ℚ
  MinDtVar1 : ℚ
  stderr : List Msg

/-- How a call ends, with the state it leaves. -/
inductive Outcome where
  | returned (s : St)
  | aborted (e : Err) (s : St)

/-- The state left by a call. -/
def Outcome.st : Outcome → St
  | returned s => s
  | aborted _ s => s

/-- The call came back to its caller. -/
def Outcome.isReturned : Outcome → Bool
  | returned _ => true
  | aborted _ _ => false

/-! ## The scan of the extrema (source lines 52-73) -/

/-- Body of the loop over `p`: both inner loops over `d`. -/
def scanPar (useAcc : Bool) (P : ParticleData) (m : ℚ × ℚ) (ParID : Nat) : ℚ × ℚ :=
  let mv := (List.range 3).foldl (fun x d => MAX x (FABS (P.Vel d ParID))) m.1
  let ma := if useAcc then (List.range 3).foldl (fun x d => MAX x (FABS (P.Acc d ParID))) m.2
            else m.2
  (mv, ma)

/-- The loop over the particles `p` of one patch. -/
def scanPatch (useAcc : Bool) (P : ParticleData) (m : ℚ × ℚ) (pt : Patch) : ℚ × ℚ :=
  pt.ParList.foldl (scanPar useAcc P) m

/-- The pair `(MaxVel[lv], MaxAcc[lv])` after the body of the loop over `lv`. -/
def scanLevel (useAcc : Bool) (amr : AMR) (lv : Nat) : ℚ × ℚ :=
  (List.range (amr.NPatchComma1 lv)).foldl
    (fun m PID => scanPatch useAcc amr.Par m (amr.patch lv PID)) (0, 0)

/-- One iteration of the loop over `lv` of the scan. -/
def scanStep (useAcc : Bool) (amr : AMR) (g : (Nat → ℚ) × (Nat → ℚ)) (lv : Nat) :
    (Nat → ℚ) × (Nat → ℚ) :=
  let r := scanLevel useAcc amr lv
  (Function.update g.1 lv r.1, Function.update g.2 lv r.2)

/-- The block `if ( !OPT__ADAPTIVE_DT ) { ... }`. -/
def scanAll (cfg : Config) (amr : AMR) (g : (Nat → ℚ) × (Nat → ℚ)) :
    (Nat → ℚ) × (Nat → ℚ) :=
  if cfg.OPT__ADAPTIVE_DT then g
  else (List.range cfg.NLEVEL).foldl (scanStep cfg.UseAcc amr) g

/-! ## The selection of the minimum in one rank (source lines 76-107) -/

/-- The factor `double( 1<<(lv+1) )` under `INDIVIDUAL_TIMESTEP`. -/
def subcycle (cfg : Config) (lv : Nat) (t : Dbl) : Dbl :=
  if cfg.INDIVIDUAL_TIMESTEP then Dbl.mul t (Dbl.fin ((shl1 (lv + 1) : Int) : ℚ)) else t

/-- The value of `dt_tmp[0]` at level `lv` when it is compared. -/
def dt_tmp0 (cfg : Config) (dh MaxVel : Nat → ℚ) (lv : Nat) : Dbl :=
  subcycle cfg lv (Dbl.div (Dbl.fin (dh lv)) (Dbl.fin (MaxVel lv)))

/-- The value of `dt_tmp[1]` at level `lv` when it is compared (`UseAcc` only). -/
def dt_tmp1 (cfg : Config) (dh MaxAcc : Nat → ℚ) (lv : Nat) : Dbl :=
  subcycle cfg lv (Dbl.sqrt cfg.sqrtFin (Dbl.div (Dbl.fin (dh lv)) (Dbl.fin (MaxAcc lv))))

/-- The variables of one kind written by the selection loop. -/
structure Sel where
  dt_local : Dbl
  MinDtLv : Int
  MinDtVar : ℚ

/-- `if ( dt_tmp < dt_local ) { dt_local = dt_tmp; MinDtLv = lv; MinDtVar = Max[lv]; }`. -/
def selUpdate (cand : Nat → Dbl) (Max : Nat → ℚ) (s : Sel) (lv : Nat) : Sel :=
  if Dbl.lt (cand lv) s.dt_local then ⟨cand lv, (lv : Int), Max lv⟩ else s

/-- One iteration of the loop over `lv` of the selection, on both kinds. -/
def selStep (cfg : Config) (dh MaxVel MaxAcc : Nat → ℚ) (s : Sel × Sel) (lv : Nat) :
    Sel × Sel :=
  (selUpdate (dt_tmp0 cfg dh MaxVel) MaxVel s.1 lv,
   if cfg.UseAcc then selUpdate (dt_tmp1 cfg dh MaxAcc) MaxAcc s.2 lv else s.2)

/-- The loop `for (int lv=0; lv<NLEVEL; lv++)` of the selection, started from
`dt_local = __FLT_MAX__`, `MinDtLv = -1` and the caller's `MinDtVar`. -/
def selectLocal (cfg : Config) (dh MaxVel MaxAcc : Nat → ℚ) (var0 var1 : ℚ) : Sel × Sel :=
  (List.range cfg.NLEVEL).foldl (selStep cfg dh MaxVel MaxAcc)
    (⟨Dbl.fin FLT_MAX, -1, var0⟩, ⟨Dbl.fin FLT_MAX, -1, var1⟩)

/-- `MPI_Allreduce( ..., MPI_MIN, ... )` in the `SERIAL` build, the only one
the source compiles in: the receive buffer gets the local value. -/
def MPI_Allreduce_MIN_SERIAL (x : Dbl) : Dbl := x

/-- The warning block of source lines 118-125. -/
def velWarning (cfg : Config) (NPar_Active : Nat) (dt_min0 : Dbl) : List Msg :=
  if Dbl.eq dt_min0 (Dbl.fin FLT_MAX) && decide (NPar_Active > 0) then
    [Msg.velIncorrect, Msg.likelyZeroVelocity] ++
      (if cfg.DT__PARVEL_MAX < 0 then [Msg.setParVelMax] else [])
  else []

/-- The extrema `(MaxVel, MaxAcc)` the selection reads: rescanned, or the stored ones. -/
def extrema (cfg : Config) (s : St) : (Nat → ℚ) × (Nat → ℚ) :=
  scanAll cfg s.amr (s.MaxVel, s.MaxAcc)

/-- The result of the selection loop of the call. -/
def localSel (cfg : Config) (s : St) : Sel × Sel :=
  selectLocal cfg s.amr.dh (extrema cfg s).1 (extrema cfg s).2 s.MinDtVar0 s.MinDtVar1

/-- The variable `dt_min[0]` after the reduction. -/
def dt_min0 (cfg : Config) (s : St) : Dbl := MPI_Allreduce_MIN_SERIAL (localSel cfg s).1.dt_local

/-- The variable `dt_min[1]` after the reduction (`UseAcc` only). -/
def dt_min1 (cfg : Config) (s : St) : Dbl := MPI_Allreduce_MIN_SERIAL (localSel cfg s).2.dt_local

/-- The product `DT__PARVEL * dt_min[0]` first stored in `dt[0]`. -/
def scaledVel (cfg : Config) (s : St) : Dbl := Dbl.mul (Dbl.fin cfg.DT__PARVEL) (dt_min0 cfg s)

/-- The value of `dt[0]` after the ceiling `DT__PARVEL_MAX` is applied. -/
def finalVel (cfg : Config) (s : St) : Dbl :=
  if cfg.DT__PARVEL_MAX ≥ 0 then MIN (scaledVel cfg s) (Dbl.fin cfg.DT__PARVEL_MAX)
  else scaledVel cfg s

/-- The state when the minimum time-steps are verified (source line 117). -/
def verifyState (cfg : Config) (s : St) : St :=
  { s with
    MaxVel := (extrema cfg s).1, MaxAcc := (extrema cfg s).2,
    MinDtLv0 := (localSel cfg s).1.MinDtLv, MinDtLv1 := (localSel cfg s).2.MinDtLv,
    MinDtVar0 := (localSel cfg s).1.MinDtVar, MinDtVar1 := (localSel cfg s).2.MinDtVar,
    stderr := s.stderr ++ velWarning cfg s.amr.Par.NPar_Active (dt_min0 cfg s) }

/-- The routine `Par_GetTimeStep_VelAcc( dt, dTime, MinDtLv, MinDtVar, dt_dTime )`. -/
def Par_GetTimeStep_VelAcc (cfg : Config) (s : St) (dt_dTime : ℚ) : Outcome :=
  if !cfg.STORE_PAR_ACC && cfg.UseAcc then Outcome.aborted Err.storeParAccOff s
  else
    let s1 := verifyState cfg s
    if cfg.UseAcc && Dbl.eq (dt_min1 cfg s) (Dbl.fin FLT_MAX)
        && decide (s.amr.Par.NPar_Active > 0) then
      Outcome.aborted Err.accIncorrect s1
    else
      let dt0 := finalVel cfg s
      let s2 : St := { s1 with dt0 := dt0, dTime0 := Dbl.div dt0 (Dbl.fin dt_dTime) }
      if cfg.UseAcc then
        let dt1 := Dbl.mul (Dbl.fin cfg.DT__PARACC) (dt_min1 cfg s)
        Outcome.returned { s2 with dt1 := dt1, dTime1 := Dbl.div dt1 (Dbl.fin dt_dTime) }
      else Outcome.returned s2

/-! ## Rounded arithmetic

The definitions above compute with exact rational numbers.  The machine rounds the result
of every floating-point operation to its format, and a statement that compares exact
products of computed numbers depends on that rounding.  This section gives the IEEE-754
rounding to nearest of a rational number, and the routine once more with a rounding
operator `rnd` applied to the finite result of every operation on `double` values; the
definitions above are the instance `rnd = Dbl.fin` of these. -/

/-- Rounding of a rational number to the nearest integer, a tie going to the even one. -/
def roundNE (z : ℚ) : Int :=
  if z - ⌊z⌋ < 1 / 2 then ⌊z⌋
  else if 1 / 2 < z - ⌊z⌋ then ⌊z⌋ + 1
  else if ⌊z⌋ % 2 = 0 then ⌊z⌋ else ⌊z⌋ + 1

/-- A binary floating-point format of IEEE 754: the number of significand bits, the
exponent of the least normal number and the exponent of the largest finite numbers. -/
structure FloatFormat where
  prec : Nat
  emin : Int
  emax : Int

/-- The format of the C type `float`. -/
def binary32 : FloatFormat := ⟨24, -126, 127⟩

/-- The format of the C type `double`. -/
def binary64 : FloatFormat := ⟨53, -1022, 1023⟩

/-- The exponent of the unit in the last place at `x`: `floor(log2 |x|) - (prec - 1)`,
and the one of the subnormal numbers below the least normal number. -/
def FloatFormat.ulpExp (f : FloatFormat) (x : ℚ) : Int :=
  max (Int.log 2 |x|) f.emin - ((f.prec : Int) - 1)

/-- The multiple of the unit in the last place nearest to `x`, ties to even: the rounding
of `x` with an unbounded exponent range. -/
def FloatFormat.nearest (f : FloatFormat) (x : ℚ) : ℚ :=
  (roundNE (x / 2 ^ f.ulpExp x) : ℚ) * 2 ^ f.ulpExp x

/-- IEEE 754 rounding to nearest, ties to even, of the real number `x` to the format `f`:
the nearest multiple of the unit in the last place, and an infinity when that multiple
is beyond the largest finite number. -/
def roundTo (f : FloatFormat) (x : ℚ) : Dbl :=
  if (2 : ℚ) ^ (f.emax + 1) ≤ |f.nearest x| then (if 0 < x then Dbl.pinf else Dbl.ninf)
  else Dbl.fin (f.nearest x)

/-- The stored result of an operation whose exact result is `a`: a finite result is
rounded by `rnd`, an infinity or NaN is kept. -/
def Dbl.rounded (rnd : ℚ → Dbl) : Dbl → Dbl
  | Dbl.fin q => rnd q
  | a => a

/-- The value is a non-negative number or `+inf`. -/
def Dbl.IsNonneg (a : Dbl) : Prop := a = Dbl.pinf ∨ ∃ y : ℚ, 0 ≤ y ∧ a = Dbl.fin y

/-- The rounding operator keeps the non-negative numbers non-negative and their order. -/
def IsMonotoneRounding (rnd : ℚ → Dbl) : Prop :=
  (∀ x : ℚ, 0 ≤ x → (rnd x).IsNonneg) ∧
    ∀ x y : ℚ, 0 ≤ x → x ≤ y → Dbl.lt (rnd y) (rnd x) = false

/-- The statement `dt_tmp *= double( 1<<(lv+1) )` under `INDIVIDUAL_TIMESTEP`, rounded. -/
def subcycle_rnd (rnd : ℚ → Dbl) (cfg : Config) (lv : Nat) (t : Dbl) : Dbl :=
  if cfg.INDIVIDUAL_TIMESTEP then
    Dbl.rounded rnd (Dbl.mul t (Dbl.fin ((shl1 (lv + 1) : Int) : ℚ)))
  else t

/-- The value of `dt_tmp[0]` at level `lv` when it is compared: the rounded quotient
`amr->dh[lv] / MaxVel[lv]`, then the rounded product with the subcycling factor. -/
def dt_tmp0_rnd (rnd : ℚ → Dbl) (cfg : Config) (dh MaxVel : Nat → ℚ) (lv : Nat) : Dbl :=
  subcycle_rnd rnd cfg lv (Dbl.rounded rnd (Dbl.div (Dbl.fin (dh lv)) (Dbl.fin (MaxVel lv))))

/-- The value of `dt_tmp[1]` at level `lv` when it is compared (`UseAcc` only): the C
library `sqrt` of the rounded quotient, then the rounded product with the factor. -/
def dt_tmp1_rnd (rnd : ℚ → Dbl) (cfg : Config) (dh MaxAcc : Nat → ℚ) (lv : Nat) : Dbl :=
  subcycle_rnd rnd cfg lv
    (Dbl.sqrt cfg.sqrtFin (Dbl.rounded rnd (Dbl.div (Dbl.fin (dh lv)) (Dbl.fin (MaxAcc lv)))))

/-- One iteration of the loop over `lv` of the selection, on both kinds. -/
def selStep_rnd (rnd : ℚ → Dbl) (cfg : Config) (dh MaxVel MaxAcc : Nat → ℚ) (s : Sel × Sel)
    (lv : Nat) : Sel × Sel :=
  (selUpdate (dt_tmp0_rnd rnd cfg dh MaxVel) MaxVel s.1 lv,
   if cfg.UseAcc then selUpdate (dt_tmp1_rnd rnd cfg dh MaxAcc) MaxAcc s.2 lv else s.2)

/-- The loop `for (int lv=0; lv<NLEVEL; lv++)` of the selection. -/
def selectLocal_rnd (rnd : ℚ → Dbl) (cfg : Config) (dh MaxVel MaxAcc : Nat → ℚ)
    (var0 var1 : ℚ) : Sel × Sel :=
  (List.range cfg.NLEVEL).foldl (selStep_rnd rnd cfg dh MaxVel MaxAcc)
    (⟨Dbl.fin FLT_MAX, -1, var0⟩, ⟨Dbl.fin FLT_MAX, -1, var1⟩)

/-- The result of the selection loop of the call. -/
def localSel_rnd (rnd : ℚ → Dbl) (cfg : Config) (s : St) : Sel × Sel :=
  selectLocal_rnd rnd cfg s.amr.dh (extrema cfg s).1 (extrema cfg s).2 s.MinDtVar0 s.MinDtVar1

/-- The variable `dt_min[0]` after the reduction. -/
def dt_min0_rnd (rnd : ℚ → Dbl) (cfg : Config) (s : St) : Dbl :=
  MPI_Allreduce_MIN_SERIAL (localSel_rnd rnd cfg s).1.dt_local

/-- The variable `dt_min[1]` after the reduction (`UseAcc` only). -/
def dt_min1_rnd (rnd : ℚ → Dbl) (cfg : Config) (s : St) : Dbl :=
  MPI_Allreduce_MIN_SERIAL (localSel_rnd rnd cfg s).2.dt_local

/-- The rounded product `DT__PARVEL * dt_min[0]` first stored in `dt[0]`. -/
def scaledVel_rnd (rnd : ℚ → Dbl) (cfg : Config) (s : St) : Dbl :=
  Dbl.rounded rnd (Dbl.mul (Dbl.fin cfg.DT__PARVEL) (dt_min0_rnd rnd cfg s))

/-- The value of `dt[0]` after the ceiling `DT__PARVEL_MAX` is applied. -/
def finalVel_rnd (rnd : ℚ → Dbl) (cfg : Config) (s : St) : Dbl :=
  if cfg.DT__PARVEL_MAX ≥ 0 then MIN (scaledVel_rnd rnd cfg s) (Dbl.fin cfg.DT__PARVEL_MAX)
  else scaledVel_rnd rnd cfg s

/-- The state when the minimum time-steps are verified (source line 117). -/
def verifyState_rnd (rnd : ℚ → Dbl) (cfg : Config) (s : St) : St :=
  { s with
    MaxVel := (extrema cfg s).1, MaxAcc := (extrema cfg s).2,
    MinDtLv0 := (localSel_rnd rnd cfg s).1.MinDtLv,
    MinDtLv1 := (localSel_rnd rnd cfg s).2.MinDtLv,
    MinDtVar0 := (localSel_rnd rnd cfg s).1.MinDtVar,
    MinDtVar1 := (localSel_rnd rnd cfg s).2.MinDtVar,
    stderr := s.stderr ++ velWarning cfg s.amr.Par.NPar_Active (dt_min0_rnd rnd cfg s) }

/-- The routine `Par_GetTimeStep_VelAcc( dt, dTime, MinDtLv, MinDtVar, dt_dTime )` with
the results of the divisions (source lines 82, 84, 179, 184) and of the products (lines
88, 90, 177, 183) rounded by `rnd`. -/
def Par_GetTimeStep_VelAcc_rnd (rnd : ℚ → Dbl) (cfg : Config) (s : St) (dt_dTime : ℚ) :
    Outcome :=
  if !cfg.STORE_PAR_ACC && cfg.UseAcc then Outcome.aborted Err.storeParAccOff s
  else
    let s1 := verifyState_rnd rnd cfg s
    if cfg.UseAcc && Dbl.eq (dt_min1_rnd rnd cfg s) (Dbl.fin FLT_MAX)
        && decide (s.amr.Par.NPar_Active > 0) then
      Outcome.aborted Err.accIncorrect s1
    else
      let dt0 := finalVel_rnd rnd cfg s
      let s2 : St :=
        { s1 with dt0 := dt0, dTime0 := Dbl.rounded rnd (Dbl.div dt0 (Dbl.fin dt_dTime)) }
      if cfg.UseAcc then
        let dt1 := Dbl.rounded rnd (Dbl.mul (Dbl.fin cfg.DT__PARACC) (dt_min1_rnd rnd cfg s))
        Outcome.returned
          { s2 with dt1 := dt1, dTime1 := Dbl.rounded rnd (Dbl.div dt1 (Dbl.fin dt_dTime)) }
      else Outcome.returned s2

/-! ## The words of the specification -/

/-- The particles listed in the patches of level `lv`. -/
def levelParticles (amr : AMR) (lv : Nat) : List Nat :=
  (List.range (amr.NPatchComma1 lv)).flatMap (fun PID => (amr.patch lv PID).ParList)

/-- The largest-magnitude component of particle `p`. -/
def maxComponent (comp : Nat → Nat → ℚ) (p : Nat) : ℚ :=
  max (max |comp 0 p| |comp 1 p|) |comp 2 p|

/-- Section 4.1 in its own words: the maximum over the particles of a level of the
largest-magnitude component, zero for a level without particles. -/
def specMax (comp : Nat → Nat → ℚ) (ps : List Nat) : ℚ :=
  (ps.map (maxComponent comp)).foldr max 0

/-- The number `m` is the maximum of `|comp d p|` over the components `d < 3` and the
particles `p` of `ps`, and zero when there are none. -/
def IsMaxAbs (comp : Nat → Nat → ℚ) (ps : List Nat) (m : ℚ) : Prop :=
  (∀ p ∈ ps, ∀ d < 3, |comp d p| ≤ m) ∧ (ps = [] → m = 0) ∧
    (ps ≠ [] → ∃ p ∈ ps, ∃ d < 3, m = |comp d p|)

/-- Level `lv` is eligible: its candidate is strictly below `__FLT_MAX__`. -/
def Eligible (cand : Nat → Dbl) (lv : Nat) : Prop := Dbl.lt (cand lv) (Dbl.fin FLT_MAX) = true

/-- Level `k` is the argmin of the candidates over the eligible levels below `N`, the
lowest index among ties: no candidate is smaller, and every eligible level before `k`
has a strictly larger candidate. -/
def IsArgmin (cand : Nat → Dbl) (N k : Nat) : Prop :=
  k < N ∧ Eligible cand k ∧ (∀ lv < N, Dbl.lt (cand lv) (cand k) = false) ∧
    (∀ lv < k, Eligible cand lv → Dbl.lt (cand k) (cand lv) = true)

instance (cand : Nat → Dbl) (lv : Nat) : Decidable (Eligible cand lv) :=
  inferInstanceAs (Decidable (Dbl.lt (cand lv) (Dbl.fin FLT_MAX) = true))

/-- What the selection loop leaves for one kind: the initial values when no level is
eligible, and otherwise the argmin level, its candidate and its extremum. -/
def IsSelection (cand : Nat → Dbl) (Max : Nat → ℚ) (N : Nat) (v : ℚ) (s : Sel) : Prop :=
  ((∀ lv < N, ¬ Eligible cand lv) ∧ s = ⟨Dbl.fin FLT_MAX, -1, v⟩) ∨
  (∃ k, IsArgmin cand N k ∧ s = ⟨cand k, (k : Int), Max k⟩)

/-- The factor `F(lv)` of the subcycling correction: `2^(lv+1)` with
`INDIVIDUAL_TIMESTEP`, one without. -/
def subcycleFactor (cfg : Config) (lv : Nat) : ℚ :=
  if cfg.INDIVIDUAL_TIMESTEP then 2 ^ (lv + 1) else 1

/-- The state `s` with other particle velocities and accelerations, all else equal. -/
def St.withKinematics (s : St) (vx vy vz ax ay az : Nat → ℚ) : St :=
  { s with
    amr := { s.amr with
      Par := { s.amr.Par with
        VelX := vx, VelY := vy, VelZ := vz, AccX := ax, AccY := ay, AccZ := az } } }

/-- The four output arrays `dt`, `dTime`, `MinDtLv`, `MinDtVar` of a state. -/
def St.results (s : St) : (Dbl × Dbl) × (Dbl × Dbl) × (Int × Int) × (ℚ × ℚ) :=
  ((s.dt0, s.dt1), (s.dTime0, s.dTime1), (s.MinDtLv0, s.MinDtLv1), (s.MinDtVar0, s.MinDtVar1))

/-- The smaller of two values, the first one when they do not compare. -/
def Dbl.min2 (a b : Dbl) : Dbl := if Dbl.lt b a then b else a

/-- The minimum of a list of values, taken from the left. -/
def reduceMin : List Dbl → Dbl
  | [] => Dbl.pinf
  | x :: xs => xs.foldl Dbl.min2 x

/-- Modelled from the spec: the collective `MPI_Allreduce( ..., MPI_MIN, ... )` over all
processes (the MPI library and its serial replacement are not under src/), in the words
of section 4.3: from the local value of every process, listed in `locals`, each process
receives the minimum of them all. -/
def MPI_Allreduce_MIN (locals : List Dbl) : List Dbl :=
  locals.map (fun _ => reduceMin locals)

/-! ## The performance ledger: `Aux_Record_Performance`

Embedding of `src/Auxiliary/Aux_Record_Performance.cpp`.  The file
`Record__Performance` is a list of items (header line, data record, summary block) whose
fields hold the numbers that the source prints; the printed text itself is not modelled.
The type `long` is a 64-bit two's-complement integer. -/

/-- IEEE `a + b`. -/
def Dbl.add : Dbl → Dbl → Dbl
  | Dbl.nan, _ => Dbl.nan
  | _, Dbl.nan => Dbl.nan
  | Dbl.fin a, Dbl.fin b => Dbl.fin (a + b)
  | Dbl.fin _, Dbl.pinf => Dbl.pinf
  | Dbl.fin _, Dbl.ninf => Dbl.ninf
  | Dbl.pinf, Dbl.fin _ => Dbl.pinf
  | Dbl.ninf, Dbl.fin _ => Dbl.ninf
  | Dbl.pinf, Dbl.pinf => Dbl.pinf
  | Dbl.ninf, Dbl.ninf => Dbl.ninf
  | Dbl.pinf, Dbl.ninf => Dbl.nan
  | Dbl.ninf, Dbl.pinf => Dbl.nan

/-- Two's-complement wrap of an integer to the 64-bit `long` range. -/
def wrap64 (x : Int) : Int :=
  (x + 9223372036854775808) % 18446744073709551616 - 9223372036854775808

/-- The macro `CUBE( a )` on an `int`: `(a)*(a)*(a)`. -/
def CUBE (a : Int) : Int := wrap32 (wrap32 (a * a) * a)

/-- Build options, run-time parameters and the rank of the process. -/
structure PerfConfig where
  MPI_Rank : Int
  MPI_NRank : Int
  NLEVEL : Nat
  PATCH_SIZE : Int
  /-- compile-time option `PARTICLE` -/
  PARTICLE : Bool
  END_STEP : Int
  END_T : ℚ

/-- The argument of a call and the global variables it reads. -/
structure PerfCall where
  ElapsedTime : ℚ
  /-- `Time[0]` -/
  Time0 : ℚ
  Step : Int
  dTime_Base : ℚ
  NPatchTotal : Nat → Int
  /-- `amr->NUpdateLv` -/
  NUpdateLv : Nat → Int
  /-- result of the `MPI_Reduce` of `amr->Par->NPar_Lv` on rank 0 -/
  NPar_Lv_AllRank : Nat → Int
  NPar_Active_AllRank : Int
  /-- result of `Aux_CheckFileExist( FileName )` -/
  fileExists : Bool

/-- The numbers of one data record, in the order they are printed. -/
structure PerfRecord where
  Time0 : ℚ
  Step : Int
  dTime_Base : ℚ
  NCell : Int
  NUpdateCell : Int
  ElapsedTime : ℚ
  Perf_Overall : Dbl
  Perf_PerRank : Dbl
  /-- `NParticle`, `NUpdate_Par`, `ParPerf_Overall`, `ParPerf_PerRank` (with `PARTICLE`) -/
  particle : Option (Int × Int × Dbl × Dbl)
  NUpdate_Lv : List Int
  deriving DecidableEq

/-- The numbers of the summary block. -/
structure PerfSummary where
  TotalTime : ℚ
  AvgPerf_Overall : Dbl
  AvgPerf_PerRank : Dbl
  deriving DecidableEq

/-- What one group of `fprintf` calls appends to the file. -/
inductive Item where
  | header (PARTICLE : Bool) (NLEVEL : Nat)
  | record (r : PerfRecord)
  | summary (s : PerfSummary)
  deriving DecidableEq

/-- The item is a data record. -/
def Item.isRecord : Item → Bool
  | Item.record _ => true
  | _ => false

/-- The item is the column header. -/
def Item.isHeader : Item → Bool
  | Item.header _ _ => true
  | _ => false

/-- The static variables of the routine, the file and the warnings on stderr. -/
structure PerfState where
  FirstTime : Bool
  Total_NUpdateCell : Int
  Total_ElapsedTime : ℚ
  Total_NUpdateCell_PerSec_PerRank : Dbl
  file : List Item
  /-- number of "file already exists" warnings written -/
  warnings : Nat

/-- The static variables at program start, with the file as found. -/
def PerfState.init (file : List Item) : PerfState :=
  ⟨true, 0, 0, Dbl.fin 0, file, 0⟩

/-- One iteration of the counting loop (source lines 70-78) on
`(NCell, NUpdateCell, NUpdatePar)`. -/
def countStep (cfg : PerfConfig) (c : PerfCall) (a : Int × Int × Int) (lv : Nat) :
    Int × Int × Int :=
  let NCellThisLevel := wrap64 (c.NPatchTotal lv * CUBE cfg.PATCH_SIZE)
  (wrap64 (a.1 + NCellThisLevel),
   wrap64 (a.2.1 + wrap64 (NCellThisLevel * c.NUpdateLv lv)),
   if cfg.PARTICLE then wrap64 (a.2.2 + wrap64 (c.NPar_Lv_AllRank lv * c.NUpdateLv lv))
   else a.2.2)

/-- The counters `(NCell, NUpdateCell, NUpdatePar)` after the counting loop. -/
def counts (cfg : PerfConfig) (c : PerfCall) : Int × Int × Int :=
  (List.range cfg.NLEVEL).foldl (countStep cfg c) (0, 0, 0)

/-- The variable `NUpdateCell_PerSec_PerRank` of a call. -/
def perRank (cfg : PerfConfig) (c : PerfCall) : Dbl :=
  Dbl.div (Dbl.div (Dbl.fin ((counts cfg c).2.1 : ℚ)) (Dbl.fin c.ElapsedTime))
    (Dbl.fin (cfg.MPI_NRank : ℚ))

/-- The data record of a call (source lines 97-109). -/
def recordOf (cfg : PerfConfig) (c : PerfCall) : PerfRecord where
  Time0 := c.Time0
  Step := c.Step
  dTime_Base := c.dTime_Base
  NCell := (counts cfg c).1
  NUpdateCell := (counts cfg c).2.1
  ElapsedTime := c.ElapsedTime
  Perf_Overall := Dbl.div (Dbl.fin ((counts cfg c).2.1 : ℚ)) (Dbl.fin c.ElapsedTime)
  Perf_PerRank := perRank cfg c
  particle :=
    if cfg.PARTICLE then
      some (c.NPar_Active_AllRank, (counts cfg c).2.2,
        Dbl.div (Dbl.fin ((counts cfg c).2.2 : ℚ)) (Dbl.fin c.ElapsedTime),
        Dbl.div (Dbl.div (Dbl.fin ((counts cfg c).2.2 : ℚ)) (Dbl.fin c.ElapsedTime))
          (Dbl.fin (cfg.MPI_NRank : ℚ)))
    else none
  NUpdate_Lv := (List.range cfg.NLEVEL).map c.NUpdateLv

/-- The test `Step == END_STEP || Time[0] >= END_T`. -/
def isTerminal (cfg : PerfConfig) (c : PerfCall) : Bool :=
  decide (c.Step = cfg.END_STEP) || decide (c.Time0 ≥ cfg.END_T)

/-- The routine `Aux_Record_Performance( ElapsedTime )`. -/
def Aux_Record_Performance (cfg : PerfConfig) (st : PerfState) (c : PerfCall) : PerfState :=
  if cfg.MPI_Rank = 0 then
    let st1 : PerfState :=
      if st.FirstTime then
        { st with
          FirstTime := false
          warnings := if c.fileExists then st.warnings + 1 else st.warnings
          file := st.file ++ [Item.header cfg.PARTICLE cfg.NLEVEL] }
      else st
    let Total_NUpdateCell := wrap64 (st1.Total_NUpdateCell + (counts cfg c).2.1)
    let Total_ElapsedTime := st1.Total_ElapsedTime + c.ElapsedTime
    let Total_PerRank := Dbl.add st1.Total_NUpdateCell_PerSec_PerRank (perRank cfg c)
    let file2 := st1.file ++ [Item.record (recordOf cfg c)]
    { st1 with
      Total_NUpdateCell := Total_NUpdateCell
      Total_ElapsedTime := Total_ElapsedTime
      Total_NUpdateCell_PerSec_PerRank := Total_PerRank
      file :=
        if isTerminal cfg c then
          file2 ++ [Item.summary
            ⟨Total_ElapsedTime,
             Dbl.div (Dbl.fin (Total_NUpdateCell : ℚ)) (Dbl.fin Total_ElapsedTime),
             Dbl.div Total_PerRank (Dbl.fin (c.Step : ℚ))⟩]
        else file2 }
  else st

/-- A sequence of calls in one process. -/
def runCalls (cfg : PerfConfig) (st : PerfState) (cs : List PerfCall) : PerfState :=
  cs.foldl (Aux_Record_Performance cfg) st

/-- The sum of the `ElapsedTime` arguments of the calls. -/
def totalElapsed (cs : List PerfCall) : ℚ := (cs.map (fun c => c.ElapsedTime)).sum

/-- The sum of the cell updates `NUpdateCell` of the calls. -/
def sumUpdates (cfg : PerfConfig) (cs : List PerfCall) : Int :=
  (cs.map (fun c => (counts cfg c).2.1)).sum

/-- The total of the cell updates of the calls as a `long` accumulates it. -/
def totalUpdates (cfg : PerfConfig) (cs : List PerfCall) : Int :=
  cs.foldl (fun t c => wrap64 (t + (counts cfg c).2.1)) 0

/-- The total of the per-rank performances of the calls, added in call order. -/
def totalPerRank (cfg : PerfConfig) (cs : List PerfCall) : Dbl :=
  cs.foldl (fun t c => Dbl.add t (perRank cfg c)) (Dbl.fin 0)

/-- The summary block after the calls `sofar`, the last of which has step count `Step`:
total elapsed time, total cell updates over total elapsed time, and the per-rank
average. -/
def summaryOf (cfg : PerfConfig) (sofar : List PerfCall) (Step : Int) : PerfSummary :=
  ⟨totalElapsed sofar,
   Dbl.div (Dbl.fin (totalUpdates cfg sofar : ℚ)) (Dbl.fin (totalElapsed sofar)),
   Dbl.div (totalPerRank cfg sofar) (Dbl.fin (Step : ℚ))⟩

/-- The ledger in the words of the specification, after the header: every call appends
one data record, followed by the summary block exactly when the call is terminal; `done`
lists the earlier calls. -/
def specLedger (cfg : PerfConfig) (done : List PerfCall) : List PerfCall → List Item
  | [] => []
  | c :: rest =>
    (Item.record (recordOf cfg c) ::
      (if isTerminal cfg c then [Item.summary (summaryOf cfg (done ++ [c]) c.Step)] else [])) ++
    specLedger cfg (done ++ [c]) rest

/-! ## The copy-back of the chemistry solver: `Grackle_Close`

Embedding of `src/Grackle/Grackle_Close.cpp`.  The OpenMP loop over the patch groups is
run in the order of `TID`; pointers into `h_Che_Array` are offsets from its start. -/

/-- The fluid variables the routine writes. -/
inductive FluidVar where
  | ENGY
  | ENPY
  deriving DecidableEq

/-- The fluid data `amr->patch[Sg][lv][PID]->fluid[v][0][0] + idx`, by sandglass, level,
patch, variable and cell offset. -/
abbrev FluidData := Int → Int → Int → FluidVar → Int → Dbl

/-- The assignment `*( amr->patch[Sg][lv][PID]->fluid[v][0][0] + idx ) = x`. -/
def FluidData.set (F : FluidData) (Sg lv PID : Int) (v : FluidVar) (idx : Int) (x : Dbl) :
    FluidData :=
  fun Sg1 lv1 PID1 v1 idx1 =>
    if Sg1 = Sg ∧ lv1 = lv ∧ PID1 = PID ∧ v1 = v ∧ idx1 = idx then x
    else F Sg1 lv1 PID1 v1 idx1

/-- Constants and helper routines the copy-back reads; `CPU_CheckMinPres` and
`CPU_DensPres2Entropy` are routines declared outside the file, on values of the type
`real`; `rnd` is the rounding of the exact result of an operation to the type `real`
(`float`, or `double` with `FLOAT8`). -/
structure GrackleConfig where
  /-- the macro `PS1`, the patch size; `PS2` is twice it -/
  PS1 : Int
  GAMMA : ℚ
  MIN_PRES : ℚ
  CheIdx_Dens : Int
  CheIdx_sEint : Int
  CheIdx_Ek : Int
  /-- compile-time option `DUAL_ENERGY == DE_ENPY` -/
  DUAL_ENERGY_ENPY : Bool
  rnd : ℚ → Dbl
  CPU_CheckMinPres : Dbl → Dbl → Dbl
  CPU_DensPres2Entropy : Dbl → Dbl → Dbl → Dbl

/-- The macro `PS2`, `2*PS1` as an `int`. -/
def GrackleConfig.PS2 (cfg : GrackleConfig) : Int := wrap32 (2 * cfg.PS1)

/-- `const real Gamma_m1 = GAMMA - (real)1.0`. -/
def GrackleConfig.Gamma_m1 (cfg : GrackleConfig) : Dbl := cfg.rnd (cfg.GAMMA - 1)

/-- `const real _Gamma_m1 = (real)1.0 / Gamma_m1`: the reciprocal, rounded once. -/
def GrackleConfig._Gamma_m1 (cfg : GrackleConfig) : Dbl :=
  Dbl.rounded cfg.rnd (Dbl.div (Dbl.fin 1) cfg.Gamma_m1)

/-- The pressure `Pres` of source lines 87-88 for the array index `j` of a patch group
whose density and specific internal energy start at `pD` and `pS`:
`CPU_CheckMinPres( Ptr_sEint[j]*Dens*Gamma_m1, MIN_PRES )`, each product rounded. -/
def cellPres (cfg : GrackleConfig) (h : Int → ℚ) (pD pS j : Int) : Dbl :=
  cfg.CPU_CheckMinPres
    (Dbl.rounded cfg.rnd
      (Dbl.mul (Dbl.rounded cfg.rnd (Dbl.mul (Dbl.fin (h (pS + j))) (Dbl.fin (h (pD + j)))))
        cfg.Gamma_m1))
    (Dbl.fin cfg.MIN_PRES)

/-- The total energy density stored at source line 91 for the array index `j` of a patch
group whose kinetic energy starts at `pE`: `Pres*_Gamma_m1 + Ptr_Ek[j]`, the product with
the reciprocal `_Gamma_m1` and the sum each rounded on its own. -/
def cellEngy (cfg : GrackleConfig) (h : Int → ℚ) (pD pS pE j : Int) : Dbl :=
  Dbl.rounded cfg.rnd
    (Dbl.add (Dbl.rounded cfg.rnd (Dbl.mul (cellPres cfg h pD pS j) cfg._Gamma_m1))
      (Dbl.fin (h (pE + j))))

/-- Body of the loop over `idx_p` (source lines 85-103) on the fluid data and `idx_pg`. -/
def cellStep (cfg : GrackleConfig) (lv SaveSg : Int) (h : Int → ℚ) (PID pD pS pE : Int)
    (st : FluidData × Int) (idx_p : Nat) : FluidData × Int :=
  let Dens := Dbl.fin (h (pD + st.2))
  let Pres := cellPres cfg h pD pS st.2
  let F1 := st.1.set SaveSg lv PID FluidVar.ENGY idx_p (cellEngy cfg h pD pS pE st.2)
  let F2 :=
    if cfg.DUAL_ENERGY_ENPY then
      F1.set SaveSg lv PID FluidVar.ENPY idx_p (cfg.CPU_DensPres2Entropy Dens Pres cfg.Gamma_m1)
    else F1
  (F2, wrap32 (st.2 + 1))

/-- Body of the loop over `LocalID`: the cells of the patch `PID0 + LocalID`. -/
def patchStep (cfg : GrackleConfig) (lv SaveSg : Int) (h : Int → ℚ) (PID0 pD pS pE : Int)
    (st : FluidData × Int) (LocalID : Nat) : FluidData × Int :=
  (List.range (CUBE cfg.PS1).toNat).foldl
    (cellStep cfg lv SaveSg h (wrap32 (PID0 + LocalID)) pD pS pE) st

/-- Body of the loop over `TID`: the eight patches of one patch group. -/
def groupStep (cfg : GrackleConfig) (lv SaveSg : Int) (h : Int → ℚ) (NPG : Int)
    (PID0_List : Int → Int) (F : FluidData) (TID : Nat) : FluidData :=
  let Size1pg := CUBE cfg.PS2
  let Size1v := wrap32 (NPG * Size1pg)
  let offset := wrap32 (TID * Size1pg)
  ((List.range 8).foldl
    (patchStep cfg lv SaveSg h (PID0_List TID)
      (wrap32 (cfg.CheIdx_Dens * Size1v) + offset)
      (wrap32 (cfg.CheIdx_sEint * Size1v) + offset)
      (wrap32 (cfg.CheIdx_Ek * Size1v) + offset))
    (F, 0)).1

/-- The routine `Grackle_Close( lv, SaveSg, h_Che_Array, NPG, PID0_List )` on the fluid
data. -/
def Grackle_Close (cfg : GrackleConfig) (lv SaveSg : Int) (h_Che_Array : Int → ℚ) (NPG : Int)
    (PID0_List : Int → Int) (F : FluidData) : FluidData :=
  (List.range NPG.toNat).foldl (groupStep cfg lv SaveSg h_Che_Array NPG PID0_List) F

/-- The sizes and indices of a call stay in the range of an `int`: a positive patch size,
non-negative field indices whose blocks of `NPG*PS2^3` entries end below `2^31`, and
patch indices `PID0 .. PID0+7` below `2^31`. -/
def GrackleInRange (cfg : GrackleConfig) (NPG : Int) (PID0_List : Int → Int) : Prop :=
  0 < cfg.PS1 ∧
  (0 ≤ cfg.CheIdx_Dens ∧ (cfg.CheIdx_Dens + 1) * (NPG * (2 * cfg.PS1) ^ 3) < 2147483648) ∧
  (0 ≤ cfg.CheIdx_sEint ∧ (cfg.CheIdx_sEint + 1) * (NPG * (2 * cfg.PS1) ^ 3) < 2147483648) ∧
  (0 ≤ cfg.CheIdx_Ek ∧ (cfg.CheIdx_Ek + 1) * (NPG * (2 * cfg.PS1) ^ 3) < 2147483648) ∧
  ∀ TID : Nat, (TID : Int) < NPG → 0 ≤ PID0_List TID ∧ PID0_List TID + 7 < 2147483648

/-- No patch belongs to two patch groups of the list. -/
def GrackleDisjoint (NPG : Int) (PID0_List : Int → Int) : Prop :=
  ∀ T1 T2 : Nat, (T1 : Int) < NPG → (T2 : Int) < NPG → T1 ≠ T2 →
    ∀ L1 L2 : Nat, L1 < 8 → L2 < 8 → PID0_List T1 + L1 ≠ PID0_List T2 + L2

/-- The offset inside a field block that belongs to cell `idx_p` of the patch `LocalID`
of the patch group `TID`: `TID*PS2^3 + LocalID*PS1^3 + idx_p`. -/
def cheOffset (cfg : GrackleConfig) (TID LocalID idx_p : Nat) : Int :=
  TID * (2 * cfg.PS1) ^ 3 + LocalID * cfg.PS1 ^ 3 + idx_p

/-- The start `CheIdx*NPG*PS2^3` of the block of the field with index `CheIdx`. -/
def cheBlock (cfg : GrackleConfig) (NPG CheIdx : Int) : Int :=
  CheIdx * (NPG * (2 * cfg.PS1) ^ 3)

/-- The value `CPU_CheckMinPres( sEint*Dens*(GAMMA-1), MIN_PRES ) / (GAMMA-1) + Ek`, with
the quotient by `GAMMA - 1`, read from `h_Che_Array` for cell `idx_p` of the patch
`LocalID` of the patch group `TID`, every operation rounded to `real`. -/
def specEngy (cfg : GrackleConfig) (h : Int → ℚ) (NPG : Int) (TID LocalID idx_p : Nat) : Dbl :=
  Dbl.rounded cfg.rnd
    (Dbl.add
      (Dbl.rounded cfg.rnd
        (Dbl.div
          (cfg.CPU_CheckMinPres
            (Dbl.rounded cfg.rnd
              (Dbl.mul
                (Dbl.rounded cfg.rnd
                  (Dbl.mul
                    (Dbl.fin (h (cheBlock cfg NPG cfg.CheIdx_sEint +
                      cheOffset cfg TID LocalID idx_p)))
                    (Dbl.fin (h (cheBlock cfg NPG cfg.CheIdx_Dens +
                      cheOffset cfg TID LocalID idx_p)))))
                (cfg.rnd (cfg.GAMMA - 1))))
            (Dbl.fin cfg.MIN_PRES))
          (cfg.rnd (cfg.GAMMA - 1))))
      (Dbl.fin (h (cheBlock cfg NPG cfg.CheIdx_Ek + cheOffset cfg TID LocalID idx_p))))

/-- The integer is in the range of a `long`. -/
def InLong (x : Int) : Prop := -9223372036854775808 ≤ x ∧ x < 9223372036854775808

/-! ## Concrete data used in the examples -/

/-- Square root of the examples: exact on the squares of integers. -/
def sqrtEx (q : ℚ) : ℚ := (Nat.sqrt q.num.toNat : ℚ) / (Nat.sqrt q.den : ℚ)

/-- Two levels of cell widths `1` and `1/2`; level `lv` has one patch holding particle
`lv`; the velocities are `(2,-1,0)` and `(1,-4,3)`, so the extrema are `[2, 4]`. -/
def amrA : AMR where
  dh := fun lv => if lv = 0 then 1 else 1 / 2
  NPatchComma1 := fun _ => 1
  patch := fun lv _ => ⟨[lv]⟩
  Par :=
    { VelX := fun p => if p = 0 then 2 else 1
      VelY := fun p => if p = 0 then -1 else -4
      VelZ := fun p => if p = 0 then 0 else 3
      AccX := fun _ => 0
      AccY := fun _ => 0
      AccZ := fun _ => 0
      NPar_Active := 2 }

/-- Scenario A: two levels, no subcycling, coefficient `1/2`, no ceiling, no
acceleration criterion. -/
def cfgA : Config where
  NLEVEL := 2
  STORE_PAR_ACC := true
  INDIVIDUAL_TIMESTEP := false
  OPT__ADAPTIVE_DT := false
  DT__PARVEL := 1 / 2
  DT__PARACC := 0
  DT__PARVEL_MAX := -1
  sqrtFin := sqrtEx

/-- Scenario B: scenario A with subcycling. -/
def cfgB : Config := { cfgA with INDIVIDUAL_TIMESTEP := true }

/-- A state before the call: the caller's arrays hold arbitrary old values. -/
def stOf (amr : AMR) : St where
  amr := amr
  MaxVel := fun _ => 0
  MaxAcc := fun _ => 0
  dt0 := Dbl.fin 7
  dt1 := Dbl.fin 7
  dTime0 := Dbl.fin 7
  dTime1 := Dbl.fin 7
  MinDtLv0 := 5
  MinDtLv1 := 5
  MinDtVar0 := 9
  MinDtVar1 := 9
  stderr := []

/-- The state of scenarios A and B. -/
def stA : St := stOf amrA

/-- The data of `amrA` with accelerations `(4,0,0)` and `(2,0,0)`. -/
def amrAcc : AMR :=
  { amrA with Par := { amrA.Par with AccX := fun p => if p = 0 then 4 else 2 } }

/-- Scenario B with the acceleration criterion, coefficient `1/3`. -/
def cfgAcc : Config := { cfgB with DT__PARACC := 1 / 3 }

/-- The state of the examples with accelerations. -/
def stAcc : St := stOf amrAcc

/-- The state of scenario A when no particle is active. -/
def stEmpty : St := stOf { amrA with Par := { amrA.Par with NPar_Active := 0 } }

/-- A ledger example: rank 0 of two processes, two levels, patches of `8^3` cells, the run
ends at step 2. -/
def perfCfg : PerfConfig where
  MPI_Rank := 0
  MPI_NRank := 2
  NLEVEL := 2
  PATCH_SIZE := 8
  PARTICLE := false
  END_STEP := 2
  END_T := 100

/-- The call of step `n` of the ledger example: `8` and `16` patches updated once and
twice, elapsed time `n + 1`. -/
def perfCall (n : Nat) : PerfCall where
  ElapsedTime := n + 1
  Time0 := n
  Step := n
  dTime_Base := 1
  NPatchTotal := fun lv => if lv = 0 then 8 else 16
  NUpdateLv := fun lv => if lv = 0 then 1 else 2
  NPar_Lv_AllRank := fun _ => 0
  NPar_Active_AllRank := 0
  fileExists := false

/-- A copy-back example with `real = float`: patches of one cell, the three fields in the
blocks 0, 1, 2, `GAMMA = 13981013 / 2^23` (the `float` nearest to `5/3`), and the larger
of the two arguments as `CPU_CheckMinPres`. -/
def grackleCfg : GrackleConfig where
  PS1 := 1
  GAMMA := 13981013 / 8388608
  MIN_PRES := 0
  CheIdx_Dens := 0
  CheIdx_sEint := 1
  CheIdx_Ek := 2
  DUAL_ENERGY_ENPY := true
  rnd := roundTo binary32
  CPU_CheckMinPres := fun p m => if Dbl.lt p m then m else p
  CPU_DensPres2Entropy := fun d p g => Dbl.mul (Dbl.div p (Dbl.mul d d)) g

/-- The array `h_Che_Array` of the copy-back example for two patch groups (blocks of 16
entries): density `1`, specific internal energy `7` and kinetic energy `0` in every cell. -/
def cheArray (j : Int) : ℚ := if j < 16 then 1 else if j < 32 then 7 else 0

/-- One level, no subcycling, no acceleration criterion, no ceiling. -/
def cfgTiny : Config := { cfgA with NLEVEL := 1, DT__PARVEL := 1 }

/-- One level of cell width `7` whose only particle has the velocity `(25, 0, 0)`. -/
def amrRounding : AMR where
  dh := fun _ => 7
  NPatchComma1 := fun _ => 1
  patch := fun _ _ => ⟨[0]⟩
  Par :=
    { VelX := fun _ => 25
      VelY := fun _ => 0
      VelZ := fun _ => 0
      AccX := fun _ => 0
      AccY := fun _ => 0
      AccZ := fun _ => 0
      NPar_Active := 1 }

/-- The state of the example with the velocity `(25, 0, 0)`. -/
def stRounding : St := stOf amrRounding

/-! ## Arithmetic of `Dbl` -/

theorem dbl_lt_irrefl (a : Dbl) : Dbl.lt a a = false := by
  cases a <;> simp [Dbl.lt]

theorem dbl_lt_trans {a b c : Dbl} (h1 : Dbl.lt a b = true) (h2 : Dbl.lt b c = true) :
    Dbl.lt a c = true := by
  cases a <;> cases b <;> cases c <;> simp_all [Dbl.lt]
  exact lt_trans h1 h2

theorem dbl_ne_nan_of_lt {a b : Dbl} (h : Dbl.lt a b = true) : a ≠ Dbl.nan ∧ b ≠ Dbl.nan := by
  cases a <;> cases b <;> simp_all [Dbl.lt]

theorem dbl_lt_trichotomy {a b : Dbl} (ha : a ≠ Dbl.nan) (hb : b ≠ Dbl.nan) :
    Dbl.lt a b = true ∨ a = b ∨ Dbl.lt b a = true := by
  cases a <;> cases b <;> simp_all [Dbl.lt]
  exact lt_trichotomy _ _

theorem MAX_eq_max (a b : ℚ) : MAX a b = max a b := by
  unfold MAX
  split_ifs with h
  · exact (max_eq_left (le_of_lt h)).symm
  · exact (max_eq_right (not_lt.mp h)).symm

theorem shl1_eq (n : Nat) (h : n ≤ 30) : shl1 n = 2 ^ n := by
  have h1 : (2 : Int) ^ n ≤ 2 ^ 30 := pow_le_pow_right₀ (by norm_num) h
  have h2 : (0 : Int) < 2 ^ n := by positivity
  unfold shl1 wrap32
  rw [Int.emod_eq_of_lt (by omega) (by omega)]
  omega

/-! ## The scan computes the maximum -/

theorem range_three : List.range 3 = [0, 1, 2] := by decide

theorem maxComponent_nonneg (comp : Nat → Nat → ℚ) (p : Nat) : 0 ≤ maxComponent comp p :=
  le_trans (abs_nonneg _) (le_max_right _ _)

theorem foldl_components (comp : Nat → Nat → ℚ) (p : Nat) (x : ℚ) :
    (List.range 3).foldl (fun x d => MAX x (FABS (comp d p))) x = max x (maxComponent comp p) := by
  simp only [range_three, List.foldl_cons, List.foldl_nil, MAX_eq_max, FABS, maxComponent,
    max_assoc]

theorem scanPar_eq (u : Bool) (P : ParticleData) (m : ℚ × ℚ) (p : Nat) :
    scanPar u P m p =
      (max m.1 (maxComponent P.Vel p), if u then max m.2 (maxComponent P.Acc p) else m.2) := by
  simp only [scanPar, foldl_components]

theorem scanPatch_eq (u : Bool) (P : ParticleData) (ps : List Nat) (m : ℚ × ℚ) :
    ps.foldl (scanPar u P) m =
      (ps.foldl (fun x p => max x (maxComponent P.Vel p)) m.1,
       if u then ps.foldl (fun x p => max x (maxComponent P.Acc p)) m.2 else m.2) := by
  induction ps generalizing m with
  | nil => cases u <;> simp
  | cons p ps ih =>
    rw [List.foldl_cons, ih, scanPar_eq]
    cases u <;> simp

theorem foldl_max_eq_specMax (comp : Nat → Nat → ℚ) (ps : List Nat) (a : ℚ) (ha : 0 ≤ a) :
    ps.foldl (fun x p => max x (maxComponent comp p)) a = max a (specMax comp ps) := by
  induction ps generalizing a with
  | nil => simp [specMax, ha]
  | cons p ps ih =>
    rw [List.foldl_cons, ih _ (le_trans ha (le_max_left _ _))]
    simp [specMax, max_assoc]

theorem specMax_nonneg (comp : Nat → Nat → ℚ) (ps : List Nat) : 0 ≤ specMax comp ps := by
  induction ps with
  | nil => simp [specMax]
  | cons p ps ih =>
    have : specMax comp (p :: ps) = max (maxComponent comp p) (specMax comp ps) := by
      simp [specMax]
    rw [this]
    exact le_trans ih (le_max_right _ _)

theorem scanLevel_eq (u : Bool) (amr : AMR) (lv : Nat) :
    scanLevel u amr lv =
      (specMax amr.Par.Vel (levelParticles amr lv),
       if u then specMax amr.Par.Acc (levelParticles amr lv) else 0) := by
  have key : ∀ (l : List Nat) (m : ℚ × ℚ),
      l.foldl (fun m PID => scanPatch u amr.Par m (amr.patch lv PID)) m =
        (l.flatMap (fun PID => (amr.patch lv PID).ParList)).foldl (scanPar u amr.Par) m := by
    intro l
    induction l with
    | nil => intro m; simp
    | cons a l ih =>
      intro m
      rw [List.foldl_cons, List.flatMap_cons, List.foldl_append, ih]
      rfl
  unfold scanLevel
  rw [key, scanPatch_eq]
  simp only [levelParticles]
  rw [foldl_max_eq_specMax _ _ _ (le_refl 0), foldl_max_eq_specMax _ _ _ (le_refl 0)]
  simp [specMax_nonneg]

theorem maxComponent_attained (comp : Nat → Nat → ℚ) (p : Nat) :
    ∃ d < 3, maxComponent comp p = |comp d p| := by
  unfold maxComponent
  rcases max_choice (max |comp 0 p| |comp 1 p|) |comp 2 p| with h | h
  · rcases max_choice |comp 0 p| |comp 1 p| with h1 | h1
    · exact ⟨0, by norm_num, by rw [h, h1]⟩
    · exact ⟨1, by norm_num, by rw [h, h1]⟩
  · exact ⟨2, by norm_num, h⟩

theorem abs_le_maxComponent (comp : Nat → Nat → ℚ) (p d : Nat) (hd : d < 3) :
    |comp d p| ≤ maxComponent comp p := by
  unfold maxComponent
  interval_cases d
  · exact le_trans (le_max_left _ _) (le_max_left _ _)
  · exact le_trans (le_max_right _ _) (le_max_left _ _)
  · exact le_max_right _ _

theorem specMax_isMaxAbs (comp : Nat → Nat → ℚ) (ps : List Nat) :
    IsMaxAbs comp ps (specMax comp ps) := by
  induction ps with
  | nil => exact ⟨by simp, fun _ => by simp [specMax], fun h => absurd rfl h⟩
  | cons p ps ih =>
    have hc : specMax comp (p :: ps) = max (maxComponent comp p) (specMax comp ps) := by
      simp [specMax]
    obtain ⟨hub, hnil, hatt⟩ := ih
    refine ⟨?_, fun h => by simp at h, fun _ => ?_⟩
    · intro q hq d hd
      rw [hc]
      rcases List.mem_cons.mp hq with rfl | hq
      · exact le_trans (abs_le_maxComponent comp q d hd) (le_max_left _ _)
      · exact le_trans (hub q hq d hd) (le_max_right _ _)
    · rw [hc]
      rcases max_choice (maxComponent comp p) (specMax comp ps) with h | h
      · obtain ⟨d, hd, he⟩ := maxComponent_attained comp p
        exact ⟨p, List.mem_cons_self _ _, d, hd, by rw [h, he]⟩
      · by_cases hps : ps = []
        · obtain ⟨d, hd, he⟩ := maxComponent_attained comp p
          refine ⟨p, List.mem_cons_self _ _, d, hd, ?_⟩
          rw [h, hnil hps, ← he]
          have h0 : specMax comp ps = 0 := hnil hps
          rw [h0] at h
          have := maxComponent_nonneg comp p
          have h2 : maxComponent comp p ≤ 0 := by
            have := le_max_left (maxComponent comp p) 0
            rwa [h] at this
          linarith
        · obtain ⟨q, hq, d, hd, he⟩ := hatt hps
          exact ⟨q, List.mem_cons_of_mem _ hq, d, hd, by rw [h, he]⟩

theorem scanFold_eq (u : Bool) (amr : AMR) (g : (Nat → ℚ) × (Nat → ℚ)) (N : Nat) :
    (List.range N).foldl (scanStep u amr) g =
      (fun lv => if lv < N then (scanLevel u amr lv).1 else g.1 lv,
       fun lv => if lv < N then (scanLevel u amr lv).2 else g.2 lv) := by
  induction N with
  | zero => simp
  | succ N ih =>
    rw [List.range_succ, List.foldl_append, ih]
    simp only [List.foldl_cons, List.foldl_nil, scanStep]
    refine Prod.ext ?_ ?_ <;> funext lv <;> simp only [Function.update_apply] <;>
      by_cases h : lv = N
    · subst h; simp
    · have : lv < N + 1 ↔ lv < N := by omega
      simp [h, this]
    · subst h; simp
    · have : lv < N + 1 ↔ lv < N := by omega
      simp [h, this]

theorem extrema_recompute (cfg : Config) (s : St) (h : cfg.OPT__ADAPTIVE_DT = false) :
    extrema cfg s =
      (fun lv => if lv < cfg.NLEVEL then specMax s.amr.Par.Vel (levelParticles s.amr lv)
                 else s.MaxVel lv,
       fun lv => if lv < cfg.NLEVEL then
                   (if cfg.UseAcc then specMax s.amr.Par.Acc (levelParticles s.amr lv) else 0)
                 else s.MaxAcc lv) := by
  simp only [extrema, scanAll, h, scanFold_eq, scanLevel_eq]
  simp

/-! ## The selection loop computes the argmin -/

theorem selFold_isSelection (cand : Nat → Dbl) (Max : Nat → ℚ) (v : ℚ) (N : Nat) :
    IsSelection cand Max N v
      ((List.range N).foldl (selUpdate cand Max) ⟨Dbl.fin FLT_MAX, -1, v⟩) := by
  induction N with
  | zero => exact Or.inl ⟨fun lv h => absurd h (Nat.not_lt_zero lv), rfl⟩
  | succ N ih =>
    rw [List.range_succ, List.foldl_append, List.foldl_cons, List.foldl_nil]
    rcases ih with ⟨hnone, hs⟩ | ⟨k, ⟨hk, hel, hmin, htie⟩, hs⟩
    · rw [hs]
      unfold selUpdate
      by_cases hc : Dbl.lt (cand N) (Dbl.fin FLT_MAX) = true
      · rw [if_pos hc]
        refine Or.inr ⟨N, ⟨Nat.lt_succ_self N, hc, ?_, ?_⟩, rfl⟩
        · intro lv hlv
          rcases Nat.lt_succ_iff_lt_or_eq.mp hlv with h | h
          · by_contra hlt
            exact hnone lv h (dbl_lt_trans (by simpa using hlt) hc)
          · rw [h]; exact dbl_lt_irrefl _
        · intro lv hlv he
          exact absurd he (hnone lv hlv)
      · rw [if_neg hc]
        refine Or.inl ⟨?_, rfl⟩
        intro lv hlv
        rcases Nat.lt_succ_iff_lt_or_eq.mp hlv with h | h
        · exact hnone lv h
        · rw [h]; exact hc
    · rw [hs]
      unfold selUpdate
      by_cases hc : Dbl.lt (cand N) (cand k) = true
      · rw [if_pos hc]
        refine Or.inr ⟨N, ⟨Nat.lt_succ_self N, dbl_lt_trans hc hel, ?_, ?_⟩, rfl⟩
        · intro lv hlv
          rcases Nat.lt_succ_iff_lt_or_eq.mp hlv with h | h
          · by_contra hlt
            have h2 := dbl_lt_trans (by simpa using hlt) hc
            rw [hmin lv h] at h2
            exact Bool.noConfusion h2
          · rw [h]; exact dbl_lt_irrefl _
        · intro lv hlv he
          rcases dbl_lt_trichotomy (dbl_ne_nan_of_lt he).1 (dbl_ne_nan_of_lt hel).1 with h | h | h
          · rw [hmin lv hlv] at h
            exact Bool.noConfusion h
          · rw [h]; exact hc
          · exact dbl_lt_trans hc h
      · rw [if_neg hc]
        refine Or.inr ⟨k, ⟨Nat.lt_succ_of_lt hk, hel, ?_, htie⟩, rfl⟩
        intro lv hlv
        rcases Nat.lt_succ_iff_lt_or_eq.mp hlv with h | h
        · exact hmin lv h
        · rw [h]; simpa using hc

/-- The argmin level of `IsArgmin` is unique. -/
theorem isArgmin_unique (cand : Nat → Dbl) (N k k2 : Nat)
    (h1 : IsArgmin cand N k) (h2 : IsArgmin cand N k2) : k = k2 := by
  obtain ⟨hk, hel, hmin, htie⟩ := h1
  obtain ⟨hk2, hel2, hmin2, htie2⟩ := h2
  rcases Nat.lt_trichotomy k k2 with h | h | h
  · have := htie2 k h hel
    rw [hmin k2 hk2] at this
    exact Bool.noConfusion this
  · exact h
  · have := htie k2 h hel2
    rw [hmin2 k hk] at this
    exact Bool.noConfusion this

theorem selectLocal_eq (cfg : Config) (dh MaxVel MaxAcc : Nat → ℚ) (v0 v1 : ℚ) :
    selectLocal cfg dh MaxVel MaxAcc v0 v1 =
      ((List.range cfg.NLEVEL).foldl (selUpdate (dt_tmp0 cfg dh MaxVel) MaxVel)
          ⟨Dbl.fin FLT_MAX, -1, v0⟩,
       if cfg.UseAcc then
         (List.range cfg.NLEVEL).foldl (selUpdate (dt_tmp1 cfg dh MaxAcc) MaxAcc)
          ⟨Dbl.fin FLT_MAX, -1, v1⟩
       else ⟨Dbl.fin FLT_MAX, -1, v1⟩) := by
  have key : ∀ (l : List Nat) (a : Sel × Sel),
      l.foldl (selStep cfg dh MaxVel MaxAcc) a =
        (l.foldl (selUpdate (dt_tmp0 cfg dh MaxVel) MaxVel) a.1,
         if cfg.UseAcc then l.foldl (selUpdate (dt_tmp1 cfg dh MaxAcc) MaxAcc) a.2 else a.2) := by
    intro l
    induction l with
    | nil => intro a; cases cfg.UseAcc <;> simp
    | cons x l ih =>
      intro a
      rw [List.foldl_cons, ih]
      cases hU : cfg.UseAcc <;> simp [selStep, hU]
  unfold selectLocal
  rw [key]

theorem localSel_vel (cfg : Config) (s : St) :
    IsSelection (dt_tmp0 cfg s.amr.dh (extrema cfg s).1) (extrema cfg s).1 cfg.NLEVEL
      s.MinDtVar0 (localSel cfg s).1 := by
  unfold localSel
  rw [selectLocal_eq]
  exact selFold_isSelection _ _ _ _

theorem localSel_acc (cfg : Config) (s : St) (hU : cfg.UseAcc = true) :
    IsSelection (dt_tmp1 cfg s.amr.dh (extrema cfg s).2) (extrema cfg s).2 cfg.NLEVEL
      s.MinDtVar1 (localSel cfg s).2 := by
  unfold localSel
  rw [selectLocal_eq]
  simp only [hU, if_true]
  exact selFold_isSelection _ _ _ _

/-! ## The shape of a call -/

theorem st_of_returned (cfg : Config) (s : St) (r : ℚ)
    (h : (Par_GetTimeStep_VelAcc cfg s r).isReturned = true) :
    (Par_GetTimeStep_VelAcc cfg s r).st =
      { verifyState cfg s with
        dt0 := finalVel cfg s
        dTime0 := Dbl.div (finalVel cfg s) (Dbl.fin r)
        dt1 := if cfg.UseAcc then Dbl.mul (Dbl.fin cfg.DT__PARACC) (dt_min1 cfg s) else s.dt1
        dTime1 := if cfg.UseAcc then
            Dbl.div (Dbl.mul (Dbl.fin cfg.DT__PARACC) (dt_min1 cfg s)) (Dbl.fin r)
          else s.dTime1 } := by
  unfold Par_GetTimeStep_VelAcc at h ⊢
  split_ifs at h ⊢ <;> simp_all [Outcome.isReturned, Outcome.st, verifyState]

theorem st_of_configOk (cfg : Config) (s : St) (r : ℚ)
    (h : cfg.STORE_PAR_ACC = true ∨ cfg.UseAcc = false) :
    (Par_GetTimeStep_VelAcc cfg s r).st.MaxVel = (extrema cfg s).1 ∧
    (Par_GetTimeStep_VelAcc cfg s r).st.MaxAcc = (extrema cfg s).2 ∧
    (Par_GetTimeStep_VelAcc cfg s r).st.MinDtLv0 = (localSel cfg s).1.MinDtLv ∧
    (Par_GetTimeStep_VelAcc cfg s r).st.MinDtLv1 = (localSel cfg s).2.MinDtLv ∧
    (Par_GetTimeStep_VelAcc cfg s r).st.MinDtVar0 = (localSel cfg s).1.MinDtVar ∧
    (Par_GetTimeStep_VelAcc cfg s r).st.MinDtVar1 = (localSel cfg s).2.MinDtVar ∧
    (Par_GetTimeStep_VelAcc cfg s r).st.stderr =
      s.stderr ++ velWarning cfg s.amr.Par.NPar_Active (dt_min0 cfg s) := by
  have h1 : (!cfg.STORE_PAR_ACC && cfg.UseAcc) = false := by
    rcases h with h | h <;> simp [h]
  unfold Par_GetTimeStep_VelAcc
  rw [h1]
  simp only [Bool.false_eq_true, if_false]
  split_ifs <;> simp [Outcome.st, verifyState]

/-! ## The candidates of a level -/

theorem subcycle_fin (cfg : Config) (lv : Nat) (h : lv + 1 ≤ 30) (q : ℚ) :
    subcycle cfg lv (Dbl.fin q) = Dbl.fin (q * subcycleFactor cfg lv) := by
  unfold subcycle subcycleFactor
  cases cfg.INDIVIDUAL_TIMESTEP
  · simp
  · simp [shl1_eq _ h, Dbl.mul]

theorem subcycle_pinf (cfg : Config) (lv : Nat) (h : lv + 1 ≤ 30) :
    subcycle cfg lv Dbl.pinf = Dbl.pinf := by
  unfold subcycle
  cases cfg.INDIVIDUAL_TIMESTEP
  · simp
  · simp [shl1_eq _ h, Dbl.mul, Dbl.infOfSign]

theorem subcycle_nan (cfg : Config) (lv : Nat) : subcycle cfg lv Dbl.nan = Dbl.nan := by
  unfold subcycle
  cases cfg.INDIVIDUAL_TIMESTEP <;> simp [Dbl.mul]

theorem subcycleFactor_pos (cfg : Config) (lv : Nat) : 0 < subcycleFactor cfg lv := by
  unfold subcycleFactor
  split_ifs
  · positivity
  · norm_num

theorem dt_tmp0_pos (cfg : Config) (dh MaxVel : Nat → ℚ) (lv : Nat) (h : lv + 1 ≤ 30)
    (hm : 0 < MaxVel lv) :
    dt_tmp0 cfg dh MaxVel lv = Dbl.fin (dh lv / MaxVel lv * subcycleFactor cfg lv) := by
  unfold dt_tmp0
  rw [← subcycle_fin cfg lv h]
  simp [Dbl.div, ne_of_gt hm]

theorem dt_tmp0_zero (cfg : Config) (dh MaxVel : Nat → ℚ) (lv : Nat) (h : lv + 1 ≤ 30)
    (hm : MaxVel lv = 0) (hd : 0 ≤ dh lv) :
    dt_tmp0 cfg dh MaxVel lv = Dbl.pinf ∨ dt_tmp0 cfg dh MaxVel lv = Dbl.nan := by
  unfold dt_tmp0
  rcases lt_or_eq_of_le hd with h1 | h1
  · left
    simp [Dbl.div, hm, Dbl.infOfSign, h1, subcycle_pinf cfg lv h]
  · right
    simp [Dbl.div, hm, Dbl.infOfSign, ← h1, subcycle_nan]

theorem dt_tmp1_zero (cfg : Config) (dh MaxAcc : Nat → ℚ) (lv : Nat) (h : lv + 1 ≤ 30)
    (hm : MaxAcc lv = 0) :
    dt_tmp1 cfg dh MaxAcc lv = Dbl.pinf ∨ dt_tmp1 cfg dh MaxAcc lv = Dbl.nan := by
  unfold dt_tmp1
  rcases lt_trichotomy (dh lv) 0 with h1 | h1 | h1
  · right
    simp [Dbl.div, hm, Dbl.infOfSign, h1, not_lt_of_gt h1, Dbl.sqrt, subcycle_nan]
  · right
    simp [Dbl.div, hm, Dbl.infOfSign, h1, Dbl.sqrt, subcycle_nan]
  · left
    simp [Dbl.div, hm, Dbl.infOfSign, h1, Dbl.sqrt, subcycle_pinf cfg lv h]

theorem not_eligible_of_pinf_or_nan (cand : Nat → Dbl) (lv : Nat)
    (h : cand lv = Dbl.pinf ∨ cand lv = Dbl.nan) : ¬ Eligible cand lv := by
  unfold Eligible
  rcases h with h | h <;> simp [h, Dbl.lt]

/-- A selection among candidates none of which is `-inf` is a finite number, at most
`__FLT_MAX__` and at most every finite candidate. -/
theorem selection_finite (cand : Nat → Dbl) (Max : Nat → ℚ) (N : Nat) (v : ℚ) (s : Sel)
    (hs : IsSelection cand Max N v s) (hn : ∀ lv < N, cand lv ≠ Dbl.ninf) :
    ∃ m, s.dt_local = Dbl.fin m ∧ m ≤ FLT_MAX ∧
      ∀ lv < N, ∀ c, cand lv = Dbl.fin c → m ≤ c := by
  rcases hs with ⟨hnone, rfl⟩ | ⟨k, ⟨hk, hel, hmin, -⟩, rfl⟩
  · refine ⟨FLT_MAX, rfl, le_refl _, ?_⟩
    intro lv hlv c hc
    have := hnone lv hlv
    simp only [Eligible, hc, Dbl.lt, decide_eq_true_eq] at this
    exact not_lt.mp this
  · have hkn := hn k hk
    unfold Eligible at hel
    cases hck : cand k with
    | fin m =>
      rw [hck] at hel
      refine ⟨m, rfl, ?_, ?_⟩
      · simp only [Dbl.lt, decide_eq_true_eq] at hel
        exact le_of_lt hel
      · intro lv hlv c hc
        have := hmin lv hlv
        rw [hc, hck] at this
        simp only [Dbl.lt, decide_eq_false_iff_not] at this
        exact not_lt.mp this
    | pinf => rw [hck] at hel; simp [Dbl.lt] at hel
    | ninf => exact absurd hck hkn
    | nan => rw [hck] at hel; simp [Dbl.lt] at hel

theorem finalVel_le (cfg : Config) (s : St) (m : ℚ) (hm : dt_min0 cfg s = Dbl.fin m) :
    ∃ t, finalVel cfg s = Dbl.fin t ∧ t ≤ cfg.DT__PARVEL * m := by
  unfold finalVel scaledVel MIN
  rw [hm]
  simp only [Dbl.mul, Dbl.lt]
  split_ifs with h1 h2
  · exact ⟨_, rfl, le_refl _⟩
  · refine ⟨_, rfl, ?_⟩
    simp only [decide_eq_true_eq] at h2
    exact not_lt.mp h2
  · exact ⟨_, rfl, le_refl _⟩

theorem vel_candidates_not_ninf (cfg : Config) (dh MaxVel : Nat → ℚ)
    (hN : cfg.NLEVEL ≤ 30) (hdh : ∀ lv < cfg.NLEVEL, 0 ≤ dh lv)
    (hM : ∀ lv < cfg.NLEVEL, 0 ≤ MaxVel lv) :
    ∀ lv < cfg.NLEVEL, dt_tmp0 cfg dh MaxVel lv ≠ Dbl.ninf := by
  intro lv hlv
  rcases lt_or_eq_of_le (hM lv hlv) with h | h
  · rw [dt_tmp0_pos cfg dh MaxVel lv (by omega) h]
    simp
  · rcases dt_tmp0_zero cfg dh MaxVel lv (by omega) h.symm (hdh lv hlv) with h1 | h1 <;>
      simp [h1]

/-! ## Further facts about the comparison and the outcome of a call -/

theorem dbl_lt_asymm {a b : Dbl} (h : Dbl.lt a b = true) : Dbl.lt b a = false := by
  by_contra hc
  have h2 := dbl_lt_trans h (by simpa using hc)
  rw [dbl_lt_irrefl] at h2
  exact Bool.noConfusion h2

theorem st_amr (cfg : Config) (s : St) (r : ℚ) :
    (Par_GetTimeStep_VelAcc cfg s r).st.amr = s.amr := by
  unfold Par_GetTimeStep_VelAcc
  split_ifs <;> simp [Outcome.st, verifyState]

theorem selection_none (cand : Nat → Dbl) (Max : Nat → ℚ) (N : Nat) (v : ℚ) (s : Sel)
    (hs : IsSelection cand Max N v s) (hn : ∀ lv < N, ¬ Eligible cand lv) :
    s = ⟨Dbl.fin FLT_MAX, -1, v⟩ := by
  rcases hs with ⟨-, h⟩ | ⟨k, ⟨hk, hel, -, -⟩, -⟩
  · exact h
  · exact absurd hel (hn k hk)

theorem returned_of_no_acc (cfg : Config) (s : St) (r : ℚ) (hU : cfg.UseAcc = false) :
    (Par_GetTimeStep_VelAcc cfg s r).isReturned = true := by
  unfold Par_GetTimeStep_VelAcc
  simp [hU, Outcome.isReturned]

theorem roundNE_bounds (z : ℚ) : ⌊z⌋ ≤ roundNE z ∧ roundNE z ≤ ⌊z⌋ + 1 := by
  unfold roundNE
  split_ifs <;> constructor <;> omega

theorem roundNE_of_near (z : ℚ) (n : Int) (h1 : (n : ℚ) - 1 / 2 < z) (h2 : z < n + 1 / 2) :
    roundNE z = n := by
  rcases le_or_lt (n : ℚ) z with h | h
  · have hf : ⌊z⌋ = n := Int.floor_eq_iff.mpr ⟨h, by linarith⟩
    unfold roundNE
    rw [hf, if_pos (by linarith)]
  · have hf : ⌊z⌋ = n - 1 := Int.floor_eq_iff.mpr ⟨by push_cast; linarith, by push_cast; linarith⟩
    unfold roundNE
    rw [hf, if_neg (by push_cast; linarith), if_pos (by push_cast; linarith)]
    ring

theorem roundNE_intCast (n : Int) : roundNE (n : ℚ) = n :=
  roundNE_of_near _ n (by linarith) (by linarith)

theorem roundNE_mono {a b : ℚ} (h : a ≤ b) : roundNE a ≤ roundNE b := by
  have hf : ⌊a⌋ ≤ ⌊b⌋ := Int.floor_mono h
  rcases lt_or_eq_of_le hf with hlt | heq
  · have := (roundNE_bounds a).2
    have := (roundNE_bounds b).1
    omega
  · unfold roundNE
    rw [heq]
    rw [heq] at *
    split_ifs <;> first | omega | (exfalso; linarith)

theorem int_log_two_eq (x : ℚ) (L : Int) (h1 : (2 : ℚ) ^ L ≤ x) (h2 : x < 2 ^ (L + 1)) :
    Int.log 2 x = L := by
  have hx : 0 < x := lt_of_lt_of_le (by positivity) h1
  have a : L ≤ Int.log 2 x := (Int.zpow_le_iff_le_log (by norm_num) hx).mp (by exact_mod_cast h1)
  have b : Int.log 2 x < L + 1 := (Int.lt_zpow_iff_log_lt (by norm_num) hx).mp (by exact_mod_cast h2)
  omega

/-- The value of a rounding from a certificate: the binade `L` of `x`, in the normal range,
and the integer `n` nearest to `x` in units of the last place. -/
theorem roundTo_eval (f : FloatFormat) (x : ℚ) (L n : Int)
    (h1 : (2 : ℚ) ^ L ≤ |x|) (h2 : |x| < 2 ^ (L + 1)) (hmin : f.emin ≤ L)
    (h3 : (n : ℚ) - 1 / 2 < x / 2 ^ (L - ((f.prec : Int) - 1)))
    (h4 : x / 2 ^ (L - ((f.prec : Int) - 1)) < n + 1 / 2)
    (h5 : |(n : ℚ) * 2 ^ (L - ((f.prec : Int) - 1))| < 2 ^ (f.emax + 1)) :
    roundTo f x = Dbl.fin (n * 2 ^ (L - ((f.prec : Int) - 1))) := by
  have hL : Int.log 2 |x| = L := int_log_two_eq _ _ h1 h2
  have he : f.ulpExp x = L - ((f.prec : Int) - 1) := by
    unfold FloatFormat.ulpExp
    rw [hL, max_eq_left hmin]
  unfold roundTo FloatFormat.nearest
  rw [he, roundNE_of_near _ n h3 h4, if_neg (not_le.mpr h5)]


theorem nearest_nonneg (f : FloatFormat) {x : ℚ} (hx : 0 ≤ x) : 0 ≤ f.nearest x := by
  unfold FloatFormat.nearest
  have hz : (0 : ℚ) ≤ x / 2 ^ f.ulpExp x := div_nonneg hx (le_of_lt (zpow_pos (by norm_num) _))
  have h1 : (0 : Int) ≤ ⌊x / 2 ^ f.ulpExp x⌋ := Int.floor_nonneg.mpr hz
  have h2 := (roundNE_bounds (x / 2 ^ f.ulpExp x)).1
  have h3 : (0 : ℚ) ≤ (roundNE (x / 2 ^ f.ulpExp x) : ℚ) := by exact_mod_cast le_trans h1 h2
  exact mul_nonneg h3 (le_of_lt (zpow_pos (by norm_num) _))

theorem nearest_zero (f : FloatFormat) : f.nearest 0 = 0 := by
  unfold FloatFormat.nearest
  rw [zero_div]
  have : roundNE 0 = 0 := by simpa using roundNE_intCast 0
  rw [this]
  simp

theorem nearest_mono (f : FloatFormat) (hp : 1 ≤ f.prec) {x y : ℚ} (hx : 0 < x) (hxy : x ≤ y) :
    f.nearest x ≤ f.nearest y := by
  have hy : 0 < y := lt_of_lt_of_le hx hxy
  have hL : Int.log 2 x ≤ Int.log 2 y := Int.log_mono_right hx hxy
  have hpos : ∀ e : Int, (0 : ℚ) < 2 ^ e := fun e => zpow_pos (by norm_num) e
  have hxU : x < 2 ^ (Int.log 2 x + 1) := Int.lt_zpow_succ_log_self (by norm_num) x
  have hyL : (2 : ℚ) ^ Int.log 2 y ≤ y := Int.zpow_log_le_self (by norm_num) hy
  unfold FloatFormat.nearest FloatFormat.ulpExp
  rw [abs_of_pos hx, abs_of_pos hy]
  generalize Int.log 2 x = Lx at *
  generalize Int.log 2 y = Ly at *
  rcases lt_or_eq_of_le (max_le_max hL (le_refl f.emin)) with hlt | heq
  · have hEy : max Ly f.emin = Ly := by
      rcases le_total Ly f.emin with h | h
      · exfalso
        rw [max_eq_right h] at hlt
        exact absurd hlt (not_lt.mpr (le_max_right _ _))
      · exact max_eq_left h
    rw [hEy] at hlt ⊢
    have hLE : Lx ≤ max Lx f.emin := le_max_left _ _
    generalize max Lx f.emin = Ex at *
    have hxE : x ≤ 2 ^ (Ex + 1) :=
      le_trans (le_of_lt hxU) (zpow_le_zpow_right₀ (by norm_num) (by omega))
    have hi : ((roundNE (x / 2 ^ (Ex - ((f.prec : Int) - 1))) : Int) : ℚ) *
        2 ^ (Ex - ((f.prec : Int) - 1)) ≤ 2 ^ (Ex + 1) := by
      have hz : x / 2 ^ (Ex - ((f.prec : Int) - 1)) ≤ (((2 : Int) ^ f.prec : Int) : ℚ) := by
        rw [div_le_iff₀ (hpos _)]
        push_cast
        rw [← zpow_natCast, ← zpow_add₀ (by norm_num)]
        have : (f.prec : Int) + (Ex - ((f.prec : Int) - 1)) = Ex + 1 := by ring
        rw [this]
        exact hxE
      have hr := roundNE_mono hz
      rw [roundNE_intCast] at hr
      have hr2 : ((roundNE (x / 2 ^ (Ex - ((f.prec : Int) - 1))) : Int) : ℚ) ≤
          (2 : ℚ) ^ (f.prec : Int) := by
        have h3 : ((roundNE (x / 2 ^ (Ex - ((f.prec : Int) - 1))) : Int) : ℚ) ≤
            (((2 : Int) ^ f.prec : Int) : ℚ) := by exact_mod_cast hr
        rw [zpow_natCast]
        push_cast at h3
        exact h3
      calc ((roundNE (x / 2 ^ (Ex - ((f.prec : Int) - 1))) : Int) : ℚ) *
            2 ^ (Ex - ((f.prec : Int) - 1))
          ≤ (2 : ℚ) ^ (f.prec : Int) * 2 ^ (Ex - ((f.prec : Int) - 1)) :=
            mul_le_mul_of_nonneg_right hr2 (le_of_lt (hpos _))
        _ = 2 ^ (Ex + 1) := by
            rw [← zpow_add₀ (by norm_num)]
            congr 1
            ring
    have hii : (2 : ℚ) ^ Ly ≤ ((roundNE (y / 2 ^ (Ly - ((f.prec : Int) - 1))) : Int) : ℚ) *
        2 ^ (Ly - ((f.prec : Int) - 1)) := by
      have hz : (((2 : Int) ^ (f.prec - 1) : Int) : ℚ) ≤ y / 2 ^ (Ly - ((f.prec : Int) - 1)) := by
        rw [le_div_iff₀ (hpos _)]
        push_cast
        rw [← zpow_natCast, ← zpow_add₀ (by norm_num)]
        have : ((f.prec - 1 : Nat) : Int) + (Ly - ((f.prec : Int) - 1)) = Ly := by
          rw [Nat.cast_sub hp]
          push_cast
          ring
        rw [this]
        exact hyL
      have hr := roundNE_mono hz
      rw [roundNE_intCast] at hr
      have hr2 : (2 : ℚ) ^ ((f.prec - 1 : Nat) : Int) ≤
          ((roundNE (y / 2 ^ (Ly - ((f.prec : Int) - 1))) : Int) : ℚ) := by
        have h3 : (((2 : Int) ^ (f.prec - 1) : Int) : ℚ) ≤
            ((roundNE (y / 2 ^ (Ly - ((f.prec : Int) - 1))) : Int) : ℚ) := by exact_mod_cast hr
        rw [zpow_natCast]
        push_cast at h3
        exact h3
      calc (2 : ℚ) ^ Ly
          = (2 : ℚ) ^ ((f.prec - 1 : Nat) : Int) * 2 ^ (Ly - ((f.prec : Int) - 1)) := by
            rw [← zpow_add₀ (by norm_num)]
            congr 1
            rw [Nat.cast_sub hp]
            push_cast
            ring
        _ ≤ _ := mul_le_mul_of_nonneg_right hr2 (le_of_lt (hpos _))
    exact le_trans hi (le_trans (zpow_le_zpow_right₀ (by norm_num) (by omega)) hii)
  · rw [← heq]
    exact mul_le_mul_of_nonneg_right
      (by exact_mod_cast roundNE_mono (div_le_div_of_nonneg_right hxy (le_of_lt (hpos _))))
      (le_of_lt (hpos _))

/-- The rounding of a non-negative number is a non-negative number or `+inf`. -/
theorem roundTo_nonneg (f : FloatFormat) {x : ℚ} (hx : 0 ≤ x) :
    roundTo f x = Dbl.pinf ∨ ∃ y, 0 ≤ y ∧ roundTo f x = Dbl.fin y := by
  unfold roundTo
  split_ifs with h1 h2
  · exact Or.inl rfl
  · exfalso
    have h0 : x = 0 := le_antisymm (not_lt.mp h2) hx
    rw [h0, nearest_zero, abs_zero] at h1
    exact absurd h1 (not_le.mpr (zpow_pos (by norm_num) _))
  · exact Or.inr ⟨_, nearest_nonneg f hx, rfl⟩

/-- Rounding to nearest is monotone on the non-negative numbers. -/
theorem roundTo_mono (f : FloatFormat) (hp : 1 ≤ f.prec) {x y : ℚ} (hx : 0 ≤ x) (hxy : x ≤ y) :
    Dbl.lt (roundTo f y) (roundTo f x) = false := by
  have hy : 0 ≤ y := le_trans hx hxy
  have hm : f.nearest x ≤ f.nearest y := by
    rcases lt_or_eq_of_le hx with h | h
    · exact nearest_mono f hp h hxy
    · rw [← h, nearest_zero]
      exact nearest_nonneg f hy
  have hnx := nearest_nonneg f hx
  have hny := nearest_nonneg f hy
  unfold roundTo
  rw [abs_of_nonneg hnx, abs_of_nonneg hny]
  by_cases h1 : (2 : ℚ) ^ (f.emax + 1) ≤ f.nearest y
  · have hy0 : 0 < y := by
      rcases lt_or_eq_of_le hy with h | h
      · exact h
      · exfalso
        rw [← h, nearest_zero] at h1
        exact absurd h1 (not_le.mpr (zpow_pos (by norm_num) _))
    rw [if_pos h1, if_pos hy0]
    split_ifs <;> simp [Dbl.lt]
  · rw [if_neg h1, if_neg (fun h => h1 (le_trans h hm))]
    simp [Dbl.lt, hm]

theorem isMonotoneRounding_roundTo (f : FloatFormat) (hp : 1 ≤ f.prec) :
    IsMonotoneRounding (roundTo f) :=
  ⟨fun _ hx => roundTo_nonneg f hx, fun _ _ hx hxy => roundTo_mono f hp hx hxy⟩

theorem isMonotoneRounding_fin : IsMonotoneRounding Dbl.fin :=
  ⟨fun x hx => Or.inr ⟨x, hx, rfl⟩, fun x y _ hxy => by simp [Dbl.lt, hxy]⟩

theorem rounded_fin (a : Dbl) : Dbl.rounded Dbl.fin a = a := by
  cases a <;> rfl

/-- The `double` nearest to `7/25`, which is above `7/25`. -/
theorem roundTo_binary64_quotient : roundTo binary64 (7 / 25) = Dbl.fin (1261007895663739 / 4503599627370496) := by
  have h := roundTo_eval binary64 (7 / 25) (-2) 5044031582654956
    (by norm_num [abs_of_pos]) (by norm_num [abs_of_pos]) (by decide)
    (by norm_num [binary64]) (by norm_num [binary64]) (by norm_num [binary64, abs_of_pos])
  rw [h]
  norm_num [binary64]

/-- The `double` nearest to `7/25` is a `double`. -/
theorem roundTo_binary64_candidate : roundTo binary64 (1261007895663739 / 4503599627370496) = Dbl.fin (1261007895663739 / 4503599627370496) := by
  have h := roundTo_eval binary64 (1261007895663739 / 4503599627370496) (-2) 5044031582654956
    (by norm_num [abs_of_pos]) (by norm_num [abs_of_pos]) (by decide)
    (by norm_num [binary64]) (by norm_num [binary64]) (by norm_num [binary64, abs_of_pos])
  rw [h]
  norm_num [binary64]

/-- The `double` nearest to the product of `25` and the `double` nearest to `7/25`: `7 + 2^(-50)`. -/
theorem roundTo_binary64_product : roundTo binary64 (31525197391593475 / 4503599627370496) = Dbl.fin (7881299347898369 / 1125899906842624) := by
  have h := roundTo_eval binary64 (31525197391593475 / 4503599627370496) 2 7881299347898369
    (by norm_num [abs_of_pos]) (by norm_num [abs_of_pos]) (by decide)
    (by norm_num [binary64]) (by norm_num [binary64]) (by norm_num [binary64, abs_of_pos])
  rw [h]
  norm_num [binary64]

/-- The number `7` is a `double`. -/
theorem roundTo_binary64_seven : roundTo binary64 (7) = Dbl.fin (7) := by
  have h := roundTo_eval binary64 (7) 2 7881299347898368
    (by norm_num [abs_of_pos]) (by norm_num [abs_of_pos]) (by decide)
    (by norm_num [binary64]) (by norm_num [binary64]) (by norm_num [binary64, abs_of_pos])
  rw [h]
  norm_num [binary64]

/-! ## The routine in rounded arithmetic -/

/-- Without rounding, the routine in rounded arithmetic is the routine in exact
arithmetic. -/
theorem Par_GetTimeStep_VelAcc_rnd_fin (cfg : Config) (s : St) (r : ℚ) :
    Par_GetTimeStep_VelAcc_rnd Dbl.fin cfg s r = Par_GetTimeStep_VelAcc cfg s r := by
  have h0 : ∀ dh M, dt_tmp0_rnd Dbl.fin cfg dh M = dt_tmp0 cfg dh M := by
    intro dh M
    funext lv
    simp only [dt_tmp0_rnd, dt_tmp0, subcycle_rnd, subcycle, rounded_fin]
  have h1 : ∀ dh M, dt_tmp1_rnd Dbl.fin cfg dh M = dt_tmp1 cfg dh M := by
    intro dh M
    funext lv
    simp only [dt_tmp1_rnd, dt_tmp1, subcycle_rnd, subcycle, rounded_fin]
  have h2 : localSel_rnd Dbl.fin cfg s = localSel cfg s := by
    unfold localSel_rnd localSel selectLocal_rnd selectLocal
    congr 1
    funext a lv
    simp only [selStep_rnd, selStep, h0, h1]
  simp only [Par_GetTimeStep_VelAcc_rnd, Par_GetTimeStep_VelAcc, verifyState_rnd, verifyState,
    finalVel_rnd, finalVel, scaledVel_rnd, scaledVel, dt_min0_rnd, dt_min0, dt_min1_rnd,
    dt_min1, h2, rounded_fin]

theorem selectLocal_rnd_eq (rnd : ℚ → Dbl) (cfg : Config) (dh MaxVel MaxAcc : Nat → ℚ)
    (v0 v1 : ℚ) :
    selectLocal_rnd rnd cfg dh MaxVel MaxAcc v0 v1 =
      ((List.range cfg.NLEVEL).foldl (selUpdate (dt_tmp0_rnd rnd cfg dh MaxVel) MaxVel)
          ⟨Dbl.fin FLT_MAX, -1, v0⟩,
       if cfg.UseAcc then
         (List.range cfg.NLEVEL).foldl (selUpdate (dt_tmp1_rnd rnd cfg dh MaxAcc) MaxAcc)
          ⟨Dbl.fin FLT_MAX, -1, v1⟩
       else ⟨Dbl.fin FLT_MAX, -1, v1⟩) := by
  have key : ∀ (l : List Nat) (a : Sel × Sel),
      l.foldl (selStep_rnd rnd cfg dh MaxVel MaxAcc) a =
        (l.foldl (selUpdate (dt_tmp0_rnd rnd cfg dh MaxVel) MaxVel) a.1,
         if cfg.UseAcc then l.foldl (selUpdate (dt_tmp1_rnd rnd cfg dh MaxAcc) MaxAcc) a.2
         else a.2) := by
    intro l
    induction l with
    | nil => intro a; cases cfg.UseAcc <;> simp
    | cons x l ih =>
      intro a
      rw [List.foldl_cons, ih]
      cases hU : cfg.UseAcc <;> simp [selStep_rnd, hU]
  unfold selectLocal_rnd
  rw [key]

theorem localSel_rnd_vel (rnd : ℚ → Dbl) (cfg : Config) (s : St) :
    IsSelection (dt_tmp0_rnd rnd cfg s.amr.dh (extrema cfg s).1) (extrema cfg s).1 cfg.NLEVEL
      s.MinDtVar0 (localSel_rnd rnd cfg s).1 := by
  unfold localSel_rnd
  rw [selectLocal_rnd_eq]
  exact selFold_isSelection _ _ _ _

theorem st_of_returned_rnd (rnd : ℚ → Dbl) (cfg : Config) (s : St) (r : ℚ)
    (h : (Par_GetTimeStep_VelAcc_rnd rnd cfg s r).isReturned = true) :
    (Par_GetTimeStep_VelAcc_rnd rnd cfg s r).st.dt0 = finalVel_rnd rnd cfg s ∧
    (Par_GetTimeStep_VelAcc_rnd rnd cfg s r).st.MaxVel = (extrema cfg s).1 := by
  unfold Par_GetTimeStep_VelAcc_rnd at h ⊢
  split_ifs at h ⊢ <;> simp_all [Outcome.isReturned, Outcome.st, verifyState_rnd]

theorem returned_rnd_of_no_acc (rnd : ℚ → Dbl) (cfg : Config) (s : St) (r : ℚ)
    (hU : cfg.UseAcc = false) :
    (Par_GetTimeStep_VelAcc_rnd rnd cfg s r).isReturned = true := by
  unfold Par_GetTimeStep_VelAcc_rnd
  simp [hU, Outcome.isReturned]

/-- A velocity candidate computed from a non-negative cell width and a non-negative
extremum is NaN (`0/0`), `+inf` or a non-negative number. -/
theorem dt_tmp0_rnd_shape (rnd : ℚ → Dbl) (hr : IsMonotoneRounding rnd) (cfg : Config)
    (dh MaxVel : Nat → ℚ) (lv : Nat) (h : lv + 1 ≤ 30) (hd : 0 ≤ dh lv) (hm : 0 ≤ MaxVel lv) :
    dt_tmp0_rnd rnd cfg dh MaxVel lv = Dbl.nan ∨ (dt_tmp0_rnd rnd cfg dh MaxVel lv).IsNonneg := by
  have hsub : ∀ t : Dbl, (t = Dbl.nan ∨ t.IsNonneg) →
      (subcycle_rnd rnd cfg lv t = Dbl.nan ∨ (subcycle_rnd rnd cfg lv t).IsNonneg) := by
    intro t ht
    unfold subcycle_rnd
    split_ifs with hI
    · rw [shl1_eq _ h]
      rcases ht with rfl | rfl | ⟨y, hy, rfl⟩
      · left
        simp [Dbl.mul, Dbl.rounded]
      · right
        left
        simp [Dbl.mul, Dbl.infOfSign, Dbl.rounded]
      · right
        simp only [Dbl.mul, Dbl.rounded]
        exact hr.1 _ (mul_nonneg hy (by positivity))
    · exact ht
  unfold dt_tmp0_rnd
  apply hsub
  rcases lt_or_eq_of_le hm with h1 | h1
  · right
    simp only [Dbl.div, if_neg (ne_of_gt h1), Dbl.rounded]
    exact hr.1 _ (div_nonneg hd (le_of_lt h1))
  · rw [← h1]
    rcases lt_or_eq_of_le hd with h2 | h2
    · right
      left
      simp [Dbl.div, Dbl.infOfSign, h2, Dbl.rounded]
    · left
      simp [Dbl.div, Dbl.infOfSign, ← h2, Dbl.rounded]

/-- The value stored in `dt[0]` is at most every non-negative value that the scaled
minimum does not exceed. -/
theorem finalVel_rnd_le (rnd : ℚ → Dbl) (cfg : Config) (s : St) (X : Dbl)
    (hS : (scaledVel_rnd rnd cfg s).IsNonneg) (hX : X.IsNonneg)
    (h : Dbl.lt X (scaledVel_rnd rnd cfg s) = false) :
    Dbl.le (finalVel_rnd rnd cfg s) X = true := by
  unfold finalVel_rnd MIN
  generalize scaledVel_rnd rnd cfg s = S at *
  rcases hS with rfl | ⟨t, -, rfl⟩ <;> rcases hX with rfl | ⟨x, -, rfl⟩
  · split_ifs <;> simp [Dbl.le, Dbl.lt, Dbl.eq]
  · simp [Dbl.lt] at h
  · split_ifs <;> simp [Dbl.le, Dbl.lt, Dbl.eq]
  · simp only [Dbl.lt, decide_eq_false_iff_not, not_lt] at h
    split_ifs with h1 h2
    · simp only [Dbl.le, Dbl.lt, Dbl.eq, Bool.or_eq_true, decide_eq_true_eq]
      exact le_iff_lt_or_eq.mp h
    · simp only [Dbl.lt, decide_eq_true_eq, not_lt] at h2
      simp only [Dbl.le, Dbl.lt, Dbl.eq, Bool.or_eq_true, decide_eq_true_eq]
      exact le_iff_lt_or_eq.mp (le_trans h2 h)
    · simp only [Dbl.le, Dbl.lt, Dbl.eq, Bool.or_eq_true, decide_eq_true_eq]
      exact le_iff_lt_or_eq.mp h

/-- The minimum `dt_min[0]` of candidates that are NaN, `+inf` or non-negative numbers is
a non-negative number that no candidate is below. -/
theorem dt_min0_rnd_spec (rnd : ℚ → Dbl) (cfg : Config) (s : St)
    (hshape : ∀ k < cfg.NLEVEL,
      dt_tmp0_rnd rnd cfg s.amr.dh (extrema cfg s).1 k = Dbl.nan ∨
        (dt_tmp0_rnd rnd cfg s.amr.dh (extrema cfg s).1 k).IsNonneg) :
    ∃ m, dt_min0_rnd rnd cfg s = Dbl.fin m ∧ 0 ≤ m ∧
      ∀ k < cfg.NLEVEL,
        Dbl.lt (dt_tmp0_rnd rnd cfg s.amr.dh (extrema cfg s).1 k) (Dbl.fin m) = false := by
  unfold dt_min0_rnd MPI_Allreduce_MIN_SERIAL
  rcases localSel_rnd_vel rnd cfg s with ⟨hnone, hs⟩ | ⟨k, ⟨hk, hel, hmin, -⟩, hs⟩
  · rw [hs]
    refine ⟨FLT_MAX, rfl, by unfold FLT_MAX; norm_num, fun k hk => ?_⟩
    have := hnone k hk
    unfold Eligible at this
    simpa using this
  · rw [hs]
    unfold Eligible at hel
    rcases hshape k hk with h | h | ⟨y, hy, h⟩
    · rw [h] at hel
      simp [Dbl.lt] at hel
    · rw [h] at hel
      simp [Dbl.lt] at hel
    · exact ⟨y, h, hy, fun j hj => by rw [← h]; exact hmin j hj⟩

/-! ## The velocity step without rounding -/

/-- Without rounding: with the extrema rescanned, a non-negative velocity coefficient,
non-negative cell widths, at most 30 levels and a normal return, the value of `dt[0]` in
exact arithmetic is a finite number and `dt[0] * |v| <= DT__PARVEL * dh[lv] * F(lv)` for
every level `lv`, every particle listed in a patch of that level and every velocity
component `v` of it. -/
theorem velocity_step_exact (cfg : Config) (s : St) (r : ℚ)
    (hA : cfg.OPT__ADAPTIVE_DT = false) (hD : 0 ≤ cfg.DT__PARVEL)
    (hN : cfg.NLEVEL ≤ 30) (hdh : ∀ lv < cfg.NLEVEL, 0 ≤ s.amr.dh lv)
    (hret : (Par_GetTimeStep_VelAcc cfg s r).isReturned = true) :
    ∃ t, (Par_GetTimeStep_VelAcc cfg s r).st.dt0 = Dbl.fin t ∧
      ∀ lv < cfg.NLEVEL, ∀ p ∈ levelParticles s.amr lv, ∀ d < 3,
        t * |s.amr.Par.Vel d p| ≤ cfg.DT__PARVEL * s.amr.dh lv * subcycleFactor cfg lv := by
  have hMV : ∀ lv < cfg.NLEVEL,
      (extrema cfg s).1 lv = specMax s.amr.Par.Vel (levelParticles s.amr lv) := by
    intro lv hlv
    rw [extrema_recompute cfg s hA]
    simp [hlv]
  have hM0 : ∀ lv < cfg.NLEVEL, 0 ≤ (extrema cfg s).1 lv := by
    intro lv hlv
    rw [hMV lv hlv]
    exact specMax_nonneg _ _
  obtain ⟨m, hm, -, hle⟩ := selection_finite _ _ _ _ _ (localSel_vel cfg s)
    (vel_candidates_not_ninf cfg s.amr.dh _ hN hdh hM0)
  obtain ⟨t, ht, htle⟩ := finalVel_le cfg s m hm
  refine ⟨t, ?_, ?_⟩
  · rw [st_of_returned cfg s r hret]
    exact ht
  · intro lv hlv p hp d hd
    have hv : |s.amr.Par.Vel d p| ≤ (extrema cfg s).1 lv := by
      rw [hMV lv hlv]
      exact (specMax_isMaxAbs _ _).1 p hp d hd
    have hv0 : 0 ≤ |s.amr.Par.Vel d p| := abs_nonneg _
    have hF := subcycleFactor_pos cfg lv
    have hd0 := hdh lv hlv
    rcases lt_or_eq_of_le (hM0 lv hlv) with hpos | hzero
    · have hc := hle lv hlv _ (dt_tmp0_pos cfg s.amr.dh _ lv (by omega) hpos)
      have h1 : t * |s.amr.Par.Vel d p| ≤ cfg.DT__PARVEL * m * |s.amr.Par.Vel d p| :=
        mul_le_mul_of_nonneg_right htle hv0
      have h2 : cfg.DT__PARVEL * m * |s.amr.Par.Vel d p| ≤
          cfg.DT__PARVEL * (s.amr.dh lv / (extrema cfg s).1 lv * subcycleFactor cfg lv) *
            |s.amr.Par.Vel d p| :=
        mul_le_mul_of_nonneg_right (mul_le_mul_of_nonneg_left hc hD) hv0
      have h3 : cfg.DT__PARVEL * (s.amr.dh lv / (extrema cfg s).1 lv * subcycleFactor cfg lv) *
            |s.amr.Par.Vel d p| =
          cfg.DT__PARVEL * s.amr.dh lv * subcycleFactor cfg lv *
            (|s.amr.Par.Vel d p| / (extrema cfg s).1 lv) := by
        ring
      have h4 : |s.amr.Par.Vel d p| / (extrema cfg s).1 lv ≤ 1 :=
        (div_le_one hpos).mpr hv
      have h5 : 0 ≤ cfg.DT__PARVEL * s.amr.dh lv * subcycleFactor cfg lv :=
        mul_nonneg (mul_nonneg hD hd0) (le_of_lt hF)
      calc t * |s.amr.Par.Vel d p|
          ≤ cfg.DT__PARVEL * s.amr.dh lv * subcycleFactor cfg lv *
              (|s.amr.Par.Vel d p| / (extrema cfg s).1 lv) := by
            rw [← h3]; exact le_trans h1 h2
        _ ≤ cfg.DT__PARVEL * s.amr.dh lv * subcycleFactor cfg lv * 1 :=
            mul_le_mul_of_nonneg_left h4 h5
        _ = cfg.DT__PARVEL * s.amr.dh lv * subcycleFactor cfg lv := mul_one _
    · have hz : |s.amr.Par.Vel d p| = 0 :=
        le_antisymm (by rw [hzero]; exact hv) hv0
      rw [hz, mul_zero]
      exact mul_nonneg (mul_nonneg hD hd0) (le_of_lt hF)

/-! ## Properties of the routine -/

/-- C1, counterexample: one level of cell width `7`, one particle of velocity `(25, 0, 0)`,
`DT__PARVEL = 1`, no subcycling, extrema rescanned.  In `double` arithmetic the call
returns `dt[0] = 1261007895663739 / 2^52`, the double nearest to `7/25`, and
`dt[0] * |v| = 7 + 3 * 2^(-52)` is above `DT__PARVEL * dh[0] * F(0) = 7`; the product
`dt[0] * |v|` rounded to `double` is `7 + 2^(-50)`, above `7` as well. -/
theorem C1_rounded_step_exceeds :
    cfgTiny.OPT__ADAPTIVE_DT = false ∧ 0 ≤ cfgTiny.DT__PARVEL ∧
    (Par_GetTimeStep_VelAcc_rnd (roundTo binary64) cfgTiny stRounding 1).isReturned = true ∧
    0 ∈ levelParticles stRounding.amr 0 ∧
    (Par_GetTimeStep_VelAcc_rnd (roundTo binary64) cfgTiny stRounding 1).st.dt0 =
      Dbl.fin (1261007895663739 / 4503599627370496) ∧
    cfgTiny.DT__PARVEL * stRounding.amr.dh 0 * subcycleFactor cfgTiny 0 <
      1261007895663739 / 4503599627370496 * |stRounding.amr.Par.Vel 0 0| ∧
    Dbl.lt
      (roundTo binary64 (cfgTiny.DT__PARVEL * stRounding.amr.dh 0 * subcycleFactor cfgTiny 0))
      (roundTo binary64
        (1261007895663739 / 4503599627370496 * |stRounding.amr.Par.Vel 0 0|)) = true := by
  have hret :
      (Par_GetTimeStep_VelAcc_rnd (roundTo binary64) cfgTiny stRounding 1).isReturned = true :=
    returned_rnd_of_no_acc _ _ _ _ (by decide!)
  have hM : (extrema cfgTiny stRounding).1 0 = 25 := by decide!
  have hc : dt_tmp0_rnd (roundTo binary64) cfgTiny stRounding.amr.dh
      (extrema cfgTiny stRounding).1 0 = Dbl.fin (1261007895663739 / 4503599627370496) := by
    unfold dt_tmp0_rnd subcycle_rnd
    rw [hM, if_neg (by decide)]
    have hd : stRounding.amr.dh 0 = 7 := rfl
    rw [hd]
    simp only [Dbl.div, if_neg (show (25 : ℚ) ≠ 0 by norm_num), Dbl.rounded]
    exact roundTo_binary64_quotient
  have hmin : dt_min0_rnd (roundTo binary64) cfgTiny stRounding =
      Dbl.fin (1261007895663739 / 4503599627370496) := by
    unfold dt_min0_rnd MPI_Allreduce_MIN_SERIAL localSel_rnd
    rw [selectLocal_rnd_eq]
    have hN : cfgTiny.NLEVEL = 1 := rfl
    rw [hN]
    simp only [List.range_succ, List.range_zero, List.nil_append, List.foldl_cons,
      List.foldl_nil, selUpdate, hc, Dbl.lt]
    rw [if_pos (by unfold FLT_MAX; norm_num)]
  have hdt : finalVel_rnd (roundTo binary64) cfgTiny stRounding =
      Dbl.fin (1261007895663739 / 4503599627370496) := by
    unfold finalVel_rnd scaledVel_rnd
    rw [hmin, if_neg (by decide!)]
    have hD : cfgTiny.DT__PARVEL = 1 := rfl
    rw [hD]
    simp only [Dbl.mul, Dbl.rounded, one_mul]
    exact roundTo_binary64_candidate
  have h1 : cfgTiny.DT__PARVEL = 1 := rfl
  have h2 : stRounding.amr.dh 0 = 7 := rfl
  have h3 : subcycleFactor cfgTiny 0 = 1 := by decide!
  have h4 : stRounding.amr.Par.Vel 0 0 = 25 := rfl
  refine ⟨rfl, by decide!, hret, by decide, ?_, ?_, ?_⟩
  · rw [(st_of_returned_rnd _ _ _ _ hret).1]
    exact hdt
  · rw [h1, h2, h3, h4]
    norm_num [abs_of_pos]
  · rw [h1, h2, h3, h4]
    rw [show (1 * 7 * 1 : ℚ) = 7 by norm_num,
      show (1261007895663739 / 4503599627370496 * |(25 : ℚ)| : ℚ) =
        31525197391593475 / 4503599627370496 by norm_num [abs_of_pos],
      roundTo_binary64_seven, roundTo_binary64_product]
    simp only [Dbl.lt]
    norm_num

/-- C1, amended: with the extrema rescanned, a non-negative velocity coefficient,
non-negative cell widths, at most 30 levels, a rounding that keeps the order of the
non-negative numbers (as rounding to nearest does) and a normal return, for every level
`lv` the extremum `MaxVel[lv]` left by the call is at least `|v|` for every velocity
component `v` of every particle listed in a patch of that level, and the returned `dt[0]`
is at most the coefficient-scaled candidate of level `lv` as the routine computes it, the
rounded product of `DT__PARVEL` and `dt_tmp[0] = ( dh[lv] / MaxVel[lv] ) * F(lv)` (quotient
and product rounded, `F(lv) = 2^(lv+1)` with `INDIVIDUAL_TIMESTEP` and no factor without),
unless this product is NaN (`0 * inf`, or a level with `dh = MaxVel = 0`). -/
theorem C1_velocity_step_bound (rnd : ℚ → Dbl) (cfg : Config) (s : St) (r : ℚ)
    (hrnd : IsMonotoneRounding rnd)
    (hA : cfg.OPT__ADAPTIVE_DT = false) (hD : 0 ≤ cfg.DT__PARVEL)
    (hN : cfg.NLEVEL ≤ 30) (hdh : ∀ lv < cfg.NLEVEL, 0 ≤ s.amr.dh lv)
    (hret : (Par_GetTimeStep_VelAcc_rnd rnd cfg s r).isReturned = true) :
    ∀ lv < cfg.NLEVEL,
      (∀ p ∈ levelParticles s.amr lv, ∀ d < 3,
        |s.amr.Par.Vel d p| ≤ (Par_GetTimeStep_VelAcc_rnd rnd cfg s r).st.MaxVel lv) ∧
      (0 < (Par_GetTimeStep_VelAcc_rnd rnd cfg s r).st.MaxVel lv →
        dt_tmp0_rnd rnd cfg s.amr.dh (Par_GetTimeStep_VelAcc_rnd rnd cfg s r).st.MaxVel lv =
          if cfg.INDIVIDUAL_TIMESTEP then
            Dbl.rounded rnd
              (Dbl.mul
                (rnd (s.amr.dh lv / (Par_GetTimeStep_VelAcc_rnd rnd cfg s r).st.MaxVel lv))
                (Dbl.fin (2 ^ (lv + 1))))
          else rnd (s.amr.dh lv / (Par_GetTimeStep_VelAcc_rnd rnd cfg s r).st.MaxVel lv)) ∧
      (Dbl.le (Par_GetTimeStep_VelAcc_rnd rnd cfg s r).st.dt0
          (Dbl.rounded rnd (Dbl.mul (Dbl.fin cfg.DT__PARVEL)
            (dt_tmp0_rnd rnd cfg s.amr.dh
              (Par_GetTimeStep_VelAcc_rnd rnd cfg s r).st.MaxVel lv))) = true ∨
        Dbl.rounded rnd (Dbl.mul (Dbl.fin cfg.DT__PARVEL)
            (dt_tmp0_rnd rnd cfg s.amr.dh
              (Par_GetTimeStep_VelAcc_rnd rnd cfg s r).st.MaxVel lv)) = Dbl.nan) := by
  intro lv hlv
  obtain ⟨hdt0, hMVst⟩ := st_of_returned_rnd rnd cfg s r hret
  rw [hdt0, hMVst]
  have hMV : ∀ lv < cfg.NLEVEL,
      (extrema cfg s).1 lv = specMax s.amr.Par.Vel (levelParticles s.amr lv) := by
    intro lv hlv
    rw [extrema_recompute cfg s hA]
    simp [hlv]
  have hM0 : ∀ lv < cfg.NLEVEL, 0 ≤ (extrema cfg s).1 lv := by
    intro lv hlv
    rw [hMV lv hlv]
    exact specMax_nonneg _ _
  have hshape : ∀ k < cfg.NLEVEL,
      dt_tmp0_rnd rnd cfg s.amr.dh (extrema cfg s).1 k = Dbl.nan ∨
        (dt_tmp0_rnd rnd cfg s.amr.dh (extrema cfg s).1 k).IsNonneg :=
    fun k hk => dt_tmp0_rnd_shape rnd hrnd cfg _ _ k (by omega) (hdh k hk) (hM0 k hk)
  obtain ⟨m, hm, hm0, hle⟩ := dt_min0_rnd_spec rnd cfg s hshape
  have hS : scaledVel_rnd rnd cfg s = rnd (cfg.DT__PARVEL * m) := by
    unfold scaledVel_rnd
    rw [hm]
    rfl
  have hSn : (scaledVel_rnd rnd cfg s).IsNonneg := by
    rw [hS]
    exact hrnd.1 _ (mul_nonneg hD hm0)
  refine ⟨fun p hp d hd => ?_, fun hpos => ?_, ?_⟩
  · rw [hMV lv hlv]
    exact (specMax_isMaxAbs _ _).1 p hp d hd
  · unfold dt_tmp0_rnd subcycle_rnd
    rw [shl1_eq _ (by omega)]
    simp only [Dbl.div, if_neg (ne_of_gt hpos), Dbl.rounded]
    push_cast
    rfl
  · have hlt := hle lv hlv
    rcases hshape lv hlv with hc | hc | ⟨c, hc0, hc⟩
    · right
      rw [hc]
      rfl
    · rw [hc]
      rcases lt_or_eq_of_le hD with hpos | hzero
      · left
        have hX : Dbl.rounded rnd (Dbl.mul (Dbl.fin cfg.DT__PARVEL) Dbl.pinf) = Dbl.pinf := by
          simp [Dbl.mul, Dbl.infOfSign, hpos, Dbl.rounded]
        rw [hX]
        refine finalVel_rnd_le rnd cfg s _ hSn (Or.inl rfl) ?_
        cases scaledVel_rnd rnd cfg s <;> rfl
      · right
        rw [← hzero]
        simp [Dbl.mul, Dbl.infOfSign, Dbl.rounded]
    · left
      rw [hc] at hlt ⊢
      have hmc : m ≤ c := by
        simp only [Dbl.lt, decide_eq_false_iff_not, not_lt] at hlt
        exact hlt
      have hX : Dbl.rounded rnd (Dbl.mul (Dbl.fin cfg.DT__PARVEL) (Dbl.fin c)) =
          rnd (cfg.DT__PARVEL * c) := rfl
      rw [hX]
      refine finalVel_rnd_le rnd cfg s _ hSn (hrnd.1 _ (mul_nonneg hD hc0)) ?_
      rw [hS]
      exact hrnd.2 _ _ (mul_nonneg hD hm0) (mul_le_mul_of_nonneg_left hmc hD)

/-- C1 amended, instance: the example of the counterexample, one level of cell width `7`
and velocity `(25, 0, 0)`, in `double` arithmetic with rounding to nearest. -/
theorem C1_velocity_step_bound_witness :
    IsMonotoneRounding (roundTo binary64) ∧
    ∀ lv < cfgTiny.NLEVEL,
      (∀ p ∈ levelParticles stRounding.amr lv, ∀ d < 3,
        |stRounding.amr.Par.Vel d p| ≤
          (Par_GetTimeStep_VelAcc_rnd (roundTo binary64) cfgTiny stRounding 1).st.MaxVel lv) ∧
      (0 < (Par_GetTimeStep_VelAcc_rnd (roundTo binary64) cfgTiny stRounding 1).st.MaxVel lv →
        dt_tmp0_rnd (roundTo binary64) cfgTiny stRounding.amr.dh
            (Par_GetTimeStep_VelAcc_rnd (roundTo binary64) cfgTiny stRounding 1).st.MaxVel lv =
          if cfgTiny.INDIVIDUAL_TIMESTEP then
            Dbl.rounded (roundTo binary64)
              (Dbl.mul
                (roundTo binary64 (stRounding.amr.dh lv /
                  (Par_GetTimeStep_VelAcc_rnd (roundTo binary64) cfgTiny stRounding 1).st.MaxVel
                    lv))
                (Dbl.fin (2 ^ (lv + 1))))
          else roundTo binary64 (stRounding.amr.dh lv /
            (Par_GetTimeStep_VelAcc_rnd (roundTo binary64) cfgTiny stRounding 1).st.MaxVel lv)) ∧
      (Dbl.le (Par_GetTimeStep_VelAcc_rnd (roundTo binary64) cfgTiny stRounding 1).st.dt0
          (Dbl.rounded (roundTo binary64) (Dbl.mul (Dbl.fin cfgTiny.DT__PARVEL)
            (dt_tmp0_rnd (roundTo binary64) cfgTiny stRounding.amr.dh
              (Par_GetTimeStep_VelAcc_rnd (roundTo binary64) cfgTiny stRounding 1).st.MaxVel
              lv))) = true ∨
        Dbl.rounded (roundTo binary64) (Dbl.mul (Dbl.fin cfgTiny.DT__PARVEL)
            (dt_tmp0_rnd (roundTo binary64) cfgTiny stRounding.amr.dh
              (Par_GetTimeStep_VelAcc_rnd (roundTo binary64) cfgTiny stRounding 1).st.MaxVel
              lv)) = Dbl.nan) :=
  ⟨isMonotoneRounding_roundTo binary64 (by decide),
    C1_velocity_step_bound (roundTo binary64) cfgTiny stRounding 1
      (isMonotoneRounding_roundTo binary64 (by decide)) rfl (by decide!) (by decide)
      (by decide!) (returned_rnd_of_no_acc _ _ _ _ (by decide!))⟩

/-- C6: when the extrema are rescanned (`OPT__ADAPTIVE_DT` false, the scan reached), for
every level `lv` the routine leaves in `MaxVel[lv]` the maximum of `|Vel[d][p]|` over the
three components and the particles listed in the patches of the level, zero for a level
without particles; `MaxAcc[lv]` is the same maximum of the accelerations with the
acceleration criterion and zero without it; the AMR data, particle velocities and
accelerations included, are left as they were. -/
theorem C6_scan_maximum (cfg : Config) (s : St) (r : ℚ)
    (hA : cfg.OPT__ADAPTIVE_DT = false)
    (hok : cfg.STORE_PAR_ACC = true ∨ cfg.UseAcc = false) :
    (∀ lv < cfg.NLEVEL,
      (Par_GetTimeStep_VelAcc cfg s r).st.MaxVel lv =
          specMax s.amr.Par.Vel (levelParticles s.amr lv) ∧
        IsMaxAbs s.amr.Par.Vel (levelParticles s.amr lv)
          ((Par_GetTimeStep_VelAcc cfg s r).st.MaxVel lv) ∧
        (cfg.UseAcc = true →
          (Par_GetTimeStep_VelAcc cfg s r).st.MaxAcc lv =
              specMax s.amr.Par.Acc (levelParticles s.amr lv) ∧
            IsMaxAbs s.amr.Par.Acc (levelParticles s.amr lv)
              ((Par_GetTimeStep_VelAcc cfg s r).st.MaxAcc lv)) ∧
        (cfg.UseAcc = false → (Par_GetTimeStep_VelAcc cfg s r).st.MaxAcc lv = 0)) ∧
    (Par_GetTimeStep_VelAcc cfg s r).st.amr = s.amr := by
  obtain ⟨hv, ha, -⟩ := st_of_configOk cfg s r hok
  refine ⟨fun lv hlv => ?_, st_amr cfg s r⟩
  have e1 : (extrema cfg s).1 lv = specMax s.amr.Par.Vel (levelParticles s.amr lv) := by
    rw [extrema_recompute cfg s hA]
    simp [hlv]
  have e2 : (extrema cfg s).2 lv =
      if cfg.UseAcc then specMax s.amr.Par.Acc (levelParticles s.amr lv) else 0 := by
    rw [extrema_recompute cfg s hA]
    simp [hlv]
  rw [hv, ha, e1, e2]
  refine ⟨rfl, specMax_isMaxAbs _ _, fun hU => ?_, fun hU => ?_⟩
  · rw [if_pos hU]
    exact ⟨rfl, specMax_isMaxAbs _ _⟩
  · rw [hU]
    rfl

/-- C6, instance: the example with accelerations, where the scan leaves
`MaxVel = [2, 4]` and `MaxAcc = [4, 2]`. -/
theorem C6_scan_maximum_witness :
    cfgAcc.UseAcc = true ∧
    (Par_GetTimeStep_VelAcc cfgAcc stAcc 1).st.MaxVel 0 = 2 ∧
    (Par_GetTimeStep_VelAcc cfgAcc stAcc 1).st.MaxVel 1 = 4 ∧
    (Par_GetTimeStep_VelAcc cfgAcc stAcc 1).st.MaxAcc 0 = 4 ∧
    (Par_GetTimeStep_VelAcc cfgAcc stAcc 1).st.MaxAcc 1 = 2 ∧
    (Par_GetTimeStep_VelAcc cfgAcc stAcc 1).st.amr = stAcc.amr := by
  have h := C6_scan_maximum cfgAcc stAcc 1 (by decide!) (by decide!)
  have hU : cfgAcc.UseAcc = true := by decide!
  refine ⟨hU, ?_, ?_, ?_, ?_, h.2⟩
  · rw [(h.1 0 (by decide!)).1]; decide!
  · rw [(h.1 1 (by decide!)).1]; decide!
  · rw [((h.1 0 (by decide!)).2.2.1 hU).1]; decide!
  · rw [((h.1 1 (by decide!)).2.2.1 hU).1]; decide!

/-- C7, counterexample: in scenario B the routine does not record level 0; it records
the same level as in scenario A. -/
theorem C7_scenarioB_not_level0 :
    (Par_GetTimeStep_VelAcc cfgB stA 1).st.MinDtLv0 ≠ 0 ∧
      (Par_GetTimeStep_VelAcc cfgB stA 1).st.MinDtLv0 =
        (Par_GetTimeStep_VelAcc cfgA stA 1).st.MinDtLv0 := by
  decide!

/-- C7, amended: in scenario B (cell widths `[1, 1/2]`, extrema `[2, 4]`, subcycling) the
velocity candidates are `[1, 1/2]` (factors 2 and 4) and the recorded level is level 1,
the same level as without subcycling; subcycling changes `dt_min[0]` from `1/8` to
`1/2`. -/
theorem C7_scenarioB (r : ℚ) :
    (extrema cfgB stA).1 0 = 2 ∧ (extrema cfgB stA).1 1 = 4 ∧
    subcycleFactor cfgB 0 = 2 ∧ subcycleFactor cfgB 1 = 4 ∧
    dt_tmp0 cfgB stA.amr.dh (extrema cfgB stA).1 0 = Dbl.fin 1 ∧
    dt_tmp0 cfgB stA.amr.dh (extrema cfgB stA).1 1 = Dbl.fin (1 / 2) ∧
    (Par_GetTimeStep_VelAcc cfgB stA r).st.MinDtLv0 = 1 ∧
    (Par_GetTimeStep_VelAcc cfgA stA r).st.MinDtLv0 = 1 ∧
    dt_min0 cfgB stA = Dbl.fin (1 / 2) ∧ dt_min0 cfgA stA = Dbl.fin (1 / 8) := by
  have hB := (st_of_configOk cfgB stA r (by decide!)).2.2.1
  have hA := (st_of_configOk cfgA stA r (by decide!)).2.2.1
  rw [hB, hA]
  decide!

/-- C8: with the acceleration criterion enabled, `MaxAcc[lv] = 0` on every level (of at
most 30) and active particles, the call does not return: it ends in a fatal error, the
one of the acceleration check when acceleration storage is compiled in, and `dt[]` and
`dTime[]` still hold the caller's values. -/
theorem C8_acc_degenerate_fatal (cfg : Config) (s : St) (r : ℚ)
    (hU : cfg.UseAcc = true) (hN : cfg.NLEVEL ≤ 30)
    (h0 : ∀ lv < cfg.NLEVEL, (extrema cfg s).2 lv = 0)
    (hP : 0 < s.amr.Par.NPar_Active) :
    (Par_GetTimeStep_VelAcc cfg s r).isReturned = false ∧
    (Par_GetTimeStep_VelAcc cfg s r).st.dt0 = s.dt0 ∧
    (Par_GetTimeStep_VelAcc cfg s r).st.dt1 = s.dt1 ∧
    (Par_GetTimeStep_VelAcc cfg s r).st.dTime0 = s.dTime0 ∧
    (Par_GetTimeStep_VelAcc cfg s r).st.dTime1 = s.dTime1 ∧
    (cfg.STORE_PAR_ACC = true →
      Par_GetTimeStep_VelAcc cfg s r = Outcome.aborted Err.accIncorrect (verifyState cfg s)) := by
  have hsel := selection_none _ _ _ _ _ (localSel_acc cfg s hU)
    (fun lv hlv => not_eligible_of_pinf_or_nan _ lv
      (dt_tmp1_zero cfg s.amr.dh _ lv (by omega) (h0 lv hlv)))
  have hmin : Dbl.eq (dt_min1 cfg s) (Dbl.fin FLT_MAX) = true := by
    unfold dt_min1 MPI_Allreduce_MIN_SERIAL
    rw [hsel]
    simp [Dbl.eq]
  have hrun : cfg.STORE_PAR_ACC = true →
      Par_GetTimeStep_VelAcc cfg s r = Outcome.aborted Err.accIncorrect (verifyState cfg s) := by
    intro hS
    unfold Par_GetTimeStep_VelAcc
    simp [hS, hU, hmin, hP]
  cases hS : cfg.STORE_PAR_ACC
  · have : Par_GetTimeStep_VelAcc cfg s r = Outcome.aborted Err.storeParAccOff s := by
      unfold Par_GetTimeStep_VelAcc
      simp [hS, hU]
    rw [this]
    simp [Outcome.isReturned, Outcome.st]
  · rw [hrun hS]
    simp [Outcome.isReturned, Outcome.st, verifyState]

/-- C8, instance: the acceleration criterion on particles without acceleration. -/
theorem C8_acc_degenerate_fatal_witness :
    (Par_GetTimeStep_VelAcc cfgAcc stA 1).isReturned = false ∧
    (Par_GetTimeStep_VelAcc cfgAcc stA 1).st.dt0 = stA.dt0 ∧
    (Par_GetTimeStep_VelAcc cfgAcc stA 1).st.dt1 = stA.dt1 ∧
    (Par_GetTimeStep_VelAcc cfgAcc stA 1).st.dTime0 = stA.dTime0 ∧
    (Par_GetTimeStep_VelAcc cfgAcc stA 1).st.dTime1 = stA.dTime1 ∧
    (cfgAcc.STORE_PAR_ACC = true →
      Par_GetTimeStep_VelAcc cfgAcc stA 1 =
        Outcome.aborted Err.accIncorrect (verifyState cfgAcc stA)) :=
  C8_acc_degenerate_fatal cfgAcc stA 1 (by decide!) (by decide!) (by decide!) (by decide!)

theorem useAcc_false_of_nonpos (cfg : Config) (h : cfg.DT__PARACC ≤ 0) : cfg.UseAcc = false := by
  simp [Config.UseAcc, h]

/-- With the acceleration criterion off, the call does not depend on the value of
`DT__PARACC`. -/
theorem run_congr_no_acc (cfg : Config) (s : St) (r q : ℚ) (h : cfg.DT__PARACC ≤ 0)
    (hq : q ≤ 0) :
    Par_GetTimeStep_VelAcc { cfg with DT__PARACC := q } s r = Par_GetTimeStep_VelAcc cfg s r := by
  have h1 : cfg.UseAcc = false := useAcc_false_of_nonpos cfg h
  have h2 : ({ cfg with DT__PARACC := q } : Config).UseAcc = false :=
    useAcc_false_of_nonpos _ hq
  have hs : ∀ x y, selStep { cfg with DT__PARACC := q } s.amr.dh x y =
      selStep cfg s.amr.dh x y := by
    intro x y
    funext a lv
    simp only [selStep, h1, h2]
    rfl
  have he : extrema { cfg with DT__PARACC := q } s = extrema cfg s := by
    simp only [extrema, scanAll, h1, h2]
  have hl : localSel { cfg with DT__PARACC := q } s = localSel cfg s := by
    simp only [localSel, selectLocal, he, hs]
  simp [Par_GetTimeStep_VelAcc, verifyState, finalVel, scaledVel, dt_min0, dt_min1, he, hl,
    h1, h2, velWarning]

/-- C11: with the acceleration criterion disabled (`DT__PARACC <= 0`) the call returns,
`dt[1]`, `dTime[1]` and `MinDtVar[1]` keep the values the caller passed in,
`MinDtLv[1] = -1`, and the whole outcome, the velocity-kind results included, is the one
of any other non-positive `DT__PARACC`. -/
theorem C11_acc_disabled (cfg : Config) (s : St) (r : ℚ) (hU : cfg.DT__PARACC ≤ 0) :
    (Par_GetTimeStep_VelAcc cfg s r).isReturned = true ∧
    (Par_GetTimeStep_VelAcc cfg s r).st.dt1 = s.dt1 ∧
    (Par_GetTimeStep_VelAcc cfg s r).st.dTime1 = s.dTime1 ∧
    (Par_GetTimeStep_VelAcc cfg s r).st.MinDtVar1 = s.MinDtVar1 ∧
    (Par_GetTimeStep_VelAcc cfg s r).st.MinDtLv1 = -1 ∧
    ∀ q : ℚ, q ≤ 0 →
      Par_GetTimeStep_VelAcc { cfg with DT__PARACC := q } s r = Par_GetTimeStep_VelAcc cfg s r := by
  have h1 : cfg.UseAcc = false := useAcc_false_of_nonpos cfg hU
  have hret := returned_of_no_acc cfg s r h1
  have hsel : (localSel cfg s).2 = ⟨Dbl.fin FLT_MAX, -1, s.MinDtVar1⟩ := by
    unfold localSel
    rw [selectLocal_eq]
    simp [h1]
  refine ⟨hret, ?_, ?_, ?_, ?_, fun q hq => run_congr_no_acc cfg s r q hU hq⟩
  · rw [st_of_returned cfg s r hret]; simp [h1]
  · rw [st_of_returned cfg s r hret]; simp [h1]
  · rw [(st_of_configOk cfg s r (Or.inr h1)).2.2.2.2.2.1, hsel]
  · rw [(st_of_configOk cfg s r (Or.inr h1)).2.2.2.1, hsel]

/-- C11, instance: scenario A, whose `DT__PARACC` is zero, against `DT__PARACC = -3`. -/
theorem C11_acc_disabled_witness :
    cfgA.DT__PARACC ≤ 0 ∧ (-3 : ℚ) ≤ 0 ∧
    (Par_GetTimeStep_VelAcc cfgA stA 1).st.dt1 = Dbl.fin 7 ∧
    (Par_GetTimeStep_VelAcc cfgA stA 1).st.MinDtVar1 = 9 ∧
    (Par_GetTimeStep_VelAcc cfgA stA 1).st.MinDtLv1 = -1 ∧
    Par_GetTimeStep_VelAcc { cfgA with DT__PARACC := -3 } stA 1 =
      Par_GetTimeStep_VelAcc cfgA stA 1 :=
  ⟨by decide!, by decide!, (C11_acc_disabled cfgA stA 1 (by decide!)).2.1,
    (C11_acc_disabled cfgA stA 1 (by decide!)).2.2.2.1,
    (C11_acc_disabled cfgA stA 1 (by decide!)).2.2.2.2.1,
    (C11_acc_disabled cfgA stA 1 (by decide!)).2.2.2.2.2 (-3) (by decide!)⟩

/-- C12: without acceleration storage (`STORE_PAR_ACC` off) a positive `DT__PARACC` ends
the call in the configuration error with the whole state (the extrema vectors and
`dt`, `dTime`, `MinDtLv`, `MinDtVar`) as it was on entry; with `DT__PARACC <= 0` the
error is not raised and the call returns. -/
theorem C12_config_error (cfg : Config) (s : St) (r : ℚ) (hS : cfg.STORE_PAR_ACC = false) :
    (0 < cfg.DT__PARACC →
      Par_GetTimeStep_VelAcc cfg s r = Outcome.aborted Err.storeParAccOff s) ∧
    (cfg.DT__PARACC ≤ 0 → (Par_GetTimeStep_VelAcc cfg s r).isReturned = true) := by
  refine ⟨fun h => ?_, fun h => returned_of_no_acc cfg s r (useAcc_false_of_nonpos cfg h)⟩
  unfold Par_GetTimeStep_VelAcc
  simp [hS, Config.UseAcc, h]

/-- C12, instance: the example with accelerations compiled without `STORE_PAR_ACC`. -/
theorem C12_config_error_witness :
    ({ cfgAcc with STORE_PAR_ACC := false } : Config).STORE_PAR_ACC = false ∧
    0 < ({ cfgAcc with STORE_PAR_ACC := false } : Config).DT__PARACC ∧
    Par_GetTimeStep_VelAcc { cfgAcc with STORE_PAR_ACC := false } stAcc 1 =
      Outcome.aborted Err.storeParAccOff stAcc :=
  ⟨by decide!, by decide!,
    (C12_config_error { cfgAcc with STORE_PAR_ACC := false } stAcc 1 (by decide!)).1 (by decide!)⟩

/-- C13, counterexample: without acceleration storage and with `DT__PARACC = 1/3 > 0`, a
call with `NPar_Active = 0` does not return normally: it ends in the configuration
error. -/
theorem C13_config_error_without_particles :
    stEmpty.amr.Par.NPar_Active = 0 ∧
    (Par_GetTimeStep_VelAcc { cfgAcc with STORE_PAR_ACC := false } stEmpty 1).isReturned = false ∧
    Par_GetTimeStep_VelAcc { cfgAcc with STORE_PAR_ACC := false } stEmpty 1 =
      Outcome.aborted Err.storeParAccOff stEmpty := by
  refine ⟨by decide!, by decide!, ?_⟩
  unfold Par_GetTimeStep_VelAcc
  rw [if_pos (by decide!)]

/-- C13, amended: with `NPar_Active = 0` the call writes nothing to stderr (no velocity
warning) and never ends in the acceleration-degeneracy error, whatever the extrema are;
it returns normally whenever it passes the configuration check (`STORE_PAR_ACC` on, or
`DT__PARACC <= 0`). -/
theorem C13_no_active_particles (cfg : Config) (s : St) (r : ℚ)
    (hP : s.amr.Par.NPar_Active = 0) :
    (Par_GetTimeStep_VelAcc cfg s r).st.stderr = s.stderr ∧
    (∀ st1, Par_GetTimeStep_VelAcc cfg s r ≠ Outcome.aborted Err.accIncorrect st1) ∧
    ((cfg.STORE_PAR_ACC = true ∨ cfg.UseAcc = false) →
      (Par_GetTimeStep_VelAcc cfg s r).isReturned = true) := by
  unfold Par_GetTimeStep_VelAcc
  cases hS : cfg.STORE_PAR_ACC <;> cases hU : cfg.UseAcc <;>
    simp [hP, Outcome.st, Outcome.isReturned, verifyState, velWarning]

/-- C13 amended, instance: no active particle and extrema that are all zero, with the
acceleration criterion enabled. -/
theorem C13_no_active_particles_witness :
    stEmpty.amr.Par.NPar_Active = 0 ∧
    (Par_GetTimeStep_VelAcc { cfgAcc with OPT__ADAPTIVE_DT := true }
      stEmpty 1).st.stderr = [] ∧
    (Par_GetTimeStep_VelAcc { cfgAcc with OPT__ADAPTIVE_DT := true }
      stEmpty 1).isReturned = true :=
  ⟨by decide!,
    (C13_no_active_particles { cfgAcc with OPT__ADAPTIVE_DT := true }
      stEmpty 1 (by decide!)).1,
    (C13_no_active_particles { cfgAcc with OPT__ADAPTIVE_DT := true }
      stEmpty 1 (by decide!)).2.2
      (Or.inl (by decide!))⟩

/-- C14: with `OPT__ADAPTIVE_DT` on, the call leaves `MaxVel[lv]` and `MaxAcc[lv]` as they
were on every level, reads them as the extrema of the selection, and its outcome (return
or abort, `dt`, `dTime`, `MinDtLv`, `MinDtVar`, the extrema, stderr) is the same for any
other particle velocities and accelerations. -/
theorem C14_adaptive_reuse (cfg : Config) (s : St) (r : ℚ)
    (hA : cfg.OPT__ADAPTIVE_DT = true) :
    (Par_GetTimeStep_VelAcc cfg s r).st.MaxVel = s.MaxVel ∧
    (Par_GetTimeStep_VelAcc cfg s r).st.MaxAcc = s.MaxAcc ∧
    extrema cfg s = (s.MaxVel, s.MaxAcc) ∧
    ∀ vx vy vz ax ay az : Nat → ℚ,
      (Par_GetTimeStep_VelAcc cfg (s.withKinematics vx vy vz ax ay az) r).isReturned =
          (Par_GetTimeStep_VelAcc cfg s r).isReturned ∧
        (Par_GetTimeStep_VelAcc cfg (s.withKinematics vx vy vz ax ay az) r).st.results =
          (Par_GetTimeStep_VelAcc cfg s r).st.results ∧
        (Par_GetTimeStep_VelAcc cfg (s.withKinematics vx vy vz ax ay az) r).st.MaxVel =
          (Par_GetTimeStep_VelAcc cfg s r).st.MaxVel ∧
        (Par_GetTimeStep_VelAcc cfg (s.withKinematics vx vy vz ax ay az) r).st.MaxAcc =
          (Par_GetTimeStep_VelAcc cfg s r).st.MaxAcc ∧
        (Par_GetTimeStep_VelAcc cfg (s.withKinematics vx vy vz ax ay az) r).st.stderr =
          (Par_GetTimeStep_VelAcc cfg s r).st.stderr := by
  have he : ∀ t : St, extrema cfg t = (t.MaxVel, t.MaxAcc) := by
    intro t
    simp [extrema, scanAll, hA]
  have hv : (Par_GetTimeStep_VelAcc cfg s r).st.MaxVel = s.MaxVel := by
    unfold Par_GetTimeStep_VelAcc
    split_ifs <;> simp [Outcome.st, verifyState, he]
  have ha : (Par_GetTimeStep_VelAcc cfg s r).st.MaxAcc = s.MaxAcc := by
    unfold Par_GetTimeStep_VelAcc
    split_ifs <;> simp [Outcome.st, verifyState, he]
  refine ⟨hv, ha, he s, ?_⟩
  intro vx vy vz ax ay az
  have hl : localSel cfg (s.withKinematics vx vy vz ax ay az) = localSel cfg s := by
    simp [localSel, he, St.withKinematics]
  have h0 : dt_min0 cfg (s.withKinematics vx vy vz ax ay az) = dt_min0 cfg s := by
    simp [dt_min0, hl]
  have h1 : dt_min1 cfg (s.withKinematics vx vy vz ax ay az) = dt_min1 cfg s := by
    simp [dt_min1, hl]
  have hf : finalVel cfg (s.withKinematics vx vy vz ax ay az) = finalVel cfg s := by
    simp [finalVel, scaledVel, h0]
  have hn : (s.withKinematics vx vy vz ax ay az).amr.Par.NPar_Active =
      s.amr.Par.NPar_Active := rfl
  unfold Par_GetTimeStep_VelAcc
  simp only [verifyState, he, hl, h0, h1, hf, hn]
  split_ifs <;>
    simp [Outcome.st, Outcome.isReturned, St.results, St.withKinematics]

/-- C14, instance: the example with accelerations run on stored extrema, against the
same state with every particle at rest and without acceleration. -/
theorem C14_adaptive_reuse_witness :
    ({ cfgAcc with OPT__ADAPTIVE_DT := true } : Config).OPT__ADAPTIVE_DT = true ∧
    (Par_GetTimeStep_VelAcc { cfgAcc with OPT__ADAPTIVE_DT := true }
        ({ stAcc with MaxVel := fun _ => 3, MaxAcc := fun _ => 5 } : St) 1).st.MaxVel =
      (fun _ => 3) ∧
    (Par_GetTimeStep_VelAcc { cfgAcc with OPT__ADAPTIVE_DT := true }
        (({ stAcc with MaxVel := fun _ => 3, MaxAcc := fun _ => 5 } : St).withKinematics
          (fun _ => 0) (fun _ => 0) (fun _ => 0) (fun _ => 0) (fun _ => 0) (fun _ => 0))
        1).st.results =
      (Par_GetTimeStep_VelAcc { cfgAcc with OPT__ADAPTIVE_DT := true }
        ({ stAcc with MaxVel := fun _ => 3, MaxAcc := fun _ => 5 } : St) 1).st.results ∧
    (Par_GetTimeStep_VelAcc { cfgAcc with OPT__ADAPTIVE_DT := true }
        ({ stAcc with MaxVel := fun _ => 3, MaxAcc := fun _ => 5 } : St) 1).st.dt0 =
      Dbl.fin (1 / 3) :=
  ⟨by decide!,
    (C14_adaptive_reuse { cfgAcc with OPT__ADAPTIVE_DT := true }
      ({ stAcc with MaxVel := fun _ => 3, MaxAcc := fun _ => 5 } : St) 1 (by decide!)).1,
    ((C14_adaptive_reuse { cfgAcc with OPT__ADAPTIVE_DT := true }
      ({ stAcc with MaxVel := fun _ => 3, MaxAcc := fun _ => 5 } : St) 1 (by decide!)).2.2.2
      (fun _ => 0) (fun _ => 0) (fun _ => 0) (fun _ => 0) (fun _ => 0) (fun _ => 0)).2.1,
    by decide!⟩

theorem maxComponent_mono (a b : Nat → Nat → ℚ) (p : Nat)
    (h : ∀ d < 3, |a d p| ≤ |b d p|) : maxComponent a p ≤ maxComponent b p := by
  unfold maxComponent
  exact max_le_max (max_le_max (h 0 (by norm_num)) (h 1 (by norm_num))) (h 2 (by norm_num))

theorem specMax_mono (a b : Nat → Nat → ℚ) (ps : List Nat)
    (h : ∀ p, ∀ d < 3, |a d p| ≤ |b d p|) : specMax a ps ≤ specMax b ps := by
  induction ps with
  | nil => simp [specMax]
  | cons p ps ih =>
    have ha : specMax a (p :: ps) = max (maxComponent a p) (specMax a ps) := by simp [specMax]
    have hb : specMax b (p :: ps) = max (maxComponent b p) (specMax b ps) := by simp [specMax]
    rw [ha, hb]
    exact max_le_max (maxComponent_mono a b p (h p)) ih

theorem returned_iff (cfg : Config) (s : St) (r : ℚ) :
    (Par_GetTimeStep_VelAcc cfg s r).isReturned = true ↔
      (!cfg.STORE_PAR_ACC && cfg.UseAcc) = false ∧
      (cfg.UseAcc && Dbl.eq (dt_min1 cfg s) (Dbl.fin FLT_MAX)
        && decide (s.amr.Par.NPar_Active > 0)) = false := by
  unfold Par_GetTimeStep_VelAcc
  split_ifs with h1 h2 h3 <;> simp_all [Outcome.isReturned]

theorem finalVel_fin (cfg : Config) (s : St) (m : ℚ) (hm : dt_min0 cfg s = Dbl.fin m) :
    finalVel cfg s =
      Dbl.fin (if cfg.DT__PARVEL_MAX ≥ 0 then min (cfg.DT__PARVEL * m) cfg.DT__PARVEL_MAX
        else cfg.DT__PARVEL * m) := by
  unfold finalVel scaledVel MIN
  rw [hm]
  simp only [Dbl.mul, Dbl.lt, decide_eq_true_eq]
  split_ifs with h1 h2
  · rw [min_eq_left (le_of_lt h2)]
  · rw [min_eq_right (not_lt.mp h2)]
  · rfl

theorem abs_le_abs_two_mul (x : ℚ) : |x| ≤ |2 * x| := by
  have h := abs_nonneg x
  rw [abs_mul, abs_two]
  linarith

/-- C19: with the extrema rescanned, `DT__PARVEL >= 0`, non-negative cell widths and at
most 30 levels, if state B differs from state A only in particle velocities none of
whose components has a smaller absolute value, then B returns whenever A does, and the
`dt_min[0]` and `dt[0]` of B are finite numbers at most those of A. -/
theorem C19_monotone (cfg : Config) (s : St) (r : ℚ) (vx vy vz : Nat → ℚ)
    (hA : cfg.OPT__ADAPTIVE_DT = false) (hD : 0 ≤ cfg.DT__PARVEL)
    (hN : cfg.NLEVEL ≤ 30) (hdh : ∀ lv < cfg.NLEVEL, 0 ≤ s.amr.dh lv)
    (hx : ∀ p, |s.amr.Par.VelX p| ≤ |vx p|) (hy : ∀ p, |s.amr.Par.VelY p| ≤ |vy p|)
    (hz : ∀ p, |s.amr.Par.VelZ p| ≤ |vz p|)
    (hret : (Par_GetTimeStep_VelAcc cfg s r).isReturned = true) :
    (Par_GetTimeStep_VelAcc cfg
        (s.withKinematics vx vy vz s.amr.Par.AccX s.amr.Par.AccY s.amr.Par.AccZ) r).isReturned
      = true ∧
    ∃ mA mB tA tB : ℚ,
      dt_min0 cfg s = Dbl.fin mA ∧
      dt_min0 cfg (s.withKinematics vx vy vz s.amr.Par.AccX s.amr.Par.AccY s.amr.Par.AccZ) =
        Dbl.fin mB ∧
      mB ≤ mA ∧
      (Par_GetTimeStep_VelAcc cfg s r).st.dt0 = Dbl.fin tA ∧
      (Par_GetTimeStep_VelAcc cfg
        (s.withKinematics vx vy vz s.amr.Par.AccX s.amr.Par.AccY s.amr.Par.AccZ) r).st.dt0 =
        Dbl.fin tB ∧
      tB ≤ tA := by
  set sB := s.withKinematics vx vy vz s.amr.Par.AccX s.amr.Par.AccY s.amr.Par.AccZ with hsB
  have hdhB : sB.amr.dh = s.amr.dh := rfl
  have hlp : ∀ lv, levelParticles sB.amr lv = levelParticles s.amr lv := fun _ => rfl
  have hvel : ∀ p, ∀ d < 3, |s.amr.Par.Vel d p| ≤ |sB.amr.Par.Vel d p| := by
    intro p d hd
    interval_cases d
    · exact hx p
    · exact hy p
    · exact hz p
  have hMA : ∀ lv < cfg.NLEVEL,
      (extrema cfg s).1 lv = specMax s.amr.Par.Vel (levelParticles s.amr lv) := by
    intro lv hlv
    rw [extrema_recompute cfg s hA]
    simp [hlv]
  have hMB : ∀ lv < cfg.NLEVEL,
      (extrema cfg sB).1 lv = specMax sB.amr.Par.Vel (levelParticles s.amr lv) := by
    intro lv hlv
    rw [extrema_recompute cfg sB hA]
    simp [hlv, hlp]
  have hacc : (extrema cfg sB).2 = (extrema cfg s).2 := by
    rw [extrema_recompute cfg sB hA, extrema_recompute cfg s hA]
    rfl
  have hMle : ∀ lv < cfg.NLEVEL, (extrema cfg s).1 lv ≤ (extrema cfg sB).1 lv := by
    intro lv hlv
    rw [hMA lv hlv, hMB lv hlv]
    exact specMax_mono _ _ _ hvel
  have hA0 : ∀ lv < cfg.NLEVEL, 0 ≤ (extrema cfg s).1 lv := by
    intro lv hlv
    rw [hMA lv hlv]
    exact specMax_nonneg _ _
  have hB0 : ∀ lv < cfg.NLEVEL, 0 ≤ (extrema cfg sB).1 lv :=
    fun lv hlv => le_trans (hA0 lv hlv) (hMle lv hlv)
  have hmin1 : dt_min1 cfg sB = dt_min1 cfg s := by
    unfold dt_min1 localSel
    rw [selectLocal_eq, selectLocal_eq, hacc]
    rfl
  have hretB : (Par_GetTimeStep_VelAcc cfg sB r).isReturned = true := by
    rw [returned_iff] at hret ⊢
    rw [hmin1]
    exact hret
  obtain ⟨mA, hmA, hmAF, hleA⟩ := selection_finite _ _ _ _ _ (localSel_vel cfg s)
    (vel_candidates_not_ninf cfg s.amr.dh _ hN hdh hA0)
  obtain ⟨mB, hmB, hmBF, hleB⟩ := selection_finite _ _ _ _ _ (localSel_vel cfg sB)
    (vel_candidates_not_ninf cfg sB.amr.dh _ hN hdh hB0)
  have hmm : mB ≤ mA := by
    rcases localSel_vel cfg s with ⟨-, hs⟩ | ⟨k, ⟨hk, hel, -, -⟩, hs⟩
    · rw [hs] at hmA
      have : mA = FLT_MAX := by
        injection hmA with h
        exact h.symm
      rw [this]
      exact hmBF
    · rw [hs] at hmA
      have hck : dt_tmp0 cfg s.amr.dh (extrema cfg s).1 k = Dbl.fin mA := hmA
      rcases lt_or_eq_of_le (hA0 k hk) with hpos | hzero
      · have hposB : 0 < (extrema cfg sB).1 k := lt_of_lt_of_le hpos (hMle k hk)
        have hcA := dt_tmp0_pos cfg s.amr.dh (extrema cfg s).1 k (by omega) hpos
        have hcB := dt_tmp0_pos cfg sB.amr.dh (extrema cfg sB).1 k (by omega) hposB
        rw [hcA] at hck
        have hval : s.amr.dh k / (extrema cfg s).1 k * subcycleFactor cfg k = mA := by
          injection hck
        have h1 := hleB k hk _ hcB
        rw [hdhB] at h1
        have h2 : s.amr.dh k / (extrema cfg sB).1 k ≤ s.amr.dh k / (extrema cfg s).1 k :=
          div_le_div_of_nonneg_left (hdh k hk) hpos (hMle k hk)
        have h3 := mul_le_mul_of_nonneg_right h2 (le_of_lt (subcycleFactor_pos cfg k))
        rw [← hval]
        exact le_trans h1 h3
      · exfalso
        exact not_eligible_of_pinf_or_nan _ k
          (dt_tmp0_zero cfg s.amr.dh _ k (by omega) hzero.symm (hdh k hk)) hel
  have hfA := finalVel_fin cfg s mA hmA
  have hfB := finalVel_fin cfg sB mB hmB
  refine ⟨hretB, mA, mB,
    (if cfg.DT__PARVEL_MAX ≥ 0 then min (cfg.DT__PARVEL * mA) cfg.DT__PARVEL_MAX
      else cfg.DT__PARVEL * mA),
    (if cfg.DT__PARVEL_MAX ≥ 0 then min (cfg.DT__PARVEL * mB) cfg.DT__PARVEL_MAX
      else cfg.DT__PARVEL * mB), hmA, hmB, hmm, ?_, ?_, ?_⟩
  · rw [st_of_returned cfg s r hret]
    exact hfA
  · rw [st_of_returned cfg sB r hretB]
    exact hfB
  · have hp : cfg.DT__PARVEL * mB ≤ cfg.DT__PARVEL * mA := mul_le_mul_of_nonneg_left hmm hD
    split_ifs
    · exact min_le_min hp (le_refl _)
    · exact hp

/-- C19, instance: scenario B against the same state with every velocity doubled. -/
theorem C19_monotone_witness :
    (Par_GetTimeStep_VelAcc cfgB
        (stA.withKinematics (fun p => 2 * stA.amr.Par.VelX p) (fun p => 2 * stA.amr.Par.VelY p)
          (fun p => 2 * stA.amr.Par.VelZ p) stA.amr.Par.AccX stA.amr.Par.AccY stA.amr.Par.AccZ)
        1).isReturned = true ∧
    ∃ mA mB tA tB : ℚ,
      dt_min0 cfgB stA = Dbl.fin mA ∧
      dt_min0 cfgB
        (stA.withKinematics (fun p => 2 * stA.amr.Par.VelX p) (fun p => 2 * stA.amr.Par.VelY p)
          (fun p => 2 * stA.amr.Par.VelZ p) stA.amr.Par.AccX stA.amr.Par.AccY stA.amr.Par.AccZ) =
        Dbl.fin mB ∧
      mB ≤ mA ∧
      (Par_GetTimeStep_VelAcc cfgB stA 1).st.dt0 = Dbl.fin tA ∧
      (Par_GetTimeStep_VelAcc cfgB
        (stA.withKinematics (fun p => 2 * stA.amr.Par.VelX p) (fun p => 2 * stA.amr.Par.VelY p)
          (fun p => 2 * stA.amr.Par.VelZ p) stA.amr.Par.AccX stA.amr.Par.AccY stA.amr.Par.AccZ)
        1).st.dt0 = Dbl.fin tB ∧
      tB ≤ tA :=
  C19_monotone cfgB stA 1 _ _ _ (by decide!) (by decide!) (by decide!) (by decide!)
    (fun p => abs_le_abs_two_mul _) (fun p => abs_le_abs_two_mul _)
    (fun p => abs_le_abs_two_mul _)
    (by decide!)

/-! ## The global minimum -/

theorem foldl_min2_spec (xs : List Dbl) (a : Dbl) :
    (xs.foldl Dbl.min2 a = a ∨
      (xs.foldl Dbl.min2 a ∈ xs ∧ Dbl.lt (xs.foldl Dbl.min2 a) a = true)) ∧
    ∀ x ∈ xs, Dbl.lt x (xs.foldl Dbl.min2 a) = false := by
  induction xs generalizing a with
  | nil => exact ⟨Or.inl rfl, fun x hx => absurd hx (List.not_mem_nil x)⟩
  | cons b xs ih =>
    rw [List.foldl_cons]
    obtain ⟨hmem, hall⟩ := ih (Dbl.min2 a b)
    have hb : Dbl.lt b (Dbl.min2 a b) = false := by
      unfold Dbl.min2
      split_ifs with h
      · exact dbl_lt_irrefl b
      · simpa using h
    refine ⟨?_, ?_⟩
    · by_cases hba : Dbl.lt b a = true
      · have hm : Dbl.min2 a b = b := by simp [Dbl.min2, hba]
        rw [hm] at hmem ⊢
        rcases hmem with h | ⟨h1, h2⟩
        · rw [h]
          exact Or.inr ⟨List.mem_cons_self _ _, hba⟩
        · exact Or.inr ⟨List.mem_cons_of_mem _ h1, dbl_lt_trans h2 hba⟩
      · have hm : Dbl.min2 a b = a := by simp [Dbl.min2, hba]
        rw [hm] at hmem ⊢
        rcases hmem with h | ⟨h1, h2⟩
        · exact Or.inl h
        · exact Or.inr ⟨List.mem_cons_of_mem _ h1, h2⟩
    · intro x hx
      rcases List.mem_cons.mp hx with rfl | hx
      · rcases hmem with h | ⟨-, h2⟩
        · rw [h]; exact hb
        · by_contra hc
          have := dbl_lt_trans (by simpa using hc) h2
          rw [hb] at this
          exact Bool.noConfusion this
      · exact hall x hx

theorem reduceMin_spec (l : List Dbl) (hl : l ≠ []) :
    reduceMin l ∈ l ∧ ∀ x ∈ l, Dbl.lt x (reduceMin l) = false := by
  cases l with
  | nil => exact absurd rfl hl
  | cons a xs =>
    obtain ⟨hmem, hall⟩ := foldl_min2_spec xs a
    refine ⟨?_, ?_⟩
    · show xs.foldl Dbl.min2 a ∈ a :: xs
      rcases hmem with h | ⟨h, -⟩
      · rw [h]; exact List.mem_cons_self _ _
      · exact List.mem_cons_of_mem _ h
    · intro x hx
      show Dbl.lt x (xs.foldl Dbl.min2 a) = false
      rcases List.mem_cons.mp hx with rfl | hx
      · rcases hmem with h | ⟨-, h⟩
        · rw [h]; exact dbl_lt_irrefl x
        · exact dbl_lt_asymm h
      · exact hall x hx

theorem reduceMin_const (l : List Dbl) (c : Dbl) (hl : l ≠ []) (hc : ∀ x ∈ l, x = c) :
    reduceMin l = c := hc _ (reduceMin_spec l hl).1

theorem dbl_le_of_not_lt {a b : Dbl} (ha : a ≠ Dbl.nan) (hb : b ≠ Dbl.nan)
    (h : Dbl.lt b a = false) : Dbl.le a b = true := by
  cases a <;> cases b <;> simp_all [Dbl.lt, Dbl.le, Dbl.eq]
  exact le_iff_lt_or_eq.mp h

theorem allreduce_const (l : List Dbl) (c : Dbl) (hc : ∀ x ∈ l, x = c) :
    MPI_Allreduce_MIN l = l := by
  by_cases hl : l = []
  · rw [hl]; rfl
  · unfold MPI_Allreduce_MIN
    rw [reduceMin_const l c hl hc]
    calc l.map (fun _ => c) = l.map id := List.map_congr_left (fun x hx => (hc x hx).symm)
      _ = l := List.map_id l

theorem dt_local_ne_nan (cand : Nat → Dbl) (Max : Nat → ℚ) (N : Nat) (v : ℚ) (s : Sel)
    (hs : IsSelection cand Max N v s) : s.dt_local ≠ Dbl.nan := by
  rcases hs with ⟨-, rfl⟩ | ⟨k, ⟨-, hel, -, -⟩, rfl⟩
  · simp
  · exact (dbl_ne_nan_of_lt hel).1

/-- C15: the reduction `MPI_Allreduce` with `MPI_MIN`, as the minimum over the list of
the local values of all processes, gives every process the same value; for at least one
process this value is one of the local values, no local value is below it, and it is at
most every local value when none is NaN; identical local values are returned as they
are; reducing the result again changes nothing; with a single process (the `SERIAL`
build) `dt_min[k] = dt_local[k]`, which is never NaN for the velocity kind. -/
theorem C15_global_min (l : List Dbl) :
    ((MPI_Allreduce_MIN l).length = l.length ∧ ∀ x ∈ MPI_Allreduce_MIN l, x = reduceMin l) ∧
    (l ≠ [] →
      reduceMin l ∈ l ∧ (∀ x ∈ l, Dbl.lt x (reduceMin l) = false) ∧
      ((∀ x ∈ l, x ≠ Dbl.nan) → ∀ x ∈ l, Dbl.le (reduceMin l) x = true)) ∧
    (∀ c, (∀ x ∈ l, x = c) → MPI_Allreduce_MIN l = l) ∧
    MPI_Allreduce_MIN (MPI_Allreduce_MIN l) = MPI_Allreduce_MIN l ∧
    (∀ x, MPI_Allreduce_MIN [x] = [MPI_Allreduce_MIN_SERIAL x]) ∧
    (∀ (cfg : Config) (s : St),
      MPI_Allreduce_MIN [(localSel cfg s).1.dt_local] = [dt_min0 cfg s] ∧
      MPI_Allreduce_MIN [(localSel cfg s).2.dt_local] = [dt_min1 cfg s] ∧
      dt_min0 cfg s = (localSel cfg s).1.dt_local ∧
      dt_min1 cfg s = (localSel cfg s).2.dt_local ∧
      (localSel cfg s).1.dt_local ≠ Dbl.nan) := by
  have hall : ∀ x ∈ MPI_Allreduce_MIN l, x = reduceMin l := by
    intro x hx
    unfold MPI_Allreduce_MIN at hx
    obtain ⟨_, _, h⟩ := List.mem_map.mp hx
    exact h.symm
  refine ⟨⟨by simp [MPI_Allreduce_MIN], hall⟩, fun hl => ?_, fun c hc => allreduce_const l c hc,
    allreduce_const _ _ hall, fun x => rfl, fun cfg s => ⟨rfl, rfl, rfl, rfl, ?_⟩⟩
  · obtain ⟨hmem, hlow⟩ := reduceMin_spec l hl
    exact ⟨hmem, hlow, fun hn x hx => dbl_le_of_not_lt (hn _ hmem) (hn x hx) (hlow x hx)⟩
  · exact dt_local_ne_nan _ _ _ _ _ (localSel_vel cfg s)

/-- C15, instance: three processes with the local values `3`, `1/2` and `2`. -/
theorem C15_global_min_witness :
    ([Dbl.fin 3, Dbl.fin (1 / 2), Dbl.fin 2] : List Dbl) ≠ [] ∧
    MPI_Allreduce_MIN [Dbl.fin 3, Dbl.fin (1 / 2), Dbl.fin 2] =
      [Dbl.fin (1 / 2), Dbl.fin (1 / 2), Dbl.fin (1 / 2)] ∧
    reduceMin [Dbl.fin 3, Dbl.fin (1 / 2), Dbl.fin 2] ∈
      ([Dbl.fin 3, Dbl.fin (1 / 2), Dbl.fin 2] : List Dbl) ∧
    MPI_Allreduce_MIN (MPI_Allreduce_MIN [Dbl.fin 3, Dbl.fin (1 / 2), Dbl.fin 2]) =
      MPI_Allreduce_MIN [Dbl.fin 3, Dbl.fin (1 / 2), Dbl.fin 2] :=
  ⟨by decide!, by decide!,
    ((C15_global_min [Dbl.fin 3, Dbl.fin (1 / 2), Dbl.fin 2]).2.1 (by decide!)).1,
    (C15_global_min [Dbl.fin 3, Dbl.fin (1 / 2), Dbl.fin 2]).2.2.2.1⟩

/-! ## The performance ledger -/

theorem wrap64_eq (x : Int) (h : InLong x) : wrap64 x = x := by
  obtain ⟨h1, h2⟩ := h
  unfold wrap64
  rw [Int.emod_eq_of_lt (by omega) (by omega)]
  omega

theorem totalElapsed_append (done : List PerfCall) (c : PerfCall) :
    totalElapsed (done ++ [c]) = totalElapsed done + c.ElapsedTime := by
  simp [totalElapsed]

theorem totalUpdates_append (cfg : PerfConfig) (done : List PerfCall) (c : PerfCall) :
    totalUpdates cfg (done ++ [c]) = wrap64 (totalUpdates cfg done + (counts cfg c).2.1) := by
  simp [totalUpdates, List.foldl_append]

theorem totalPerRank_append (cfg : PerfConfig) (done : List PerfCall) (c : PerfCall) :
    totalPerRank cfg (done ++ [c]) = Dbl.add (totalPerRank cfg done) (perRank cfg c) := by
  simp [totalPerRank, List.foldl_append]

theorem sumUpdates_append (cfg : PerfConfig) (done : List PerfCall) (c : PerfCall) :
    sumUpdates cfg (done ++ [c]) = sumUpdates cfg done + (counts cfg c).2.1 := by
  simp [sumUpdates]

/-- The shape of the ledger after calls on rank 0 once the header is written. -/
theorem runCalls_rank0 (cfg : PerfConfig) (h0 : cfg.MPI_Rank = 0) (cs : List PerfCall) :
    ∀ (st : PerfState) (done : List PerfCall), st.FirstTime = false →
      st.Total_NUpdateCell = totalUpdates cfg done →
      st.Total_ElapsedTime = totalElapsed done →
      st.Total_NUpdateCell_PerSec_PerRank = totalPerRank cfg done →
      (runCalls cfg st cs).file = st.file ++ specLedger cfg done cs := by
  induction cs with
  | nil => intro st done _ _ _ _; simp [runCalls, specLedger]
  | cons c rest ih =>
    intro st done hF h1 h2 h3
    have hstep := ih (Aux_Record_Performance cfg st c) (done ++ [c])
      (by simp [Aux_Record_Performance, h0, hF])
      (by simp [Aux_Record_Performance, h0, hF, h1, totalUpdates_append])
      (by simp [Aux_Record_Performance, h0, hF, h2, totalElapsed_append])
      (by simp [Aux_Record_Performance, h0, hF, h3, totalPerRank_append])
    have hrun : runCalls cfg st (c :: rest) =
        runCalls cfg (Aux_Record_Performance cfg st c) rest := rfl
    rw [hrun, hstep]
    have hfile : (Aux_Record_Performance cfg st c).file =
        st.file ++ (Item.record (recordOf cfg c) ::
          (if isTerminal cfg c then [Item.summary (summaryOf cfg (done ++ [c]) c.Step)]
           else [])) := by
      simp only [Aux_Record_Performance, h0, hF, summaryOf, totalUpdates_append,
        totalElapsed_append, totalPerRank_append, h1, h2, h3]
      cases isTerminal cfg c <;> simp [h1, h2, h3]
    rw [hfile, List.append_assoc]
    rfl

theorem specLedger_records (cfg : PerfConfig) (cs : List PerfCall) :
    ∀ done, (specLedger cfg done cs).filter Item.isRecord =
        cs.map (fun c => Item.record (recordOf cfg c)) ∧
      ∀ it ∈ specLedger cfg done cs, it.isHeader = false := by
  induction cs with
  | nil => intro done; simp [specLedger]
  | cons c rest ih =>
    intro done
    obtain ⟨h1, h2⟩ := ih (done ++ [c])
    refine ⟨?_, ?_⟩
    · unfold specLedger
      rw [List.filter_append, h1]
      split_ifs <;> simp [Item.isRecord]
    · intro it hit
      unfold specLedger at hit
      rcases List.mem_append.mp hit with h | h
      · split_ifs at h <;> simp at h <;> rcases h with rfl | rfl <;> rfl
      · exact h2 it h

theorem totalUpdates_eq_sum (cfg : PerfConfig) (sofar : List PerfCall) :
    (∀ n ≤ sofar.length, InLong (sumUpdates cfg (sofar.take n))) →
      totalUpdates cfg sofar = sumUpdates cfg sofar := by
  induction sofar using List.reverseRecOn with
  | nil => intro _; rfl
  | append_singleton l c ih =>
    intro h
    have hl : ∀ n ≤ l.length, InLong (sumUpdates cfg (l.take n)) := by
      intro n hn
      have := h n (by simp; omega)
      rwa [List.take_append_of_le_length hn] at this
    have hfull := h (l ++ [c]).length (le_refl _)
    rw [List.take_length, sumUpdates_append] at hfull
    rw [totalUpdates_append, ih hl, sumUpdates_append, wrap64_eq _ hfull]

theorem runCalls_other_rank (cfg : PerfConfig) (h0 : cfg.MPI_Rank ≠ 0) (cs : List PerfCall)
    (st : PerfState) : runCalls cfg st cs = st := by
  induction cs with
  | nil => rfl
  | cons c rest ih =>
    have : Aux_Record_Performance cfg st c = st := by simp [Aux_Record_Performance, h0]
    show runCalls cfg (Aux_Record_Performance cfg st c) rest = st
    rw [this, ih]

/-- C17: on rank 0, a sequence of at least one call started with `FirstTime` set appends
to the file the column header once, first, and then for every call, in order, one
data record followed by the summary block exactly when `Step == END_STEP` or
`Time[0] >= END_T` at that call; the summary holds the sum of the `ElapsedTime`
arguments so far and the total of the cell updates so far divided by it (the total is
the sum of the updates of the calls as long as the sums stay in the range of a `long`).
On another rank the calls change nothing. -/
theorem C17_ledger (cfg : PerfConfig) (F0 : List Item) (cs : List PerfCall) :
    (cfg.MPI_Rank = 0 → cs ≠ [] →
      (runCalls cfg (PerfState.init F0) cs).file =
        F0 ++ Item.header cfg.PARTICLE cfg.NLEVEL :: specLedger cfg [] cs) ∧
    ((specLedger cfg [] cs).filter Item.isRecord =
        cs.map (fun c => Item.record (recordOf cfg c)) ∧
      ∀ it ∈ specLedger cfg [] cs, it.isHeader = false) ∧
    (∀ (sofar : List PerfCall) (Step : Int),
      (summaryOf cfg sofar Step).TotalTime = (sofar.map (fun c => c.ElapsedTime)).sum ∧
      (summaryOf cfg sofar Step).AvgPerf_Overall =
        Dbl.div (Dbl.fin (totalUpdates cfg sofar : ℚ))
          (Dbl.fin (sofar.map (fun c => c.ElapsedTime)).sum) ∧
      ((∀ n ≤ sofar.length, InLong (sumUpdates cfg (sofar.take n))) →
        totalUpdates cfg sofar = (sofar.map (fun c => (counts cfg c).2.1)).sum)) ∧
    (cfg.MPI_Rank ≠ 0 → runCalls cfg (PerfState.init F0) cs = PerfState.init F0) := by
  refine ⟨fun h0 hne => ?_, specLedger_records cfg cs [],
    fun sofar Step => ⟨rfl, rfl, fun h => totalUpdates_eq_sum cfg sofar h⟩,
    fun h0 => runCalls_other_rank cfg h0 cs _⟩
  cases cs with
  | nil => exact absurd rfl hne
  | cons c rest =>
    have hfirst : Aux_Record_Performance cfg (PerfState.init F0) c =
        Aux_Record_Performance cfg
          { PerfState.init F0 with
            FirstTime := false
            warnings := if c.fileExists then 1 else 0
            file := F0 ++ [Item.header cfg.PARTICLE cfg.NLEVEL] } c := by
      simp [Aux_Record_Performance, h0, PerfState.init]
    have hrun : runCalls cfg (PerfState.init F0) (c :: rest) =
        runCalls cfg
          { PerfState.init F0 with
            FirstTime := false
            warnings := if c.fileExists then 1 else 0
            file := F0 ++ [Item.header cfg.PARTICLE cfg.NLEVEL] } (c :: rest) := by
      show runCalls cfg (Aux_Record_Performance cfg (PerfState.init F0) c) rest = _
      rw [hfirst]
      rfl
    rw [hrun, runCalls_rank0 cfg h0 (c :: rest) _ [] rfl rfl rfl rfl]
    simp

theorem counts_perfCall (n : Nat) : counts perfCfg (perfCall n) = (12288, 20480, 0) := by
  rfl

/-- C17, instance: three calls of the ledger example into an empty file; the summary
follows the third record, of step 2, with total time `1 + 2 + 3` and average
`3 * 20480 / 6`. -/
theorem C17_ledger_witness :
    perfCfg.MPI_Rank = 0 ∧
    (runCalls perfCfg (PerfState.init []) [perfCall 0, perfCall 1, perfCall 2]).file =
      [Item.header false 2, Item.record (recordOf perfCfg (perfCall 0)),
        Item.record (recordOf perfCfg (perfCall 1)),
        Item.record (recordOf perfCfg (perfCall 2)),
        Item.summary ⟨6, Dbl.fin 10240, Dbl.fin (28160 / 3)⟩] ∧
    (recordOf perfCfg (perfCall 1)).NUpdateCell = 20480 := by
  refine ⟨rfl, ?_, ?_⟩
  · rw [(C17_ledger perfCfg [] [perfCall 0, perfCall 1, perfCall 2]).1 rfl
      (List.cons_ne_nil _ _)]
    have h0 : isTerminal perfCfg (perfCall 0) = false := by
      simp [isTerminal, perfCfg, perfCall]
    have h1 : isTerminal perfCfg (perfCall 1) = false := by
      simp [isTerminal, perfCfg, perfCall]
    have h2 : isTerminal perfCfg (perfCall 2) = true := by
      simp [isTerminal, perfCfg, perfCall]
    simp only [specLedger, h0, h1, h2, summaryOf, totalElapsed, totalUpdates, totalPerRank,
      perRank, List.foldl_cons, List.foldl_nil, List.map_cons, List.map_nil, List.sum_cons,
      List.sum_nil, List.nil_append, List.cons_append, counts_perfCall]
    norm_num [perfCfg, perfCall, Dbl.div, Dbl.add, wrap64]
  · show (counts perfCfg (perfCall 1)).2.1 = 20480
    rw [counts_perfCall]

/-! ## The copy-back of the chemistry solver -/

theorem wrap32_eq (x : Int) (h0 : 0 ≤ x) (h1 : x < 2147483648) : wrap32 x = x := by
  unfold wrap32
  rw [Int.emod_eq_of_lt (by omega) (by omega)]
  omega

theorem set_engy_read (F : FluidData) (Sg lv PID idx : Int) (x : Dbl) (Sg1 lv1 P1 i1 : Int) :
    (F.set Sg lv PID FluidVar.ENGY idx x) Sg1 lv1 P1 FluidVar.ENGY i1 =
      if Sg1 = Sg ∧ lv1 = lv ∧ P1 = PID ∧ i1 = idx then x
      else F Sg1 lv1 P1 FluidVar.ENGY i1 := by
  simp [FluidData.set]

theorem set_enpy_read (F : FluidData) (Sg lv PID idx : Int) (x : Dbl) (Sg1 lv1 P1 i1 : Int) :
    (F.set Sg lv PID FluidVar.ENPY idx x) Sg1 lv1 P1 FluidVar.ENGY i1 =
      F Sg1 lv1 P1 FluidVar.ENGY i1 := by
  simp [FluidData.set]

/-- The loop over `idx_p`: the counter advances by the number of cells and cell `i` of
the patch receives the value read at the counter of its iteration. -/
theorem cellLoop_spec (cfg : GrackleConfig) (lv SaveSg : Int) (h : Int → ℚ)
    (PID pD pS pE : Int) (F : FluidData) (g : Int) (hg : 0 ≤ g) (n : Nat)
    (hn : g + n < 2147483648) :
    ((List.range n).foldl (cellStep cfg lv SaveSg h PID pD pS pE) (F, g)).2 = g + n ∧
    ∀ Sg1 lv1 P1 i1 : Int,
      ((List.range n).foldl (cellStep cfg lv SaveSg h PID pD pS pE) (F, g)).1
          Sg1 lv1 P1 FluidVar.ENGY i1 =
        if Sg1 = SaveSg ∧ lv1 = lv ∧ P1 = PID ∧ 0 ≤ i1 ∧ i1 < n then
          cellEngy cfg h pD pS pE (g + i1)
        else F Sg1 lv1 P1 FluidVar.ENGY i1 := by
  induction n with
  | zero =>
    refine ⟨by simp, fun Sg1 lv1 P1 i1 => ?_⟩
    have : ¬ (Sg1 = SaveSg ∧ lv1 = lv ∧ P1 = PID ∧ 0 ≤ i1 ∧ i1 < ((0 : Nat) : Int)) := by
      intro hc
      have := hc.2.2.2
      omega
    rw [if_neg this]
    rfl
  | succ n ih =>
    obtain ⟨hc, hr⟩ := ih (by push_cast at hn ⊢; omega)
    rw [List.range_succ, List.foldl_append, List.foldl_cons, List.foldl_nil]
    refine ⟨?_, fun Sg1 lv1 P1 i1 => ?_⟩
    · simp only [cellStep, hc]
      rw [wrap32_eq _ (by omega) (by push_cast at hn ⊢; omega)]
      push_cast
      ring
    · have hread : (cellStep cfg lv SaveSg h PID pD pS pE
            ((List.range n).foldl (cellStep cfg lv SaveSg h PID pD pS pE) (F, g)) n).1
            Sg1 lv1 P1 FluidVar.ENGY i1 =
          if Sg1 = SaveSg ∧ lv1 = lv ∧ P1 = PID ∧ i1 = (n : Int) then
            cellEngy cfg h pD pS pE (g + n)
          else ((List.range n).foldl (cellStep cfg lv SaveSg h PID pD pS pE) (F, g)).1
            Sg1 lv1 P1 FluidVar.ENGY i1 := by
        simp only [cellStep, hc]
        split_ifs <;> simp_all [set_engy_read, set_enpy_read]
      rw [hread, hr]
      by_cases hk : Sg1 = SaveSg ∧ lv1 = lv ∧ P1 = PID
      · obtain ⟨h1, h2, h3⟩ := hk
        by_cases hi : i1 = (n : Int)
        · rw [if_pos ⟨h1, h2, h3, hi⟩, if_pos ⟨h1, h2, h3, by omega, by push_cast; omega⟩, hi]
        · rw [if_neg (fun hh => hi hh.2.2.2)]
          by_cases hlt : 0 ≤ i1 ∧ i1 < (n : Int)
          · rw [if_pos ⟨h1, h2, h3, hlt.1, hlt.2⟩,
              if_pos ⟨h1, h2, h3, hlt.1, by push_cast; omega⟩]
          · rw [if_neg (fun hh => hlt ⟨hh.2.2.2.1, hh.2.2.2.2⟩),
              if_neg (fun hh => hlt ⟨hh.2.2.2.1, by
                have := hh.2.2.2.2
                push_cast at this
                omega⟩)]
      · rw [if_neg (fun hh => hk ⟨hh.1, hh.2.1, hh.2.2.1⟩),
          if_neg (fun hh => hk ⟨hh.1, hh.2.1, hh.2.2.1⟩),
          if_neg (fun hh => hk ⟨hh.1, hh.2.1, hh.2.2.1⟩)]

/-- The loop over `LocalID`: after `m` patches the counter is `m` times the number of
cells, and cell `i` of the patch `PID0 + L`, `L < m`, holds the value read at
`L*c + i`. -/
theorem patchLoop_spec (cfg : GrackleConfig) (lv SaveSg : Int) (h : Int → ℚ)
    (PID0 pD pS pE : Int) (F : FluidData) (c : Nat) (hc : (CUBE cfg.PS1).toNat = c)
    (hP0 : 0 ≤ PID0) (hP7 : PID0 + 7 < 2147483648) (h8 : 8 * (c : Int) < 2147483648)
    (m : Nat) (hm : m ≤ 8) :
    ((List.range m).foldl (patchStep cfg lv SaveSg h PID0 pD pS pE) (F, 0)).2 = m * c ∧
    ∀ Sg1 lv1 P1 i1 : Int,
      ((List.range m).foldl (patchStep cfg lv SaveSg h PID0 pD pS pE) (F, 0)).1
          Sg1 lv1 P1 FluidVar.ENGY i1 =
        if Sg1 = SaveSg ∧ lv1 = lv ∧ PID0 ≤ P1 ∧ P1 < PID0 + m ∧ 0 ≤ i1 ∧ i1 < c then
          cellEngy cfg h pD pS pE ((P1 - PID0) * c + i1)
        else F Sg1 lv1 P1 FluidVar.ENGY i1 := by
  induction m with
  | zero =>
    refine ⟨by simp, fun Sg1 lv1 P1 i1 => ?_⟩
    have : ¬ (Sg1 = SaveSg ∧ lv1 = lv ∧ PID0 ≤ P1 ∧ P1 < PID0 + ((0 : Nat) : Int) ∧
        0 ≤ i1 ∧ i1 < c) := by
      intro hh
      have h1 := hh.2.2.1
      have h2 := hh.2.2.2.1
      push_cast at h2
      omega
    rw [if_neg this]
    rfl
  | succ m ih =>
    obtain ⟨hcnt, hr⟩ := ih (by omega)
    have hmc : (m : Int) * c ≤ 7 * c :=
      mul_le_mul_of_nonneg_right (by exact_mod_cast (show m ≤ 7 by omega)) (by positivity)
    rw [List.range_succ, List.foldl_append, List.foldl_cons, List.foldl_nil]
    have hstate : (List.range m).foldl (patchStep cfg lv SaveSg h PID0 pD pS pE) (F, 0) =
        (((List.range m).foldl (patchStep cfg lv SaveSg h PID0 pD pS pE) (F, 0)).1,
          (m : Int) * c) := by
      rw [← hcnt]
    have hPID : wrap32 (PID0 + (m : Int)) = PID0 + m :=
      wrap32_eq _ (by omega) (by omega)
    obtain ⟨hc2, hr2⟩ := cellLoop_spec cfg lv SaveSg h (PID0 + m) pD pS pE
      ((List.range m).foldl (patchStep cfg lv SaveSg h PID0 pD pS pE) (F, 0)).1
      ((m : Int) * c) (by positivity) c (by omega)
    have hstep : patchStep cfg lv SaveSg h PID0 pD pS pE
        ((List.range m).foldl (patchStep cfg lv SaveSg h PID0 pD pS pE) (F, 0)) m =
        (List.range c).foldl (cellStep cfg lv SaveSg h (PID0 + m) pD pS pE)
          (((List.range m).foldl (patchStep cfg lv SaveSg h PID0 pD pS pE) (F, 0)).1,
            (m : Int) * c) := by
      rw [patchStep, hc, hPID]
      rw [← hstate]
    rw [hstep]
    refine ⟨?_, fun Sg1 lv1 P1 i1 => ?_⟩
    · rw [hc2]
      push_cast
      ring
    · rw [hr2, hr]
      by_cases hk : Sg1 = SaveSg ∧ lv1 = lv ∧ 0 ≤ i1 ∧ i1 < c
      · obtain ⟨h1, h2, h3, h4⟩ := hk
        by_cases hp : P1 = PID0 + m
        · rw [if_pos ⟨h1, h2, hp, h3, h4⟩,
            if_pos ⟨h1, h2, by omega, by push_cast; omega, h3, h4⟩, hp]
          congr 1
          ring
        · rw [if_neg (fun hh => hp hh.2.2.1)]
          by_cases hlt : PID0 ≤ P1 ∧ P1 < PID0 + m
          · rw [if_pos ⟨h1, h2, hlt.1, hlt.2, h3, h4⟩,
              if_pos ⟨h1, h2, hlt.1, by push_cast; omega, h3, h4⟩]
          · rw [if_neg (fun hh => hlt ⟨hh.2.2.1, hh.2.2.2.1⟩),
              if_neg (fun hh => hlt ⟨hh.2.2.1, by
                have := hh.2.2.2.1
                push_cast at this
                omega⟩)]
      · rw [if_neg (fun hh => hk ⟨hh.1, hh.2.1, hh.2.2.2.1, hh.2.2.2.2⟩),
          if_neg (fun hh => hk ⟨hh.1, hh.2.1, hh.2.2.2.2.1, hh.2.2.2.2.2⟩),
          if_neg (fun hh => hk ⟨hh.1, hh.2.1, hh.2.2.2.2.1, hh.2.2.2.2.2⟩)]

/-- In range, the `int` sizes of the routine are the mathematical ones. -/
theorem grackle_sizes (cfg : GrackleConfig) (NPG : Int) (PID0_List : Int → Int)
    (hR : GrackleInRange cfg NPG PID0_List) (hN : 1 ≤ NPG) :
    CUBE cfg.PS1 = cfg.PS1 ^ 3 ∧ CUBE cfg.PS2 = (2 * cfg.PS1) ^ 3 ∧
    8 * cfg.PS1 ^ 3 < 2147483648 ∧
    wrap32 (NPG * (2 * cfg.PS1) ^ 3) = NPG * (2 * cfg.PS1) ^ 3 ∧
    wrap32 (cfg.CheIdx_Dens * (NPG * (2 * cfg.PS1) ^ 3)) = cheBlock cfg NPG cfg.CheIdx_Dens ∧
    wrap32 (cfg.CheIdx_sEint * (NPG * (2 * cfg.PS1) ^ 3)) = cheBlock cfg NPG cfg.CheIdx_sEint ∧
    wrap32 (cfg.CheIdx_Ek * (NPG * (2 * cfg.PS1) ^ 3)) = cheBlock cfg NPG cfg.CheIdx_Ek ∧
    ∀ TID : Nat, (TID : Int) < NPG →
      wrap32 (TID * (2 * cfg.PS1) ^ 3) = TID * (2 * cfg.PS1) ^ 3 := by
  obtain ⟨hP, ⟨hD0, hD⟩, ⟨hS0, hS⟩, ⟨hE0, hE⟩, -⟩ := hR
  have hp1 : 1 ≤ cfg.PS1 := hP
  have hp2 : cfg.PS1 ≤ cfg.PS1 * cfg.PS1 := by nlinarith
  have hp3 : cfg.PS1 * cfg.PS1 ≤ cfg.PS1 * cfg.PS1 * cfg.PS1 := by nlinarith
  have hX : (2 * cfg.PS1) ^ 3 = 8 * (cfg.PS1 * cfg.PS1 * cfg.PS1) := by ring
  have hc : cfg.PS1 ^ 3 = cfg.PS1 * cfg.PS1 * cfg.PS1 := by ring
  have hB : 8 * (cfg.PS1 * cfg.PS1 * cfg.PS1) ≤ NPG * (8 * (cfg.PS1 * cfg.PS1 * cfg.PS1)) := by
    nlinarith
  have hBD : NPG * (8 * (cfg.PS1 * cfg.PS1 * cfg.PS1)) < 2147483648 := by
    rw [hX] at hD
    nlinarith
  have hkB : ∀ k : Int, 0 ≤ k → (k + 1) * (NPG * (2 * cfg.PS1) ^ 3) < 2147483648 →
      wrap32 (k * (NPG * (2 * cfg.PS1) ^ 3)) = k * (NPG * (2 * cfg.PS1) ^ 3) := by
    intro k hk hb
    rw [hX] at hb ⊢
    exact wrap32_eq _ (by nlinarith) (by nlinarith)
  have hPS2 : cfg.PS2 = 2 * cfg.PS1 := by
    unfold GrackleConfig.PS2
    exact wrap32_eq _ (by omega) (by nlinarith)
  refine ⟨?_, ?_, ?_, ?_, hkB _ hD0 hD, hkB _ hS0 hS, hkB _ hE0 hE, ?_⟩
  · unfold CUBE
    rw [wrap32_eq (cfg.PS1 * cfg.PS1) (by nlinarith) (by nlinarith),
      wrap32_eq _ (by nlinarith) (by nlinarith), hc]
  · unfold CUBE
    rw [hPS2, wrap32_eq (2 * cfg.PS1 * (2 * cfg.PS1)) (by nlinarith) (by nlinarith),
      wrap32_eq _ (by nlinarith) (by nlinarith)]
    ring
  · rw [hc]; omega
  · rw [hX]
    exact wrap32_eq _ (by nlinarith) hBD
  · intro TID hT
    rw [hX]
    have h0 : (0 : Int) ≤ TID := Int.natCast_nonneg TID
    exact wrap32_eq _ (by nlinarith) (by nlinarith)

/-- One patch group: the cells of its eight patches receive the values read from its
part of the field blocks; every other cell keeps its total energy density. -/
theorem groupStep_read (cfg : GrackleConfig) (lv SaveSg : Int) (h : Int → ℚ) (NPG : Int)
    (PID0_List : Int → Int) (hR : GrackleInRange cfg NPG PID0_List) (F : FluidData)
    (TID : Nat) (hT : (TID : Int) < NPG) (Sg1 lv1 P1 i1 : Int) :
    (groupStep cfg lv SaveSg h NPG PID0_List F TID) Sg1 lv1 P1 FluidVar.ENGY i1 =
      if Sg1 = SaveSg ∧ lv1 = lv ∧ PID0_List TID ≤ P1 ∧ P1 < PID0_List TID + 8 ∧
          0 ≤ i1 ∧ i1 < cfg.PS1 ^ 3 then
        cellEngy cfg h
          (cheBlock cfg NPG cfg.CheIdx_Dens + TID * (2 * cfg.PS1) ^ 3)
          (cheBlock cfg NPG cfg.CheIdx_sEint + TID * (2 * cfg.PS1) ^ 3)
          (cheBlock cfg NPG cfg.CheIdx_Ek + TID * (2 * cfg.PS1) ^ 3)
          ((P1 - PID0_List TID) * cfg.PS1 ^ 3 + i1)
      else F Sg1 lv1 P1 FluidVar.ENGY i1 := by
  have hN : 1 ≤ NPG := by
    have : (0 : Int) ≤ TID := Int.natCast_nonneg TID
    omega
  obtain ⟨h1, h2, h3, h4, h5, h6, h7, h8⟩ := grackle_sizes cfg NPG PID0_List hR hN
  obtain ⟨hP0, hP7⟩ := hR.2.2.2.2 TID hT
  have hc0 : 0 ≤ cfg.PS1 ^ 3 := by
    have := hR.1
    positivity
  have hcn : (((CUBE cfg.PS1).toNat : Nat) : Int) = cfg.PS1 ^ 3 := by
    rw [h1]
    exact Int.toNat_of_nonneg hc0
  have hspec := (patchLoop_spec cfg lv SaveSg h (PID0_List TID)
    (cheBlock cfg NPG cfg.CheIdx_Dens + TID * (2 * cfg.PS1) ^ 3)
    (cheBlock cfg NPG cfg.CheIdx_sEint + TID * (2 * cfg.PS1) ^ 3)
    (cheBlock cfg NPG cfg.CheIdx_Ek + TID * (2 * cfg.PS1) ^ 3)
    F (CUBE cfg.PS1).toNat rfl hP0 hP7 (by rw [hcn]; exact h3) 8 (le_refl 8)).2 Sg1 lv1 P1 i1
  rw [hcn] at hspec
  have hg : groupStep cfg lv SaveSg h NPG PID0_List F TID =
      ((List.range 8).foldl
        (patchStep cfg lv SaveSg h (PID0_List TID)
          (cheBlock cfg NPG cfg.CheIdx_Dens + TID * (2 * cfg.PS1) ^ 3)
          (cheBlock cfg NPG cfg.CheIdx_sEint + TID * (2 * cfg.PS1) ^ 3)
          (cheBlock cfg NPG cfg.CheIdx_Ek + TID * (2 * cfg.PS1) ^ 3))
        (F, 0)).1 := by
    simp only [groupStep, h2, h4, h5, h6, h7, h8 TID hT]
  rw [hg, hspec]
  rfl

/-- The loop over `TID`: once the patch group `T0` is processed, the cells of its
patches hold its values, as no later patch group writes them. -/
theorem groupLoop_spec (cfg : GrackleConfig) (lv SaveSg : Int) (h : Int → ℚ) (NPG : Int)
    (PID0_List : Int → Int) (hR : GrackleInRange cfg NPG PID0_List)
    (hD : GrackleDisjoint NPG PID0_List) (F : FluidData) (t : Nat) (ht : (t : Int) ≤ NPG)
    (T0 L : Nat) (hT0 : T0 < t) (hL : L < 8) (i1 : Int) (hi0 : 0 ≤ i1)
    (hi1 : i1 < cfg.PS1 ^ 3) :
    ((List.range t).foldl (groupStep cfg lv SaveSg h NPG PID0_List) F)
        SaveSg lv (PID0_List T0 + L) FluidVar.ENGY i1 =
      cellEngy cfg h
        (cheBlock cfg NPG cfg.CheIdx_Dens + T0 * (2 * cfg.PS1) ^ 3)
        (cheBlock cfg NPG cfg.CheIdx_sEint + T0 * (2 * cfg.PS1) ^ 3)
        (cheBlock cfg NPG cfg.CheIdx_Ek + T0 * (2 * cfg.PS1) ^ 3)
        (L * cfg.PS1 ^ 3 + i1) := by
  induction t with
  | zero => exact absurd hT0 (Nat.not_lt_zero T0)
  | succ t ih =>
    have htN : (t : Int) < NPG := by push_cast at ht; omega
    rw [List.range_succ, List.foldl_append, List.foldl_cons, List.foldl_nil,
      groupStep_read cfg lv SaveSg h NPG PID0_List hR _ t htN]
    rcases Nat.lt_succ_iff_lt_or_eq.mp hT0 with hlt | heq
    · have hT0N : (T0 : Int) < NPG := by omega
      have hout : ¬ (SaveSg = SaveSg ∧ lv = lv ∧ PID0_List t ≤ PID0_List T0 + L ∧
          PID0_List T0 + L < PID0_List t + 8 ∧ 0 ≤ i1 ∧ i1 < cfg.PS1 ^ 3) := by
        intro hh
        obtain ⟨-, -, ha, hb, -, -⟩ := hh
        have hnn : 0 ≤ PID0_List T0 + L - PID0_List t := by omega
        have hL2 : (PID0_List T0 + L - PID0_List t).toNat < 8 := by omega
        apply hD T0 t hT0N htN (by omega) L (PID0_List T0 + L - PID0_List t).toNat hL hL2
        rw [Int.toNat_of_nonneg hnn]
        ring
      rw [if_neg hout]
      exact ih (by omega) hlt
    · subst heq
      rw [if_pos ⟨rfl, rfl, by omega, by omega, hi0, hi1⟩]
      congr 1
      ring

/-- The value computed for a cell depends on the place of its entries in the array
alone. -/
theorem cellEngy_offset (cfg : GrackleConfig) (h : Int → ℚ) (NPG : Int)
    (TID LocalID idx_p : Nat) :
    cellEngy cfg h
        (cheBlock cfg NPG cfg.CheIdx_Dens + TID * (2 * cfg.PS1) ^ 3)
        (cheBlock cfg NPG cfg.CheIdx_sEint + TID * (2 * cfg.PS1) ^ 3)
        (cheBlock cfg NPG cfg.CheIdx_Ek + TID * (2 * cfg.PS1) ^ 3)
        (LocalID * cfg.PS1 ^ 3 + idx_p) =
      cellEngy cfg h (cheBlock cfg NPG cfg.CheIdx_Dens) (cheBlock cfg NPG cfg.CheIdx_sEint)
        (cheBlock cfg NPG cfg.CheIdx_Ek) (cheOffset cfg TID LocalID idx_p) := by
  have e : ∀ b : Int, b + TID * (2 * cfg.PS1) ^ 3 + (LocalID * cfg.PS1 ^ 3 + idx_p) =
      b + cheOffset cfg TID LocalID idx_p := by
    intro b
    unfold cheOffset
    ring
  unfold cellEngy cellPres
  rw [e, e, e]

/-- The whole call: the cell `idx_p` of the patch `PID0_List[TID] + LocalID` receives the
value computed from the entries at the offset of the cell in the three field blocks. -/
theorem grackle_close_read (cfg : GrackleConfig) (lv SaveSg : Int) (h : Int → ℚ) (NPG : Int)
    (PID0_List : Int → Int) (F : FluidData)
    (hR : GrackleInRange cfg NPG PID0_List) (hD : GrackleDisjoint NPG PID0_List)
    (TID LocalID idx_p : Nat) (hT : (TID : Int) < NPG) (hL : LocalID < 8)
    (hi : (idx_p : Int) < cfg.PS1 ^ 3) :
    (Grackle_Close cfg lv SaveSg h NPG PID0_List F) SaveSg lv (PID0_List TID + LocalID)
        FluidVar.ENGY idx_p =
      cellEngy cfg h (cheBlock cfg NPG cfg.CheIdx_Dens) (cheBlock cfg NPG cfg.CheIdx_sEint)
        (cheBlock cfg NPG cfg.CheIdx_Ek) (cheOffset cfg TID LocalID idx_p) := by
  have hT0 : (0 : Int) ≤ TID := Int.natCast_nonneg TID
  have ht : ((NPG.toNat : Nat) : Int) = NPG := Int.toNat_of_nonneg (by omega)
  have := groupLoop_spec cfg lv SaveSg h NPG PID0_List hR hD F NPG.toNat (le_of_eq ht)
    TID LocalID (by omega) hL idx_p (Int.natCast_nonneg idx_p) hi
  rw [cellEngy_offset] at this
  exact this

theorem cheOffset_bounds (cfg : GrackleConfig) (hP : 0 < cfg.PS1) (NPG : Int)
    (T L i : Nat) (hT : (T : Int) < NPG) (hL : L < 8) (hi : (i : Int) < cfg.PS1 ^ 3) :
    (L : Int) * cfg.PS1 ^ 3 + i < (2 * cfg.PS1) ^ 3 ∧
    0 ≤ cheOffset cfg T L i ∧ cheOffset cfg T L i < NPG * (2 * cfg.PS1) ^ 3 := by
  have hX : (2 * cfg.PS1) ^ 3 = 8 * cfg.PS1 ^ 3 := by ring
  have hc : 0 < cfg.PS1 ^ 3 := by positivity
  have hT0 : (0 : Int) ≤ T := Int.natCast_nonneg T
  have hL0 : (0 : Int) ≤ L := Int.natCast_nonneg L
  have hi0 : (0 : Int) ≤ i := Int.natCast_nonneg i
  have hL7 : (L : Int) ≤ 7 := by omega
  unfold cheOffset
  rw [hX]
  generalize cfg.PS1 ^ 3 = c at *
  refine ⟨by nlinarith, by positivity, by nlinarith⟩

theorem cheOffset_inj (cfg : GrackleConfig) (hP : 0 < cfg.PS1)
    (T L i T2 L2 i2 : Nat) (hL : L < 8) (hi : (i : Int) < cfg.PS1 ^ 3)
    (hL2 : L2 < 8) (hi2 : (i2 : Int) < cfg.PS1 ^ 3)
    (he : cheOffset cfg T L i = cheOffset cfg T2 L2 i2) : T = T2 ∧ L = L2 ∧ i = i2 := by
  have hX : (2 * cfg.PS1) ^ 3 = 8 * cfg.PS1 ^ 3 := by ring
  have hc : 0 < cfg.PS1 ^ 3 := by positivity
  have hi0 : (0 : Int) ≤ i := Int.natCast_nonneg i
  have hi20 : (0 : Int) ≤ i2 := Int.natCast_nonneg i2
  unfold cheOffset at he
  rw [hX] at he
  generalize cfg.PS1 ^ 3 = c at *
  have hq : (8 * (T : Int) + L) = 8 * (T2 : Int) + L2 := by
    rcases lt_trichotomy (8 * (T : Int) + L) (8 * (T2 : Int) + L2) with h | h | h
    · exfalso
      have := mul_le_mul_of_nonneg_right (show 8 * (T : Int) + L + 1 ≤ 8 * (T2 : Int) + L2 by omega)
        (le_of_lt hc)
      nlinarith
    · exact h
    · exfalso
      have := mul_le_mul_of_nonneg_right (show 8 * (T2 : Int) + L2 + 1 ≤ 8 * (T : Int) + L by omega)
        (le_of_lt hc)
      nlinarith
  have hii : (i : Int) = i2 := by
    have := congrArg (fun x => x * c) hq
    simp only at this
    nlinarith
  exact ⟨by omega, by omega, by omega⟩

theorem cheOffset_surj (cfg : GrackleConfig) (hP : 0 < cfg.PS1) (NPG : Int)
    (j : Int) (hj0 : 0 ≤ j) (hj : j < NPG * (2 * cfg.PS1) ^ 3) :
    ∃ T L i : Nat, (T : Int) < NPG ∧ L < 8 ∧ (i : Int) < cfg.PS1 ^ 3 ∧
      cheOffset cfg T L i = j := by
  have hX : (2 * cfg.PS1) ^ 3 = 8 * cfg.PS1 ^ 3 := by ring
  have hc : 0 < cfg.PS1 ^ 3 := by positivity
  unfold cheOffset
  rw [hX] at hj ⊢
  generalize cfg.PS1 ^ 3 = c at *
  have hdm := Int.ediv_add_emod j c
  have hm0 := Int.emod_nonneg j (ne_of_gt hc)
  have hm1 := Int.emod_lt_of_pos j hc
  have ha0 : 0 ≤ j / c := Int.ediv_nonneg hj0 (le_of_lt hc)
  have ha : j / c < 8 * NPG := by
    by_contra hcon
    have := mul_le_mul_of_nonneg_left (not_lt.mp hcon) (le_of_lt hc)
    nlinarith
  refine ⟨(j / c / 8).toNat, (j / c % 8).toNat, (j % c).toNat, ?_, ?_, ?_, ?_⟩
  · omega
  · omega
  · rw [Int.toNat_of_nonneg hm0]; exact hm1
  · rw [Int.toNat_of_nonneg hm0, Int.toNat_of_nonneg (by omega : 0 ≤ j / c / 8),
      Int.toNat_of_nonneg (by omega : 0 ≤ j / c % 8)]
    have h8 := Int.ediv_add_emod (j / c) 8
    have : j / c / 8 * (8 * c) + j / c % 8 * c = c * (j / c) := by
      have := congrArg (fun x => c * x) h8
      simp only at this
      nlinarith
    linarith

/-! ## The copy-back example in `float` arithmetic -/

/-- The difference `GAMMA - 1` of the copy-back example is a `float`. -/
theorem roundTo_binary32_gamma_m1 : roundTo binary32 (5592405 / 8388608) = Dbl.fin (5592405 / 8388608) := by
  have h := roundTo_eval binary32 (5592405 / 8388608) (-1) 11184810
    (by norm_num [abs_of_pos]) (by norm_num [abs_of_pos]) (by decide)
    (by norm_num [binary32]) (by norm_num [binary32]) (by norm_num [binary32, abs_of_pos])
  rw [h]
  norm_num [binary32]

/-- The `float` nearest to the reciprocal of `GAMMA - 1` in the copy-back example. -/
theorem roundTo_binary32_reciprocal : roundTo binary32 (8388608 / 5592405) = Dbl.fin (12582913 / 8388608) := by
  have h := roundTo_eval binary32 (8388608 / 5592405) 0 12582913
    (by norm_num [abs_of_pos]) (by norm_num [abs_of_pos]) (by decide)
    (by norm_num [binary32]) (by norm_num [binary32]) (by norm_num [binary32, abs_of_pos])
  rw [h]
  norm_num [binary32]

/-- The number `7` is a `float`. -/
theorem roundTo_binary32_seven : roundTo binary32 (7) = Dbl.fin (7) := by
  have h := roundTo_eval binary32 (7) 2 14680064
    (by norm_num [abs_of_pos]) (by norm_num [abs_of_pos]) (by decide)
    (by norm_num [binary32]) (by norm_num [binary32]) (by norm_num [binary32, abs_of_pos])
  rw [h]
  norm_num [binary32]

/-- The `float` nearest to the product `7 * ( GAMMA - 1 )` of the copy-back example. -/
theorem roundTo_binary32_pres : roundTo binary32 (39146835 / 8388608) = Dbl.fin (9786709 / 2097152) := by
  have h := roundTo_eval binary32 (39146835 / 8388608) 2 9786709
    (by norm_num [abs_of_pos]) (by norm_num [abs_of_pos]) (by decide)
    (by norm_num [binary32]) (by norm_num [binary32]) (by norm_num [binary32, abs_of_pos])
  rw [h]
  norm_num [binary32]

/-- The `float` nearest to the product of the pressure and the rounded reciprocal. -/
theorem roundTo_binary32_product : roundTo binary32 (123145307903317 / 17592186044416) = Dbl.fin (14680065 / 2097152) := by
  have h := roundTo_eval binary32 (123145307903317 / 17592186044416) 2 14680065
    (by norm_num [abs_of_pos]) (by norm_num [abs_of_pos]) (by decide)
    (by norm_num [binary32]) (by norm_num [binary32]) (by norm_num [binary32, abs_of_pos])
  rw [h]
  norm_num [binary32]

/-- The stored value of the copy-back example is a `float`. -/
theorem roundTo_binary32_engy : roundTo binary32 (14680065 / 2097152) = Dbl.fin (14680065 / 2097152) := by
  have h := roundTo_eval binary32 (14680065 / 2097152) 2 14680065
    (by norm_num [abs_of_pos]) (by norm_num [abs_of_pos]) (by decide)
    (by norm_num [binary32]) (by norm_num [binary32]) (by norm_num [binary32, abs_of_pos])
  rw [h]
  norm_num [binary32]

/-- The `float` nearest to the quotient of the pressure by `GAMMA - 1` is `7`. -/
theorem roundTo_binary32_quotient : roundTo binary32 (39146836 / 5592405) = Dbl.fin (7) := by
  have h := roundTo_eval binary32 (39146836 / 5592405) 2 14680064
    (by norm_num [abs_of_pos]) (by norm_num [abs_of_pos]) (by decide)
    (by norm_num [binary32]) (by norm_num [binary32]) (by norm_num [binary32, abs_of_pos])
  rw [h]
  norm_num [binary32]

theorem grackleCfg_inRange : GrackleInRange grackleCfg 2 (fun T => 8 * T) := by
  refine ⟨by decide, ⟨by decide, by decide⟩, ⟨by decide, by decide⟩,
    ⟨by decide, by decide⟩, fun TID hT => ?_⟩
  show (0 : Int) ≤ 8 * (TID : Int) ∧ 8 * (TID : Int) + 7 < 2147483648
  omega

theorem grackleCfg_disjoint : GrackleDisjoint 2 (fun T => 8 * T) := by
  intro T1 T2 _ _ hne L1 L2 h1 h2
  show (8 : Int) * T1 + L1 ≠ 8 * T2 + L2
  omega

theorem grackleCfg_Gamma_m1 : grackleCfg.Gamma_m1 = Dbl.fin (5592405 / 8388608) := by
  show roundTo binary32 (13981013 / 8388608 - 1) = _
  rw [show (13981013 / 8388608 - 1 : ℚ) = 5592405 / 8388608 by norm_num]
  exact roundTo_binary32_gamma_m1

theorem grackleCfg_reciprocal : grackleCfg._Gamma_m1 = Dbl.fin (12582913 / 8388608) := by
  unfold GrackleConfig._Gamma_m1
  rw [grackleCfg_Gamma_m1]
  simp only [Dbl.div, if_neg (show (5592405 / 8388608 : ℚ) ≠ 0 by norm_num)]
  show roundTo binary32 (1 / (5592405 / 8388608)) = _
  rw [show (1 / (5592405 / 8388608) : ℚ) = 8388608 / 5592405 by norm_num]
  exact roundTo_binary32_reciprocal

/-- The pressure of the cell at offset `11` of the copy-back example. -/
theorem grackleCfg_cellPres :
    cellPres grackleCfg cheArray 0 16 11 = Dbl.fin (9786709 / 2097152) := by
  unfold cellPres
  rw [grackleCfg_Gamma_m1]
  have h1 : cheArray (16 + 11) = 7 := by decide!
  have h2 : cheArray (0 + 11) = 1 := by decide!
  rw [h1, h2]
  show (if Dbl.lt (Dbl.rounded (roundTo binary32)
      (Dbl.mul (Dbl.rounded (roundTo binary32) (Dbl.mul (Dbl.fin 7) (Dbl.fin 1)))
        (Dbl.fin (5592405 / 8388608)))) (Dbl.fin 0) then Dbl.fin 0
    else Dbl.rounded (roundTo binary32)
      (Dbl.mul (Dbl.rounded (roundTo binary32) (Dbl.mul (Dbl.fin 7) (Dbl.fin 1)))
        (Dbl.fin (5592405 / 8388608)))) = _
  have e1 : Dbl.rounded (roundTo binary32) (Dbl.mul (Dbl.fin 7) (Dbl.fin 1)) = Dbl.fin 7 := by
    show roundTo binary32 (7 * 1) = _
    rw [mul_one]
    exact roundTo_binary32_seven
  have e2 : Dbl.rounded (roundTo binary32) (Dbl.mul (Dbl.fin 7) (Dbl.fin (5592405 / 8388608))) =
      Dbl.fin (9786709 / 2097152) := by
    show roundTo binary32 (7 * (5592405 / 8388608)) = _
    rw [show (7 * (5592405 / 8388608) : ℚ) = 39146835 / 8388608 by norm_num]
    exact roundTo_binary32_pres
  rw [e1, e2, if_neg (by simp only [Dbl.lt]; norm_num)]

/-- The value stored for the cell at offset `11` of the copy-back example: `7 + 2^(-21)`. -/
theorem grackleCfg_cellEngy :
    cellEngy grackleCfg cheArray 0 16 32 11 = Dbl.fin (14680065 / 2097152) := by
  unfold cellEngy
  rw [grackleCfg_cellPres, grackleCfg_reciprocal]
  have h3 : cheArray (32 + 11) = 0 := by decide!
  rw [h3]
  have e1 : Dbl.rounded grackleCfg.rnd
      (Dbl.mul (Dbl.fin (9786709 / 2097152)) (Dbl.fin (12582913 / 8388608))) =
      Dbl.fin (14680065 / 2097152) := by
    show roundTo binary32 (9786709 / 2097152 * (12582913 / 8388608)) = _
    rw [show (9786709 / 2097152 * (12582913 / 8388608) : ℚ) =
      123145307903317 / 17592186044416 by norm_num]
    exact roundTo_binary32_product
  rw [e1]
  show roundTo binary32 (14680065 / 2097152 + 0) = _
  rw [add_zero]
  exact roundTo_binary32_engy

/-- The value of the quotient formula for the cell at offset `11` of the copy-back
example: `7`. -/
theorem grackleCfg_specEngy : specEngy grackleCfg cheArray 2 1 3 0 = Dbl.fin 7 := by
  have hp : cellPres grackleCfg cheArray 0 16 11 = Dbl.fin (9786709 / 2097152) :=
    grackleCfg_cellPres
  have hg : grackleCfg.rnd (grackleCfg.GAMMA - 1) = Dbl.fin (5592405 / 8388608) :=
    grackleCfg_Gamma_m1
  have hs : specEngy grackleCfg cheArray 2 1 3 0 =
      Dbl.rounded grackleCfg.rnd
        (Dbl.add
          (Dbl.rounded grackleCfg.rnd
            (Dbl.div (cellPres grackleCfg cheArray 0 16 11)
              (grackleCfg.rnd (grackleCfg.GAMMA - 1))))
          (Dbl.fin (cheArray (32 + 11)))) := rfl
  rw [hs, hp, hg]
  have h3 : cheArray (32 + 11) = 0 := by decide!
  rw [h3]
  have e1 : Dbl.rounded grackleCfg.rnd
      (Dbl.div (Dbl.fin (9786709 / 2097152)) (Dbl.fin (5592405 / 8388608))) = Dbl.fin 7 := by
    simp only [Dbl.div, if_neg (show (5592405 / 8388608 : ℚ) ≠ 0 by norm_num)]
    show roundTo binary32 (9786709 / 2097152 / (5592405 / 8388608)) = _
    rw [show (9786709 / 2097152 / (5592405 / 8388608) : ℚ) = 39146836 / 5592405 by norm_num]
    exact roundTo_binary32_quotient
  rw [e1]
  show roundTo binary32 (7 + 0) = _
  rw [add_zero]
  exact roundTo_binary32_seven

/-- C18, counterexample: `real = float`, `GAMMA = 13981013 / 2^23` (the `float` nearest to
`5/3`), two patch groups of one-cell patches at `PID0 = 0, 8`, and in every cell
`Dens = 1`, `sEint = 7`, `Ek = 0`, `MIN_PRES = 0`.  The call stores `7 + 2^(-21)` in the
cell of the patch `8 + 3`, the rounded product of the pressure and the rounded reciprocal
`_Gamma_m1`, whereas the quotient `CPU_CheckMinPres( sEint*Dens*(GAMMA-1), MIN_PRES ) /
(GAMMA-1) + Ek` is `7`, in `float` arithmetic and in exact arithmetic. -/
theorem C18_product_not_quotient :
    GrackleInRange grackleCfg 2 (fun T => 8 * T) ∧ GrackleDisjoint 2 (fun T => 8 * T) ∧
    (Grackle_Close grackleCfg 0 1 cheArray 2 (fun T => 8 * T) (fun _ _ _ _ _ => Dbl.nan))
        1 0 11 FluidVar.ENGY 0 = Dbl.fin (14680065 / 2097152) ∧
    specEngy grackleCfg cheArray 2 1 3 0 = Dbl.fin 7 ∧
    max (cheArray 27 * cheArray 11 * (grackleCfg.GAMMA - 1)) grackleCfg.MIN_PRES /
        (grackleCfg.GAMMA - 1) + cheArray 43 = 7 ∧
    (Grackle_Close grackleCfg 0 1 cheArray 2 (fun T => 8 * T) (fun _ _ _ _ _ => Dbl.nan))
        1 0 11 FluidVar.ENGY 0 ≠ specEngy grackleCfg cheArray 2 1 3 0 := by
  have hread := grackle_close_read grackleCfg 0 1 cheArray 2 (fun T => 8 * T)
    (fun _ _ _ _ _ => Dbl.nan) grackleCfg_inRange grackleCfg_disjoint 1 3 0
    (by decide) (by decide) (by decide)
  have hval : (Grackle_Close grackleCfg 0 1 cheArray 2 (fun T => 8 * T)
      (fun _ _ _ _ _ => Dbl.nan)) 1 0 11 FluidVar.ENGY 0 = Dbl.fin (14680065 / 2097152) := by
    have hpid : ((fun T : Int => 8 * T) ((1 : Nat) : Int) + ((3 : Nat) : Int)) = 11 := by
      norm_num
    rw [hpid] at hread
    rw [show ((0 : Nat) : Int) = 0 from rfl] at hread
    rw [hread]
    exact grackleCfg_cellEngy
  refine ⟨grackleCfg_inRange, grackleCfg_disjoint, hval, grackleCfg_specEngy, ?_, ?_⟩
  · have h1 : cheArray 27 = 7 := by decide!
    have h2 : cheArray 11 = 1 := by decide!
    have h3 : cheArray 43 = 0 := by decide!
    rw [h1, h2, h3]
    norm_num [grackleCfg]
  · rw [hval, grackleCfg_specEngy]
    intro hc
    have := Dbl.fin.inj hc
    norm_num at this

/-- C18, amended: with sizes and indices in the range of an `int` and no patch in two
patch groups, after the call the `ENGY` value of cell `idx_p` of the patch
`PID0_List[TID] + LocalID` (sandglass `SaveSg`, level `lv`) is `Pres * _Gamma_m1 + Ek`, the
product of the pressure `Pres = CPU_CheckMinPres( sEint*Dens*Gamma_m1, MIN_PRES )` with the
reciprocal `_Gamma_m1 = 1 / Gamma_m1` of `Gamma_m1 = GAMMA - 1` that is computed and
rounded once, every operation rounded to `real` (not the quotient by `GAMMA - 1`, which it
equals up to rounding only), where `Dens`, `sEint`, `Ek` are read from `h_Che_Array` at the
offset `TID*PS2^3 + LocalID*PS1^3 + idx_p` of the blocks that start at `CheIdx*NPG*PS2^3`;
the index `LocalID*PS1^3 + idx_p` inside the patch group is below `PS2^3`, and the offsets
of the cells are exactly the `NPG*PS2^3` entries of a block, each for one cell. -/
theorem C18_copy_back_product (cfg : GrackleConfig) (lv SaveSg : Int) (h : Int → ℚ)
    (NPG : Int) (PID0_List : Int → Int) (F : FluidData)
    (hR : GrackleInRange cfg NPG PID0_List) (hD : GrackleDisjoint NPG PID0_List) :
    (∀ TID LocalID idx_p : Nat, (TID : Int) < NPG → LocalID < 8 →
      (idx_p : Int) < cfg.PS1 ^ 3 →
      (Grackle_Close cfg lv SaveSg h NPG PID0_List F) SaveSg lv (PID0_List TID + LocalID)
          FluidVar.ENGY idx_p =
        Dbl.rounded cfg.rnd
          (Dbl.add
            (Dbl.rounded cfg.rnd
              (Dbl.mul
                (cfg.CPU_CheckMinPres
                  (Dbl.rounded cfg.rnd
                    (Dbl.mul
                      (Dbl.rounded cfg.rnd
                        (Dbl.mul
                          (Dbl.fin (h (cheBlock cfg NPG cfg.CheIdx_sEint +
                            cheOffset cfg TID LocalID idx_p)))
                          (Dbl.fin (h (cheBlock cfg NPG cfg.CheIdx_Dens +
                            cheOffset cfg TID LocalID idx_p)))))
                      (cfg.rnd (cfg.GAMMA - 1))))
                  (Dbl.fin cfg.MIN_PRES))
                (Dbl.rounded cfg.rnd (Dbl.div (Dbl.fin 1) (cfg.rnd (cfg.GAMMA - 1))))))
            (Dbl.fin (h (cheBlock cfg NPG cfg.CheIdx_Ek + cheOffset cfg TID LocalID idx_p)))) ∧
      (LocalID : Int) * cfg.PS1 ^ 3 + idx_p < (2 * cfg.PS1) ^ 3 ∧
      0 ≤ cheOffset cfg TID LocalID idx_p ∧
      cheOffset cfg TID LocalID idx_p < NPG * (2 * cfg.PS1) ^ 3) ∧
    (∀ T L i T2 L2 i2 : Nat, L < 8 → (i : Int) < cfg.PS1 ^ 3 → L2 < 8 →
      (i2 : Int) < cfg.PS1 ^ 3 → cheOffset cfg T L i = cheOffset cfg T2 L2 i2 →
      T = T2 ∧ L = L2 ∧ i = i2) ∧
    (∀ j : Int, 0 ≤ j → j < NPG * (2 * cfg.PS1) ^ 3 →
      ∃ T L i : Nat, (T : Int) < NPG ∧ L < 8 ∧ (i : Int) < cfg.PS1 ^ 3 ∧
        cheOffset cfg T L i = j) := by
  refine ⟨fun TID LocalID idx_p hT hL hi => ⟨?_,
      cheOffset_bounds cfg hR.1 NPG TID LocalID idx_p hT hL hi⟩,
    fun T L i T2 L2 i2 hL hi hL2 hi2 he => cheOffset_inj cfg hR.1 T L i T2 L2 i2 hL hi hL2 hi2 he,
    fun j hj0 hj => cheOffset_surj cfg hR.1 NPG j hj0 hj⟩
  rw [grackle_close_read cfg lv SaveSg h NPG PID0_List F hR hD TID LocalID idx_p hT hL hi]
  rfl

/-- C18 amended, instance: the copy-back example, where the patch `8 + 3` receives
`7 + 2^(-21)`. -/
theorem C18_copy_back_product_witness :
    GrackleInRange grackleCfg 2 (fun T => 8 * T) ∧ GrackleDisjoint 2 (fun T => 8 * T) ∧
    (Grackle_Close grackleCfg 0 1 cheArray 2 (fun T => 8 * T)
      (fun _ _ _ _ _ => Dbl.nan)) 1 0 11 FluidVar.ENGY 0 = Dbl.fin (14680065 / 2097152) := by
  refine ⟨grackleCfg_inRange, grackleCfg_disjoint, ?_⟩
  have hthm := ((C18_copy_back_product grackleCfg 0 1 cheArray 2 (fun T => 8 * T)
    (fun _ _ _ _ _ => Dbl.nan) grackleCfg_inRange grackleCfg_disjoint).1 1 3 0
    (by decide) (by decide) (by decide)).1
  have hpid : ((fun T : Int => 8 * T) ((1 : Nat) : Int) + ((3 : Nat) : Int)) = 11 := by
    norm_num
  rw [hpid] at hthm
  rw [show ((0 : Nat) : Int) = 0 from rfl] at hthm
  rw [hthm]
  exact grackleCfg_cellEngy

end Gamer
